import Mathlib

/-!
# NorthFlankBackend1: the `/proxy` request pipeline of `src/index.js`

A shallow embedding of the Express handler of `src/index.js` and of the
platform primitives it calls (string search, `encodeURIComponent`, the five
regular-expression replacements, the fetch `Headers` class), followed by the
properties of the handler.

Texts are lists of characters (`Text`).  The regular expressions of the source
carry no `u` flag and their classes (`[^>]`, `[^"]`, `[a-zA-Z0-9.-]`) treat
the two halves of a surrogate pair alike, so matching on Unicode scalar values
agrees with matching on UTF-16 code units.
-/

namespace NorthFlank

/-- A JavaScript string. -/
abbrev Text := List Char

/-! ## String primitives -/

/-- `s.includes(needle)`: does `needle` occur in `s` as a contiguous substring? -/
def includes : Text → Text → Bool
  | [], needle => needle.isEmpty
  | c :: cs, needle => needle.isPrefixOf (c :: cs) || includes cs needle

/-- Remove the literal `lit` from the front of `s` (case-sensitive); `none` when `s`
does not start with it. -/
def dropLit : Text → Text → Option Text
  | [], s => some s
  | _ :: _, [] => none
  | p :: ps, c :: cs => if p = c then dropLit ps cs else none

/-- ASCII lower-casing of one character (`A`–`Z` only). -/
def lowerChar (c : Char) : Char :=
  if 65 ≤ c.toNat ∧ c.toNat ≤ 90 then Char.ofNat (c.toNat + 32) else c

/-- ASCII lower-casing of a text. -/
def lower (s : Text) : Text := s.map lowerChar

/-- Remove the lower-case ASCII literal `lit` from the front of `s`, ignoring the
case of ASCII letters, as a regular expression with the `i` flag (and no `u` flag)
does for a literal made of ASCII letters and punctuation. -/
def dropLitCI : Text → Text → Option Text
  | [], s => some s
  | _ :: _, [] => none
  | p :: ps, c :: cs => if p = lowerChar c then dropLitCI ps cs else none

/-- Split `s` at the first occurrence of the character `d`: the text before it and the
text after it; `none` when `d` does not occur. -/
def splitAt1 (d : Char) : Text → Option (Text × Text)
  | [] => none
  | c :: cs =>
    if c = d then some ([], cs)
    else match splitAt1 d cs with
      | none => none
      | some (a, b) => some (c :: a, b)

/-! ## `encodeURIComponent` -/

/-- The characters `encodeURIComponent` leaves as they are:
`A-Z a-z 0-9 - _ . ! ~ * ' ( )`. -/
def isUnreserved (c : Char) : Bool :=
  c.isAlphanum || c == '-' || c == '_' || c == '.' || c == '!' || c == '~' ||
    c == '*' || c == Char.ofNat 39 || c == '(' || c == ')'

/-- The UTF-8 bytes of a character. -/
def utf8Bytes (c : Char) : List Nat :=
  let n := c.toNat
  if n < 128 then [n]
  else if n < 2048 then [192 + n / 64, 128 + n % 64]
  else if n < 65536 then [224 + n / 4096, 128 + n / 64 % 64, 128 + n % 64]
  else [240 + n / 262144, 128 + n / 4096 % 64, 128 + n / 64 % 64, 128 + n % 64]

/-- One upper-case hexadecimal digit. -/
def hexDigit (n : Nat) : Char :=
  if n < 10 then Char.ofNat (48 + n) else Char.ofNat (55 + n)

/-- The escape `%XX` of a byte. -/
def pctByte (b : Nat) : Text := ['%', hexDigit (b / 16), hexDigit (b % 16)]

/-- The encoding of one character by `encodeURIComponent`. -/
def encodeChar (c : Char) : Text :=
  if isUnreserved c then [c] else (utf8Bytes c).flatMap pctByte

/-- `encodeURIComponent(s)`.  A `Text` holds Unicode scalar values only, so the
`URIError` the function raises on a lone surrogate cannot arise. -/
def encodeURIComponent (s : Text) : Text := s.flatMap encodeChar

/-! ## Regular-expression replacement

`String.prototype.replace` with a regular expression and a replacer function.  A
pattern is embedded as a function that tries to match at the very start of a text and
returns the matched substring and the first capture group. -/

/-- A successful match: the matched substring and capture group 1. -/
structure Hit where
  /-- The matched substring (the replacer's first argument). -/
  whole : Text
  /-- The first capture group. -/
  group : Text
deriving DecidableEq, Repr

/-- A piece of a scanned text: a character that belongs to no match, or a match. -/
inductive Seg where
  | lit (c : Char)
  | hit (h : Hit)
deriving DecidableEq, Repr

/-- The left-to-right scan of a `g`-flag replacement: at each position the pattern is
tried; after a match the scan resumes right behind it.  The counter is the number of
characters still to be skipped because they belong to the match just found. -/
def scan (m : Text → Option Hit) : Text → Nat → List Seg
  | [], _ => []
  | _ :: cs, k + 1 => scan m cs k
  | c :: cs, 0 =>
    match m (c :: cs) with
    | some h => Seg.hit h :: scan m cs (h.whole.length - 1)
    | none => Seg.lit c :: scan m cs 0

/-- Assemble the result of a replacement whose replacer cannot throw. -/
def render (f : Hit → Text) : List Seg → Text
  | [] => []
  | Seg.lit c :: r => c :: render f r
  | Seg.hit h :: r => f h ++ render f r

/-- Assemble the result of a replacement whose replacer may throw: the replacer is
called on the matches from left to right and the first exception aborts the call. -/
def renderM (f : Hit → Except Text Text) : List Seg → Except Text Text
  | [] => Except.ok []
  | Seg.lit c :: r =>
    match renderM f r with
    | Except.error e => Except.error e
    | Except.ok t => Except.ok (c :: t)
  | Seg.hit h :: r =>
    match f h with
    | Except.error e => Except.error e
    | Except.ok x =>
      match renderM f r with
      | Except.error e => Except.error e
      | Except.ok t => Except.ok (x ++ t)

/-- `s.replace(/pattern/g, f)`. -/
def replaceAll (m : Text → Option Hit) (f : Hit → Text) (s : Text) : Text :=
  render f (scan m s 0)

/-- `s.replace(/pattern/g, f)` for a replacer that may throw. -/
def replaceAllM (m : Text → Option Hit) (f : Hit → Except Text Text) (s : Text) :
    Except Text Text :=
  renderM f (scan m s 0)

/-- `s.replace(/pattern/, f)` without the `g` flag: only the leftmost match is replaced. -/
def replaceFirst (m : Text → Option Hit) (f : Hit → Text) : Text → Text
  | [] => []
  | c :: cs =>
    match m (c :: cs) with
    | some h => f h ++ (c :: cs).drop h.whole.length
    | none => c :: replaceFirst m f cs

/-- The pattern `/<head([^>]*)>/i` tried at the start of `s`: the letters `head` in
either case, then everything up to the first `>`. -/
def matchHead (s : Text) : Option Hit :=
  match dropLitCI "<head".toList s with
  | none => none
  | some r =>
    match splitAt1 '>' r with
    | none => none
    | some (attrs, _) => some ⟨s.take (5 + attrs.length + 1), attrs⟩

/-- The class `[a-zA-Z0-9.-]`. -/
def isHostChar (c : Char) : Bool := c.isAlphanum || c == '.' || c == '-'

/-- The sub-pattern `https?:\/\/` tried at the start of `s`: the matched scheme text and
the rest. -/
def matchScheme (s : Text) : Option (Text × Text) :=
  match dropLit "https://".toList s with
  | some r => some ("https://".toList, r)
  | none =>
    match dropLit "http://".toList s with
    | some r => some ("http://".toList, r)
    | none => none

/-- The pattern `/https?:\/\/([a-zA-Z0-9.-]+)/` tried at the start of `s`. -/
def matchAbs (s : Text) : Option Hit :=
  match matchScheme s with
  | none => none
  | some (sch, r) =>
    let host := r.takeWhile isHostChar
    if host.isEmpty then none else some ⟨sch ++ host, host⟩

/-- The patterns `/href="\/([^"]*)"/` and `/action="\/([^"]*)"/` tried at the start of
`s`, for the attribute name `attr`: the group is what stands between the leading slash
and the closing quote. -/
def matchRooted (attr : Text) (s : Text) : Option Hit :=
  match dropLit (attr ++ "=\"/".toList) s with
  | none => none
  | some r =>
    match splitAt1 '"' r with
    | none => none
    | some (path, _) => some ⟨attr ++ "=\"/".toList ++ path ++ "\"".toList, path⟩

/-- The pattern `/src="https?:\/\/([^"]+)"/` tried at the start of `s`. -/
def matchSrc (s : Text) : Option Hit :=
  match dropLit "src=\"".toList s with
  | none => none
  | some r =>
    match matchScheme r with
    | none => none
    | some (sch, r2) =>
      match splitAt1 '"' r2 with
      | none => none
      | some (url, _) =>
        if url.isEmpty then none
        else some ⟨"src=\"".toList ++ sch ++ url ++ "\"".toList, url⟩

/-! ## The fetch `Headers` class

A header list is an ordered list of name/value pairs; names are compared ignoring the
case of ASCII letters. -/

/-- A header list. -/
abbrev HeaderList := List (Text × Text)

/-- Two header names are the same name (byte-case-insensitive comparison). -/
def sameName (a b : Text) : Bool := lower a == lower b

/-- The values of all headers called `name`, in list order. -/
def headerValues (hs : HeaderList) (name : Text) : List Text :=
  (hs.filter (fun p => sameName name p.1)).map (fun p => p.2)

/-- Values combined with a comma and a space. -/
def joinValues : List Text → Text
  | [] => []
  | [v] => v
  | v :: w :: r => v ++ ", ".toList ++ joinValues (w :: r)

/-- `headers.get(name)`: the combined value of the headers called `name`, `none` (JavaScript
`null`) when there is none. -/
def Headers.get (hs : HeaderList) (name : Text) : Option Text :=
  match headerValues hs name with
  | [] => none
  | v :: r => some (joinValues (v :: r))

/-- `headers.delete(name)`: every header called `name` is removed. -/
def Headers.delete (hs : HeaderList) (name : Text) : HeaderList :=
  hs.filter (fun p => !sameName name p.1)

/-- Give the first header called `name` the value `value` and drop the later ones. -/
def setFirst (name value : Text) : HeaderList → HeaderList
  | [] => []
  | p :: r =>
    if sameName name p.1 then (p.1, value) :: Headers.delete r name
    else p :: setFirst name value r

/-- `headers.set(name, value)`: when the list has a header called `name`, the first one
takes the value and the others are removed; otherwise the header is appended. -/
def Headers.set (hs : HeaderList) (name value : Text) : HeaderList :=
  if hs.any (fun p => sameName name p.1) then setFirst name value hs
  else hs ++ [(name, value)]

/-- The iteration order of the class ("sort and combine"): the lower-cased names without
repetition in ascending order; every name yields one entry with its combined value,
except `set-cookie`, which yields one entry per header. -/
def Headers.entries (hs : HeaderList) : HeaderList :=
  let names := ((hs.map (fun p => lower p.1)).dedup).insertionSort (fun a b => a ≤ b)
  names.flatMap (fun n =>
    if n = "set-cookie".toList then (headerValues hs n).map (fun v => (n, v))
    else [(n, joinValues (headerValues hs n))])

/-- `new Headers(init)` for an `init` that is itself a `Headers` object: the new list is
filled by iterating `init`. -/
def Headers.copy (hs : HeaderList) : HeaderList := Headers.entries hs

/-! ## Plain objects -/

/-- `obj[key] = value` on an object represented by its own properties: an existing
property keeps its place and takes the value, a new one is added at the end. -/
def objSet (key value : Text) : HeaderList → HeaderList
  | [] => [(key, value)]
  | p :: r => if p.1 = key then (key, value) :: r else p :: objSet key value r

/-- `Object.fromEntries(entries)`: a later entry with the same key overwrites the value of
an earlier one.  (The order of the properties is of no consequence below: the response
keeps one value per field name.) -/
def fromEntries (es : HeaderList) : HeaderList :=
  es.foldl (fun o p => objSet p.1 p.2 o) []

/-! ## The response object -/

/-- What the handler hands to the framework as the body. -/
inductive Body where
  /-- Nothing has been sent. -/
  | empty
  /-- The text given to `res.send`. -/
  | text (t : Text)
  /-- The notice `res.redirect` writes for the given address. -/
  | redirectNotice (url : Text)
deriving DecidableEq, Repr

/-- The response as the handler determines it: the status code, the header fields the
handler sets (by `res.set`, `res.type` and `res.redirect`) as far as the framework keeps
them when it sends, and the body.  Fields the framework adds on its own account when it
sends (its own content length, an entity tag, a default content type, a charset
parameter) are not represented. -/
structure Response where
  status : Nat
  headers : HeaderList
  body : Body
deriving DecidableEq, Repr

/-- The response object before the handler has touched it. -/
def Response.fresh : Response := ⟨200, [], Body.empty⟩

/-- `res.status(code)`. -/
def Response.setStatus (r : Response) (code : Nat) : Response := { r with status := code }

/-- `res.set(field, value)`: the response keeps one value per field name. -/
def Response.setField (r : Response) (field value : Text) : Response :=
  { r with headers := r.headers.filter (fun p => !sameName field p.1) ++ [(field, value)] }

/-- `res.set(obj)`: every property of the object is set as a field. -/
def Response.setAll (r : Response) (obj : HeaderList) : Response :=
  obj.foldl (fun acc p => acc.setField p.1 p.2) r

/-- `res.type(t)`. -/
def Response.type (r : Response) (t : Text) : Response := r.setField "Content-Type".toList t

/-- `res.redirect(code, url)`: the status, the `Location` field and the redirect notice. -/
def Response.redirect (r : Response) (code : Nat) (url : Text) : Response :=
  { (r.setField "Location".toList url) with status := code, body := Body.redirectNotice url }

/-- The value of the response field called `name`. -/
def Response.field (r : Response) (name : Text) : Option Text :=
  (r.headers.find? (fun p => sameName name p.1)).map (fun p => p.2)

/-! ## The platform around the handler -/

/-- The `URL` class as the handler uses it.  Both operations return the message of the
exception when the constructor throws. -/
structure UrlApi where
  /-- `new URL(input).origin`. -/
  origin : Text → Except Text Text
  /-- `new URL(input, base).href`. -/
  href : Text → Text → Except Text Text

/-- The inbound request as far as the handler reads it. -/
structure Request where
  /-- `req.query.url` when it is a string; `none` when the parameter is absent. -/
  url : Option Text
  /-- `req.protocol`. -/
  protocol : Text
  /-- `req.get('host')` as the template literal renders it. -/
  host : Text
  /-- The value `Math.random()` returns inside `randomUserAgent`, in `[0, 1)`. -/
  agentDraw : ℚ
  /-- The value `Math.random()` returns inside `randomAcceptLang`, in `[0, 1)`. -/
  langDraw : ℚ
  /-- The property `req.fresh` as the framework reads it while it sends a response with a
  status 2xx or 304, the given fields and the given text: do the validators of the request
  (`If-None-Match`, `If-Modified-Since`) match that response?  It is `false` for a request
  without these two headers and `true`, for one, for a request with `If-None-Match: *`. -/
  fresh : HeaderList → Text → Bool

/-! ## `res.send` of the framework (Express 4)

For a string, `res.send` reads the `Content-Type` field back, parses it and formats it
again with `charset=utf-8` (the parser throws a `TypeError` on a value it does not
accept), replaces `Content-Length` by its own count, turns a fresh 2xx response into 304
and drops the body and the entity fields of a 204, 205 or 304 response. -/

/-- The token class of a media type: the characters other than letters and digits are
listed in the string. -/
def isTokenChar (c : Char) : Bool :=
  c.isAlphanum || "!#$%&'*+.^_`|~-".toList.contains c

/-- White space as `String.prototype.trim` removes it. -/
def isJsSpace (c : Char) : Bool :=
  [9, 10, 11, 12, 13, 32, 160, 5760, 8232, 8233, 8239, 8287, 12288, 65279].contains c.toNat ||
    (8192 ≤ c.toNat && c.toNat ≤ 8202)

/-- `s.trim()`. -/
def trim (s : Text) : Text :=
  ((s.dropWhile isJsSpace).reverse.dropWhile isJsSpace).reverse

/-- The test of the parser on the trimmed type: a token, a slash, a token. -/
def isMediaType (t : Text) : Bool :=
  match splitAt1 '/' t with
  | none => false
  | some (a, b) => !a.isEmpty && a.all isTokenChar && !b.isEmpty && b.all isTokenChar

/-- A character that may stand unescaped inside a quoted parameter value: code 11, 32, 33,
35–91, 93–126 and 128–255. -/
def isQuotedChar (c : Char) : Bool :=
  c.toNat = 11 || c.toNat = 32 || c.toNat = 33 || (35 ≤ c.toNat && c.toNat ≤ 91) ||
    (93 ≤ c.toNat && c.toNat ≤ 126) || (128 ≤ c.toNat && c.toNat ≤ 255)

/-- A character that may follow a backslash inside a quoted parameter value: code 11 and
32–255. -/
def isEscapable (c : Char) : Bool :=
  c.toNat = 11 || (32 ≤ c.toNat && c.toNat ≤ 255)

/-- Where the parser stands inside the parameter section `; name = value ; ...`. -/
inductive ParamState where
  /-- Behind a complete parameter and its trailing blanks, or at the very start: a
  semicolon must come. -/
  | between
  /-- Behind the semicolon, before the name. -/
  | beforeName
  /-- Inside the name; the characters read so far, last one first. -/
  | name (rev : Text)
  /-- Behind the name, before the equals sign. -/
  | beforeEquals (rev : Text)
  /-- Behind the equals sign, before the value. -/
  | beforeValue (rev : Text)
  /-- Inside a token value. -/
  | token (rev : Text)
  /-- Inside a quoted value; `del` tells whether the value holds the character 127, which
  only an escape can bring in. -/
  | quoted (rev : Text) (del : Bool)
  /-- Behind a backslash inside a quoted value. -/
  | escape (rev : Text) (del : Bool)

/-- The parameter section read by the pattern
`; *(token) *= *("(quoted)*"|token) *`, one match behind the other: the names in lower
case, each with the flag of its value, or `none` where the section is not a sequence of
such matches. -/
def parseParams : ParamState → Text → Option (List (Text × Bool))
  | ParamState.between, [] => some []
  | ParamState.token rev, [] => some [(lower rev.reverse, false)]
  | _, [] => none
  | ParamState.between, c :: r =>
    if c = ';' then parseParams ParamState.beforeName r
    else if c = ' ' then parseParams ParamState.between r
    else none
  | ParamState.beforeName, c :: r =>
    if c = ' ' then parseParams ParamState.beforeName r
    else if isTokenChar c then parseParams (ParamState.name [c]) r
    else none
  | ParamState.name rev, c :: r =>
    if isTokenChar c then parseParams (ParamState.name (c :: rev)) r
    else if c = ' ' then parseParams (ParamState.beforeEquals rev) r
    else if c = '=' then parseParams (ParamState.beforeValue rev) r
    else none
  | ParamState.beforeEquals rev, c :: r =>
    if c = ' ' then parseParams (ParamState.beforeEquals rev) r
    else if c = '=' then parseParams (ParamState.beforeValue rev) r
    else none
  | ParamState.beforeValue rev, c :: r =>
    if c = ' ' then parseParams (ParamState.beforeValue rev) r
    else if c = '"' then parseParams (ParamState.quoted rev false) r
    else if isTokenChar c then parseParams (ParamState.token rev) r
    else none
  | ParamState.token rev, c :: r =>
    if isTokenChar c then parseParams (ParamState.token rev) r
    else if c = ' ' then
      (parseParams ParamState.between r).map (fun ps => (lower rev.reverse, false) :: ps)
    else if c = ';' then
      (parseParams ParamState.beforeName r).map (fun ps => (lower rev.reverse, false) :: ps)
    else none
  | ParamState.quoted rev del, c :: r =>
    if c = '"' then
      (parseParams ParamState.between r).map (fun ps => (lower rev.reverse, del) :: ps)
    else if c = '\\' then parseParams (ParamState.escape rev del) r
    else if isQuotedChar c then parseParams (ParamState.quoted rev del) r
    else none
  | ParamState.escape rev del, c :: r =>
    if isEscapable c then parseParams (ParamState.quoted rev (del || c.toNat = 127)) r
    else none

/-- The flag of the last parameter called `key`. -/
def lastFlag (ps : List (Text × Bool)) (key : Text) : Bool :=
  match ps.reverse.find? (fun p => p.1 = key) with
  | some p => p.2
  | none => false

/-- The message of the `TypeError` with which `setCharset(value, 'utf-8')` ends, `none`
when it returns.  The type before the first semicolon, trimmed, must be a media type; the
rest must be a sequence of parameters; and once `charset` has been overwritten, no
parameter value may hold the character 127, which the formatter refuses. -/
def mediaTypeError (value : Text) : Option Text :=
  let type := trim (value.takeWhile (fun c => c != ';'))
  if !isMediaType type then some "invalid media type".toList
  else
    match parseParams ParamState.between (value.dropWhile (fun c => c != ';')) with
    | none => some "invalid parameter format".toList
    | some ps =>
      if ps.any (fun p => p.1 != "charset".toList && lastFlag ps p.1) then
        some "invalid parameter value".toList
      else none

/-- `res.send(text)`: the message of the exception when the call throws, otherwise the
response as it is sent.  The `Content-Type` the handler has set is parsed (the charset
the framework appends to a text type when the field is set has the form of a parameter
and does not change whether the value parses); a `Content-Length` the handler has set
gives way to the count of the framework; a response with a status 2xx or 304 to a fresh
request becomes a 304; a 204 or 304 response loses `Content-Type`, `Transfer-Encoding`
and its text, a 205 response `Transfer-Encoding` and its text. -/
def Response.send (req : Request) (r : Response) (t : Text) : Except Text Response :=
  match (r.field "Content-Type".toList).bind mediaTypeError with
  | some e => Except.error e
  | none =>
    let kept := r.headers.filter (fun p => !sameName "Content-Length".toList p.1)
    let status :=
      if ((200 ≤ r.status ∧ r.status < 300) ∨ r.status = 304) ∧ req.fresh kept t = true
      then 304 else r.status
    if status = 204 ∨ status = 304 then
      Except.ok ⟨status, kept.filter (fun p => !sameName "Content-Type".toList p.1 &&
        !sameName "Transfer-Encoding".toList p.1), Body.text []⟩
    else if status = 205 then
      Except.ok ⟨status, kept.filter (fun p => !sameName "Transfer-Encoding".toList p.1),
        Body.text []⟩
    else Except.ok ⟨status, kept, Body.text t⟩

/-- A `res.send(text)` that no `try` block of the handler encloses: an exception leaves
the handler and nothing is sent. -/
def Response.sendUncaught (req : Request) (r : Response) (t : Text) : Response :=
  match r.send req t with
  | Except.ok sent => sent
  | Except.error _ => r

/-- The upstream response object the awaited `fetch` resolves to. -/
structure Upstream where
  /-- `upstream.status`. -/
  status : Nat
  /-- `upstream.headers`. -/
  headers : HeaderList
  /-- The string `await upstream.text()` yields. -/
  text : Text
  /-- `upstream.body`: the bytes behind the web stream, `none` for a null body. -/
  body : Option (List Nat)

/-- How the outbound exchange ends. -/
inductive Outcome where
  /-- The awaited `fetch` (or the body read that follows it, which the same `catch`
  handles before any response field is set) rejects with an error of this message. -/
  | failed (message : Text)
  /-- The fetch resolves to a response. -/
  | response (up : Upstream)

/-- What the handler does with a request: it answers at once, or it issues one outbound
fetch and answers according to how that ends. -/
inductive Step where
  | respond (r : Response)
  | fetch (url : Text) (headers : HeaderList) (resume : Outcome → Response)

/-! ## `src/index.js` -/

/-- The constant `RECAPTCHA_WORKER`. -/
def RECAPTCHA_WORKER : Text := "https://recaptcha.uraverageopdoge.workers.dev".toList

/-- The usage text of the two 400 answers. -/
def usageText : Text := "Use /proxy?url=https://example.com".toList

/-- The list of `stripSecurityHeaders`. -/
def strippedNames : List Text :=
  ["content-security-policy".toList,
   "content-security-policy-report-only".toList,
   "x-frame-options".toList,
   "frame-options".toList,
   "cross-origin-embedder-policy".toList,
   "cross-origin-opener-policy".toList,
   "cross-origin-resource-policy".toList]

/-- `stripSecurityHeaders(headers)`: each listed name is deleted in turn. -/
def stripSecurityHeaders (hs : HeaderList) : HeaderList :=
  strippedNames.foldl Headers.delete hs

/-- `pool[Math.floor(r * pool.length)]`; an index outside the array reads `undefined`,
which a header value renders as that word. -/
def pick (pool : List Text) (r : ℚ) : Text :=
  (pool.get? ⌊r * (pool.length : ℚ)⌋₊).getD "undefined".toList

/-- The array `langs`. -/
def langs : List Text :=
  ["en-US,en;q=0.9".toList, "en-GB,en;q=0.8".toList, "en;q=0.7".toList,
   "en-US,en-CA;q=0.8".toList]

/-- The array `agents`. -/
def agents : List Text :=
  ["Mozilla/5.0 (Windows NT 10.0; Win64; x64) AppleWebKit/537.36 (KHTML, like Gecko) Chrome/123.0.0.0 Safari/537.36".toList,
   "Mozilla/5.0 (Macintosh; Intel Mac OS X 13_5_0) AppleWebKit/605.1.15 (KHTML, like Gecko) Version/16.4 Safari/605.1.15".toList,
   "Mozilla/5.0 (X11; Linux x86_64) AppleWebKit/537.36 (KHTML, like Gecko) Chrome/117.0.0.0 Safari/537.36".toList,
   "Mozilla/5.0 (Windows NT 10.0; Win64; x64; rv:118.0) Gecko/20100101 Firefox/118.0".toList]

/-- `randomAcceptLang()` for the drawn number `r`. -/
def randomAcceptLang (r : ℚ) : Text := pick langs r

/-- `randomUserAgent()` for the drawn number `r`. -/
def randomUserAgent (r : ℚ) : Text := pick agents r

/-- The outbound header set of lines 22–31, given the origin of the target. -/
def outboundHeaders (req : Request) (origin : Text) : HeaderList :=
  let h : HeaderList := []
  let h := Headers.set h "User-Agent".toList (randomUserAgent req.agentDraw)
  let h := Headers.set h "Accept-Language".toList (randomAcceptLang req.langDraw)
  let h := Headers.set h "Accept".toList
    "text/html,application/xhtml+xml,application/xml;q=0.9,*/*;q=0.8".toList
  let h := Headers.set h "Referer".toList (origin ++ "/".toList)
  let h := Headers.set h "Sec-Fetch-Site".toList "none".toList
  let h := Headers.set h "Sec-Fetch-Mode".toList "navigate".toList
  let h := Headers.set h "Sec-Fetch-User".toList "?1".toList
  let h := Headers.set h "Sec-Fetch-Dest".toList "document".toList
  Headers.set h "Upgrade-Insecure-Requests".toList "1".toList

/-- The four marker tests of lines 49–52. -/
def hasMarker (b : Text) : Bool :=
  includes b "recaptcha/api.js".toList ||
  includes b "Our systems have detected unusual traffic".toList ||
  includes b "detected unusual traffic from your computer network".toList ||
  includes b "To continue, please type the characters you see".toList

/-- The condition of lines 47–53: `bodyText && (...)`; `null` and the empty string are
falsy. -/
def captchaText (bodyText : Option Text) : Bool :=
  match bodyText with
  | none => false
  | some b => !b.isEmpty && hasMarker b

/-- The address both redirects use: the worker, `/?url=` and the encoded target. -/
def redirectUrl (target : Text) : Text :=
  RECAPTCHA_WORKER ++ "/?url=".toList ++ encodeURIComponent target

/-- The header sanitisation of lines 59–64. -/
def sanitise (upstreamHeaders : HeaderList) : HeaderList :=
  let out := Headers.copy upstreamHeaders
  let out := stripSecurityHeaders out
  let out := Headers.set out "Access-Control-Allow-Origin".toList "*".toList
  let out := Headers.set out "Access-Control-Allow-Methods".toList "GET,POST,OPTIONS".toList
  let out := Headers.set out "Access-Control-Allow-Headers".toList "*".toList
  Headers.set out "X-Proxied-By".toList "Roogle Northflank Proxy".toList

/-- The prefix every rewritten link starts with: `${SELF_BASE}/proxy?url=`. -/
def proxied (selfBase : Text) : Text := selfBase ++ "/proxy?url=".toList

/-- Line 73: the `<base>` tag is put behind the first match of `/<head([^>]*)>/i`. -/
def injectBase (origin : Text) (bodyText : Text) : Text :=
  let base := "<base href=\"".toList ++ origin ++ "/\">".toList
  replaceFirst matchHead (fun h => h.whole ++ base) bodyText

/-- Lines 76–78: the replacement of `/https?:\/\/([a-zA-Z0-9.-]+)/g`. -/
def rewriteAbsolute (selfBase : Text) (s : Text) : Text :=
  replaceAll matchAbs (fun h => proxied selfBase ++ encodeURIComponent h.whole) s

/-- Lines 79–86: the replacement of `/href="\/([^"]*)"/g` (and of the same pattern for
`action`): the captured path is resolved against the target by `new URL(path, target)`. -/
def rewriteRooted (api : UrlApi) (attr selfBase target : Text) (s : Text) : Except Text Text :=
  replaceAllM (matchRooted attr)
    (fun h =>
      match api.href h.group target with
      | Except.error e => Except.error e
      | Except.ok full =>
        Except.ok (attr ++ "=\"".toList ++ proxied selfBase ++ encodeURIComponent full ++
          "\"".toList))
    s

/-- Lines 88–90: the replacement of `/src="https?:\/\/([^"]+)"/g`. -/
def rewriteSrc (selfBase : Text) (s : Text) : Text :=
  replaceAll matchSrc
    (fun h => "src=\"".toList ++ proxied selfBase ++ "https://".toList ++ h.group ++
      "\"".toList)
    s

/-- Lines 72–90: the whole rewriting of an HTML text. -/
def rewriteHtml (api : UrlApi) (selfBase target : Text) (bodyText : Text) : Except Text Text :=
  match api.origin target with
  | Except.error e => Except.error e
  | Except.ok origin =>
    let rewritten := injectBase origin bodyText
    let rewritten := rewriteAbsolute selfBase rewritten
    match rewriteRooted api "href".toList selfBase target rewritten with
    | Except.error e => Except.error e
    | Except.ok rewritten =>
      match rewriteRooted api "action".toList selfBase target rewritten with
      | Except.error e => Except.error e
      | Except.ok rewritten => Except.ok (rewriteSrc selfBase rewritten)

/-- Lines 59–68: the response object once the status and the sanitised headers, turned
into a plain object, have been set on it. -/
def sanitised (up : Upstream) : Response :=
  let headersObject := fromEntries (Headers.entries (sanitise up.headers))
  (Response.fresh.setStatus up.status).setAll headersObject

/-- The `catch` block of lines 108–115, applied to the response object as it stands when
the exception is thrown. -/
def proxyFailed (req : Request) (res : Response) (message : Text) : Response :=
  ((res.setStatus 502).type "text/plain".toList).sendUncaught req
    ("Proxy failed: ".toList ++ message)

/-- The message of the `TypeError` that `upstream.body.pipe(res)` raises: the body of a
response of the built-in `fetch` (line 33) is a web `ReadableStream`, which has no
method `pipe`, or `null`. -/
def pipeMessage (up : Upstream) : Text :=
  match up.body with
  | none => "Cannot read properties of null (reading 'pipe')".toList
  | some _ => "upstream.body.pipe is not a function".toList

/-- Line 35: `upstream.headers.get("content-type") || ""`. -/
def Upstream.contentType (up : Upstream) : Text :=
  (Headers.get up.headers "content-type".toList).getD []

/-- Lines 35–115: what the handler does once the awaited fetch has ended. -/
def afterFetch (api : UrlApi) (req : Request) (selfBase target : Text) : Outcome → Response
  | Outcome.failed message => proxyFailed req Response.fresh message
  | Outcome.response up =>
    let contentType := up.contentType
    if up.status = 429 ∨ up.status = 403 then
      Response.fresh.redirect 302 (redirectUrl target)
    else
      let bodyText := if includes contentType "text".toList then some up.text else none
      if captchaText bodyText then
        Response.fresh.redirect 302 (redirectUrl target)
      else
        let res := sanitised up
        if includes contentType "text/html".toList && bodyText.isSome then
          match rewriteHtml api selfBase target (bodyText.getD []) with
          | Except.error e => proxyFailed req res e
          | Except.ok rewritten =>
            match res.send req rewritten with
            | Except.error e => proxyFailed req res e
            | Except.ok sent => sent
        else
          match bodyText with
          | none => proxyFailed req res (pipeMessage up)
          | some t =>
            match res.send req t with
            | Except.error e => proxyFailed req res e
            | Except.ok sent => sent

/-- The handler of `app.get('/proxy', ...)`. -/
def proxyRoute (api : UrlApi) (req : Request) : Step :=
  let target := req.url.getD []
  if req.url.isNone || target.isEmpty then
    Step.respond ((Response.fresh.setStatus 400).sendUncaught req usageText)
  else
    let selfBase := req.protocol ++ "://".toList ++ req.host
    match api.origin target with
    | Except.error e => Step.respond (proxyFailed req Response.fresh e)
    | Except.ok origin =>
      Step.fetch target (outboundHeaders req origin) (afterFetch api req selfBase target)

/-- The handler of `app.get('/', ...)`. -/
def rootRoute (req : Request) : Response :=
  (Response.fresh.setStatus 400).sendUncaught req usageText

/-- The response the client receives when the network answers a fetch by `net`. -/
def Step.run (net : Text → HeaderList → Outcome) : Step → Response
  | Step.respond r => r
  | Step.fetch url headers resume => resume (net url headers)

/-- Does the step contain an outbound fetch? -/
def Step.fetches : Step → Bool
  | Step.respond _ => false
  | Step.fetch _ _ _ => true

/-! ## A concrete `URL` class for evaluating the handler on examples -/

/-- A host made of lower-case ASCII letters in labels separated by single dots. -/
def isPlainHost (h : Text) : Bool :=
  (h.splitOn '.').all (fun label => !label.isEmpty && label.all Char.isLower)

/-- A path that the URL parser keeps character for character: it starts with `/`, holds
only ASCII letters, digits, `-`, `_`, `~`, `.` and `/`, and none of its segments is `.`
or `..`. -/
def isPlainPath (p : Text) : Bool :=
  p.head? == some '/' &&
  p.all (fun c => c.isAlphanum || c == '-' || c == '_' || c == '~' || c == '.' || c == '/') &&
  (p.splitOn '/').all (fun seg => seg != ".".toList && seg != "..".toList)

/-- Split a plain address `http://host/path` or `https://host/path` into its origin and
its path (`/` when the address stops behind the host). -/
def plainParts (t : Text) : Option (Text × Text) :=
  match matchScheme t with
  | none => none
  | some (sch, r) =>
    let host := r.takeWhile (fun c => c != '/')
    let path := r.dropWhile (fun c => c != '/')
    let path := if path.isEmpty then "/".toList else path
    if isPlainHost host && isPlainPath path then some (sch ++ host, path) else none

/-- The directory of a path: the path up to and including its last `/`. -/
def dirOf (path : Text) : Text :=
  (path.reverse.dropWhile (fun c => c != '/')).reverse

/-- The `URL` class restricted to plain addresses (scheme `http` or `https` in lower
case, a plain host, no port, credentials, query or fragment, a plain path) and to
references that are empty or plain paths with or without a leading slash.  On these
inputs the operations return what the WHATWG URL parser returns.  Every other input is
answered by the exception message `Invalid URL`, which is the platform's answer for some
of them only; the statements below evaluate this class on plain inputs. -/
def plainUrl : UrlApi where
  origin := fun t =>
    match plainParts t with
    | some (o, _) => Except.ok o
    | none => Except.error "Invalid URL".toList
  href := fun ref base =>
    match plainParts base with
    | none => Except.error "Invalid URL".toList
    | some (o, path) =>
      if ref.isEmpty then Except.ok (o ++ path)
      else if ref.head? == some '/' then
        if isPlainPath ref && !("//".toList).isPrefixOf ref then Except.ok (o ++ ref)
        else Except.error "Invalid URL".toList
      else if isPlainPath ('/' :: ref) then Except.ok (o ++ dirOf path ++ ref)
      else Except.error "Invalid URL".toList

/-! ## Example inputs -/

/-- A request for the target `u` that reaches the proxy as `http://proxy.test`. -/
def exampleRequest (u : Option Text) : Request :=
  ⟨u, "http".toList, "proxy.test".toList, 0, 0, fun _ _ => false⟩

/-- An upstream response with the given status, content type and text. -/
def exampleUpstream (status : Nat) (contentType body : Text) : Upstream :=
  ⟨status, [("content-type".toList, contentType)], body, some []⟩

/-- A network that answers every fetch in the same way. -/
def always (o : Outcome) : Text → HeaderList → Outcome := fun _ _ => o

/-! ## Predicates of the statements -/

/-- No header of the list bears, ignoring case, a name of the strip list. -/
def Clean (hs : HeaderList) : Prop := ∀ p ∈ hs, lower p.1 ∉ strippedNames

/-- A character that can stand neither in `http://` or `https://` nor in a host: it is not
in the class `[a-zA-Z0-9.-]` and is neither `/` nor `:`. -/
def isDelimiter (d : Char) : Prop := isHostChar d = false ∧ d ≠ '/' ∧ d ≠ ':'

/-- Lines 60–64 on their own: `stripSecurityHeaders` followed by the four `set` calls, on
the header list `out`. -/
def stripAndSet (out : HeaderList) : HeaderList :=
  let out := stripSecurityHeaders out
  let out := Headers.set out "Access-Control-Allow-Origin".toList "*".toList
  let out := Headers.set out "Access-Control-Allow-Methods".toList "GET,POST,OPTIONS".toList
  let out := Headers.set out "Access-Control-Allow-Headers".toList "*".toList
  Headers.set out "X-Proxied-By".toList "Roogle Northflank Proxy".toList

/-- The `try` block around a `res.send`: an exception of the call is answered by the
`catch` block. -/
def sendOrFail (req : Request) (res : Response) (t : Text) : Response :=
  match res.send req t with
  | Except.error e => proxyFailed req res e
  | Except.ok sent => sent

/-- An upstream response with two `Vary` and two `Set-Cookie` headers. -/
def duplicateUpstream : Upstream :=
  ⟨200, [("Content-Type".toList, "text/plain".toList), ("Vary".toList, "Accept".toList),
    ("Set-Cookie".toList, "a=1".toList), ("vary".toList, "Cookie".toList),
    ("Set-Cookie".toList, "b=2".toList), ("X-Custom".toList, "v".toList)],
    "hello".toList, some []⟩

end NorthFlank

/-! ## Properties of the handler -/

namespace NorthFlank

set_option maxRecDepth 100000

/-! ### Names and response fields -/

theorem toNat_ofNat_small (n : Nat) (h1 : 97 ≤ n) (h2 : n ≤ 122) : (Char.ofNat n).toNat = n := by
  interval_cases n <;> rfl

theorem lowerChar_idem (c : Char) : lowerChar (lowerChar c) = lowerChar c := by
  unfold lowerChar
  by_cases h : 65 ≤ c.toNat ∧ c.toNat ≤ 90
  · rw [if_pos h]
    have hv : (Char.ofNat (c.toNat + 32)).toNat = c.toNat + 32 :=
      toNat_ofNat_small _ (by omega) (by omega)
    rw [if_neg]
    rw [hv]; omega
  · rw [if_neg h, if_neg h]

theorem lower_idem (s : Text) : lower (lower s) = lower s := by
  unfold lower
  rw [List.map_map]
  apply List.map_congr_left
  intro c _
  exact lowerChar_idem c

theorem sameName_iff (a b : Text) : sameName a b = true ↔ lower a = lower b := by
  unfold sameName
  exact beq_iff_eq

theorem sameName_false_iff (a b : Text) : sameName a b = false ↔ lower a ≠ lower b := by
  rw [← Bool.not_eq_true, sameName_iff]

theorem sameName_lower_right (a b : Text) : sameName a (lower b) = sameName a b := by
  unfold sameName
  rw [lower_idem]

theorem field_setField (r : Response) (k v n : Text) :
    (r.setField k v).field n = if sameName n k = true then some v else r.field n := by
  unfold Response.setField Response.field
  dsimp only
  rw [List.find?_append]
  by_cases h : sameName n k = true
  · rw [if_pos h]
    have h0 : List.find? (fun p => sameName n p.1)
        (List.filter (fun p => !sameName k p.1) r.headers) = none := by
      rw [List.find?_eq_none]
      intro p hp
      have := (List.mem_filter.1 hp).2
      rw [Bool.not_eq_true', sameName_false_iff] at this
      rw [Bool.not_eq_true, sameName_false_iff]
      intro e
      exact this (((sameName_iff _ _).1 h).symm.trans e)
    rw [h0]
    simp only [Option.none_or, List.find?_cons, h, List.find?_nil, Option.map_some']
  · rw [if_neg h]
    have h1 : List.find? (fun p => sameName n p.1) [(k, v)] = none := by
      rw [List.find?_eq_none]
      intro p hp
      rw [List.mem_singleton.1 hp]
      exact h
    rw [h1, Option.or_none, List.find?_filter]
    congr 2
    funext p
    cases h2 : sameName n p.1
    · simp
    · have : sameName k p.1 = false := by
        rw [sameName_false_iff]
        intro e
        apply h
        rw [sameName_iff]
        exact ((sameName_iff _ _).1 h2).trans e.symm
      rw [this]
      simp

/-! ### The steps of the handler -/

theorem mediaType_plain : mediaTypeError "text/plain".toList = none := by decide

theorem send_error (req : Request) (r : Response) (t e : Text)
    (h : (r.field "Content-Type".toList).bind mediaTypeError = some e) :
    r.send req t = Except.error e := by
  unfold Response.send
  rw [h]

/-- What `res.send` does when the content type parses and the status is none of those
the framework treats on its own. -/
theorem send_keeps (req : Request) (r : Response) (t : Text)
    (h : (r.field "Content-Type".toList).bind mediaTypeError = none)
    (hf : ¬ (((200 ≤ r.status ∧ r.status < 300) ∨ r.status = 304) ∧
      req.fresh (r.headers.filter (fun p => !sameName "Content-Length".toList p.1)) t = true))
    (h4 : r.status ≠ 204) (h5 : r.status ≠ 205) (h3 : r.status ≠ 304) :
    r.send req t =
      Except.ok ⟨r.status, r.headers.filter (fun p => !sameName "Content-Length".toList p.1),
        Body.text t⟩ := by
  unfold Response.send
  rw [h]
  dsimp only
  rw [if_neg hf, if_neg (by rintro (h | h) <;> contradiction), if_neg h5]

theorem send_high (req : Request) (r : Response) (t : Text)
    (h : (r.field "Content-Type".toList).bind mediaTypeError = none) (hs : 400 ≤ r.status) :
    r.send req t =
      Except.ok ⟨r.status, r.headers.filter (fun p => !sameName "Content-Length".toList p.1),
        Body.text t⟩ :=
  send_keeps req r t h (by omega) (by omega) (by omega) (by omega)

theorem sameName_refl (a : Text) : sameName a a = true := (sameName_iff a a).2 rfl

theorem find_filter_keep (hs : HeaderList) (q : Text × Text → Bool) (n : Text)
    (hq : ∀ p, sameName n p.1 = true → q p = true) :
    (hs.filter q).find? (fun p => sameName n p.1) = hs.find? (fun p => sameName n p.1) := by
  rw [List.find?_filter]
  congr 1
  funext p
  cases h : sameName n p.1
  · simp
  · rw [hq p h]
    rfl

theorem sameName_other {n k : Text} (h : sameName n k = false) (x : Text)
    (hx : sameName n x = true) : (!sameName k x) = true := by
  rw [Bool.not_eq_true', sameName_false_iff]
  intro e
  rw [sameName_false_iff] at h
  exact h (((sameName_iff _ _).1 hx).trans e.symm)

/-- Whatever `res.send` answers: an exception of the content type, or a response whose
body is a text and whose fields are among those set before. -/
theorem send_cases (req : Request) (r : Response) (t : Text) :
    (∃ e, r.send req t = Except.error e ∧
      (r.field "Content-Type".toList).bind mediaTypeError = some e) ∨
    (∃ s, r.send req t = Except.ok s ∧
      (r.field "Content-Type".toList).bind mediaTypeError = none ∧
      (∃ u, s.body = Body.text u) ∧ (∀ p ∈ s.headers, p ∈ r.headers) ∧
      ∀ n, sameName n "Content-Length".toList = false →
        sameName n "Content-Type".toList = false →
        sameName n "Transfer-Encoding".toList = false → s.field n = r.field n) := by
  cases h : (r.field "Content-Type".toList).bind mediaTypeError with
  | some e => exact Or.inl ⟨e, send_error req r t e h, rfl⟩
  | none =>
    right
    unfold Response.send
    rw [h]
    dsimp only
    have key : ∀ n, sameName n "Content-Length".toList = false →
        (r.headers.filter (fun p => !sameName "Content-Length".toList p.1)).find?
          (fun p => sameName n p.1) = r.headers.find? (fun p => sameName n p.1) :=
      fun n hn => find_filter_keep _ _ n (fun p hp => sameName_other hn p.1 hp)
    generalize (if ((200 ≤ r.status ∧ r.status < 300) ∨ r.status = 304) ∧
      req.fresh (r.headers.filter (fun p => !sameName "Content-Length".toList p.1)) t = true
      then 304 else r.status) = st
    by_cases c1 : st = 204 ∨ st = 304
    · rw [if_pos c1]
      refine ⟨_, rfl, rfl, ⟨_, rfl⟩, ?_, ?_⟩
      · intro p hp
        exact (List.mem_filter.1 (List.mem_filter.1 hp).1).1
      · intro n h1 h2 h3
        unfold Response.field
        dsimp only
        rw [find_filter_keep _ _ n, key n h1]
        intro p hp
        rw [Bool.and_eq_true]
        exact ⟨sameName_other h2 p.1 hp, sameName_other h3 p.1 hp⟩
    · rw [if_neg c1]
      by_cases c2 : st = 205
      · rw [if_pos c2]
        refine ⟨_, rfl, rfl, ⟨_, rfl⟩, ?_, ?_⟩
        · intro p hp
          exact (List.mem_filter.1 (List.mem_filter.1 hp).1).1
        · intro n h1 _ h3
          unfold Response.field
          dsimp only
          rw [find_filter_keep _ _ n, key n h1]
          intro p hp
          exact sameName_other h3 p.1 hp
      · rw [if_neg c2]
        refine ⟨_, rfl, rfl, ⟨_, rfl⟩, ?_, ?_⟩
        · intro p hp
          exact (List.mem_filter.1 hp).1
        · intro n h1 _ _
          unfold Response.field
          dsimp only
          rw [key n h1]

theorem field_type (r : Response) (v : Text) :
    (r.type v).field "Content-Type".toList = some v := by
  unfold Response.type
  rw [field_setField, if_pos (sameName_refl _)]

/-- The `catch` block: the status 502, the content type `text/plain` in place of any
other, no `Content-Length` of the handler, and the message as the text. -/
theorem proxyFailed_eq (req : Request) (res : Response) (m : Text) :
    proxyFailed req res m =
      ⟨502, (res.headers.filter (fun p => !sameName "Content-Type".toList p.1) ++
          [("Content-Type".toList, "text/plain".toList)]).filter
            (fun p => !sameName "Content-Length".toList p.1),
        Body.text ("Proxy failed: ".toList ++ m)⟩ := by
  unfold proxyFailed Response.sendUncaught
  have hv : (((res.setStatus 502).type "text/plain".toList).field
      "Content-Type".toList).bind mediaTypeError = none := by
    rw [field_type]
    exact mediaType_plain
  have hs : 400 ≤ ((res.setStatus 502).type "text/plain".toList).status :=
    show 400 ≤ 502 by decide
  rw [send_high req _ _ hv hs]
  rfl

theorem usage_sent (req : Request) :
    (Response.fresh.setStatus 400).sendUncaught req usageText =
      ⟨400, [], Body.text usageText⟩ := by
  unfold Response.sendUncaught
  have hs : 400 ≤ (Response.fresh.setStatus 400).status := show 400 ≤ 400 by decide
  rw [send_high req _ _ (show (Option.bind ((Response.fresh.setStatus 400).field
    "Content-Type".toList) mediaTypeError) = none from rfl) hs]
  rfl

theorem proxyRoute_missing (api : UrlApi) (req : Request) (h : req.url = none) :
    proxyRoute api req = Step.respond ⟨400, [], Body.text usageText⟩ := by
  unfold proxyRoute
  simp only [h, Option.isNone_none, Bool.true_or, if_true]
  rw [usage_sent]

theorem proxyRoute_unparsed (api : UrlApi) (req : Request) (target e : Text)
    (hurl : req.url = some target) (hne : target ≠ [])
    (hbad : api.origin target = Except.error e) :
    proxyRoute api req = Step.respond (proxyFailed req Response.fresh e) := by
  simp [proxyRoute, hurl, hne, hbad]

theorem proxyRoute_fetch (api : UrlApi) (req : Request) (target origin : Text)
    (hurl : req.url = some target) (hne : target ≠ [])
    (hok : api.origin target = Except.ok origin) :
    proxyRoute api req =
      Step.fetch target (outboundHeaders req origin)
        (afterFetch api req (req.protocol ++ "://".toList ++ req.host) target) := by
  simp [proxyRoute, hurl, hne, hok]

theorem proxyFailed_fresh (req : Request) (m : Text) :
    proxyFailed req Response.fresh m =
      ⟨502, [("Content-Type".toList, "text/plain".toList)],
        Body.text ("Proxy failed: ".toList ++ m)⟩ := by
  rw [proxyFailed_eq]
  rfl

theorem redirect_fresh (u : Text) :
    Response.fresh.redirect 302 u =
      ⟨302, [("Location".toList, u)], Body.redirectNotice u⟩ := by
  simp [Response.redirect, Response.fresh, Response.setField]

/-! ### Challenge classification and redirect (C1, C2) -/

theorem captchaText_text (c b : Text) :
    captchaText (if includes c "text".toList = true then some b else none) =
      (includes c "text".toList && hasMarker b) := by
  have h0 : hasMarker [] = false := by decide
  cases hc : includes c "text".toList
  · rfl
  · cases b with
    | nil => simp only [if_true, captchaText, h0]; rfl
    | cons x xs => simp only [if_true, captchaText]; rfl

/-- What the handler does with an upstream response whose status is 403 or 429. -/
theorem afterFetch_status (api : UrlApi) (req : Request) (selfBase target : Text)
    (up : Upstream) (h : up.status = 403 ∨ up.status = 429) :
    afterFetch api req selfBase target (Outcome.response up) =
      Response.fresh.redirect 302 (redirectUrl target) := by
  unfold afterFetch
  dsimp only
  rw [if_pos h.symm]

/-- What the handler does with a text response that holds a marker. -/
theorem afterFetch_marker (api : UrlApi) (req : Request) (selfBase target : Text)
    (up : Upstream)
    (hc : includes up.contentType "text".toList = true) (hm : hasMarker up.text = true) :
    afterFetch api req selfBase target (Outcome.response up) =
      Response.fresh.redirect 302 (redirectUrl target) := by
  unfold afterFetch
  dsimp only
  rw [captchaText_text, hc, hm]
  by_cases h : up.status = 429 ∨ up.status = 403
  · rw [if_pos h]
  · rw [if_neg h]
    exact if_pos rfl

/-- What the handler does with a response that is no challenge: lines 59–106. -/
theorem afterFetch_clear (api : UrlApi) (req : Request) (selfBase target : Text)
    (up : Upstream)
    (hs : ¬ (up.status = 403 ∨ up.status = 429))
    (hm : ¬ (includes up.contentType "text".toList = true ∧ hasMarker up.text = true)) :
    afterFetch api req selfBase target (Outcome.response up) =
      if includes up.contentType "text".toList = true then
        if includes up.contentType "text/html".toList = true then
          match rewriteHtml api selfBase target up.text with
          | Except.error e => proxyFailed req (sanitised up) e
          | Except.ok rewritten => sendOrFail req (sanitised up) rewritten
        else sendOrFail req (sanitised up) up.text
      else proxyFailed req (sanitised up) (pipeMessage up) := by
  have hs2 : ¬ (up.status = 429 ∨ up.status = 403) := fun h => hs h.symm
  have hcap : (includes up.contentType "text".toList && hasMarker up.text) = false := by
    cases h1 : includes up.contentType "text".toList
    · rfl
    · cases h2 : hasMarker up.text
      · rfl
      · exact absurd ⟨h1, h2⟩ hm
  unfold afterFetch sendOrFail
  dsimp only
  rw [if_neg hs2, captchaText_text, hcap, if_neg Bool.false_ne_true]
  cases h1 : includes up.contentType "text".toList
  · rw [if_neg Bool.false_ne_true, if_neg Bool.false_ne_true]
    have e : (includes up.contentType "text/html".toList && (none : Option Text).isSome) =
        false := Bool.and_false _
    rw [e, if_neg Bool.false_ne_true]
  · rw [if_pos rfl, if_pos rfl]
    have e : (includes up.contentType "text/html".toList && (some up.text).isSome) =
        includes up.contentType "text/html".toList := Bool.and_true _
    rw [e]
    cases h2 : includes up.contentType "text/html".toList
    · rw [if_neg Bool.false_ne_true, if_neg Bool.false_ne_true]
    · rw [if_pos rfl, if_pos rfl, Option.getD_some]

theorem sendOrFail_body (req : Request) (res : Response) (t : Text) :
    ∃ u, (sendOrFail req res t).body = Body.text u := by
  unfold sendOrFail
  rcases send_cases req res t with ⟨e, he, _⟩ | ⟨s, hs, _, hb, _⟩
  · rw [he]
    dsimp only
    rw [proxyFailed_eq]
    exact ⟨_, rfl⟩
  · rw [hs]
    exact hb

/-- A response that is no challenge is answered with a body given to `res.send`. -/
theorem afterFetch_plain (api : UrlApi) (req : Request) (selfBase target : Text)
    (up : Upstream)
    (hs : ¬ (up.status = 403 ∨ up.status = 429))
    (hm : ¬ (includes up.contentType "text".toList = true ∧ hasMarker up.text = true)) :
    ∃ t, (afterFetch api req selfBase target (Outcome.response up)).body = Body.text t := by
  rw [afterFetch_clear api req selfBase target up hs hm]
  split
  · split
    · split
      · rw [proxyFailed_eq]
        exact ⟨_, rfl⟩
      · exact sendOrFail_body _ _ _
    · exact sendOrFail_body _ _ _
  · rw [proxyFailed_eq]
    exact ⟨_, rfl⟩

theorem hasMarker_iff (b : Text) :
    hasMarker b = true ↔
      (includes b "recaptcha/api.js".toList = true ∨
       includes b "Our systems have detected unusual traffic".toList = true ∨
       includes b "detected unusual traffic from your computer network".toList = true ∨
       includes b "To continue, please type the characters you see".toList = true) := by
  unfold hasMarker
  simp only [Bool.or_eq_true, or_assoc]

/-- C1. For a target that parses as an absolute URL and an upstream response with status
`s`, content type `c` and body text `b`, the handler answers with the challenge redirect
(status 302, `Location` the worker address with the encoded target) if and only if `s` is
403 or 429, or `c` contains `text` and `b` contains one of the four marker substrings. -/
theorem challenge_classification_exact (api : UrlApi) (req : Request)
    (net : Text → HeaderList → Outcome) (target origin : Text) (up : Upstream)
    (hurl : req.url = some target) (hne : target ≠ [])
    (hok : api.origin target = Except.ok origin)
    (hnet : net target (outboundHeaders req origin) = Outcome.response up) :
    (proxyRoute api req).run net =
        ⟨302, [("Location".toList, RECAPTCHA_WORKER ++ "/?url=".toList ++
            encodeURIComponent target)],
          Body.redirectNotice (RECAPTCHA_WORKER ++ "/?url=".toList ++
            encodeURIComponent target)⟩ ↔
      (up.status = 403 ∨ up.status = 429 ∨
        (includes up.contentType "text".toList = true ∧
          (includes up.text "recaptcha/api.js".toList = true ∨
           includes up.text "Our systems have detected unusual traffic".toList = true ∨
           includes up.text
             "detected unusual traffic from your computer network".toList = true ∨
           includes up.text
             "To continue, please type the characters you see".toList = true))) := by
  rw [proxyRoute_fetch api req target origin hurl hne hok, Step.run, hnet, ← hasMarker_iff,
    ← or_assoc]
  constructor
  · intro h
    by_contra hcon
    rw [not_or] at hcon
    obtain ⟨t, ht⟩ := afterFetch_plain api req (req.protocol ++ "://".toList ++ req.host) target up
      hcon.1 hcon.2
    rw [h] at ht
    exact Body.noConfusion ht
  · rintro (h | ⟨hc, hm⟩)
    · rw [afterFetch_status _ _ _ _ _ h, redirect_fresh]
      rfl
    · rw [afterFetch_marker _ _ _ _ _ hc hm, redirect_fresh]
      rfl

/-- C2. For every target and every upstream response classified as a challenge (status 403
or 429 whatever the headers and body, or a text response holding a marker), the response
has status 302 and its only field is `Location`, the worker address followed by `/?url=`
and `encodeURIComponent(target)`: an expression of the target alone. -/
theorem challenge_redirect_location (api : UrlApi) (req : Request)
    (net : Text → HeaderList → Outcome) (target origin : Text) (up : Upstream)
    (hurl : req.url = some target) (hne : target ≠ [])
    (hok : api.origin target = Except.ok origin)
    (hnet : net target (outboundHeaders req origin) = Outcome.response up)
    (hch : up.status = 403 ∨ up.status = 429 ∨
      (includes up.contentType "text".toList = true ∧ hasMarker up.text = true)) :
    ((proxyRoute api req).run net).status = 302 ∧
    ((proxyRoute api req).run net).headers =
      [("Location".toList,
        "https://recaptcha.uraverageopdoge.workers.dev/?url=".toList ++
          encodeURIComponent target)] := by
  rw [proxyRoute_fetch api req target origin hurl hne hok, Step.run, hnet]
  have hr : afterFetch api req (req.protocol ++ "://".toList ++ req.host) target
      (Outcome.response up) = Response.fresh.redirect 302 (redirectUrl target) := by
    rcases hch with h | h | ⟨hc, hm⟩
    · exact afterFetch_status _ _ _ _ _ (Or.inl h)
    · exact afterFetch_status _ _ _ _ _ (Or.inr h)
    · exact afterFetch_marker _ _ _ _ _ hc hm
  rw [hr, redirect_fresh]
  refine ⟨rfl, ?_⟩
  show [("Location".toList, redirectUrl target)] = _
  unfold redirectUrl RECAPTCHA_WORKER
  rw [show "https://recaptcha.uraverageopdoge.workers.dev/?url=".toList =
    "https://recaptcha.uraverageopdoge.workers.dev".toList ++ "/?url=".toList from by decide]

theorem challenge_classification_exact_witness :
    (proxyRoute plainUrl (exampleRequest (some "https://example.com".toList))).run
        (always (Outcome.response (exampleUpstream 200 "text/html".toList
          "<script src=recaptcha/api.js>".toList))) =
        ⟨302, [("Location".toList, RECAPTCHA_WORKER ++ "/?url=".toList ++
            encodeURIComponent "https://example.com".toList)],
          Body.redirectNotice (RECAPTCHA_WORKER ++ "/?url=".toList ++
            encodeURIComponent "https://example.com".toList)⟩ ↔
      ((200 : Nat) = 403 ∨ (200 : Nat) = 429 ∨
        (includes "text/html".toList "text".toList = true ∧
          (includes "<script src=recaptcha/api.js>".toList "recaptcha/api.js".toList = true ∨
           includes "<script src=recaptcha/api.js>".toList
             "Our systems have detected unusual traffic".toList = true ∨
           includes "<script src=recaptcha/api.js>".toList
             "detected unusual traffic from your computer network".toList = true ∨
           includes "<script src=recaptcha/api.js>".toList
             "To continue, please type the characters you see".toList = true))) :=
  challenge_classification_exact plainUrl (exampleRequest (some "https://example.com".toList))
    (always (Outcome.response (exampleUpstream 200 "text/html".toList
      "<script src=recaptcha/api.js>".toList)))
    "https://example.com".toList "https://example.com".toList
    (exampleUpstream 200 "text/html".toList "<script src=recaptcha/api.js>".toList)
    rfl (by decide) rfl rfl

theorem challenge_redirect_location_witness :
    ((proxyRoute plainUrl (exampleRequest (some "https://example.com/a".toList))).run
        (always (Outcome.response (exampleUpstream 403 "image/png".toList [])))).status = 302 ∧
    ((proxyRoute plainUrl (exampleRequest (some "https://example.com/a".toList))).run
        (always (Outcome.response (exampleUpstream 403 "image/png".toList [])))).headers =
      [("Location".toList,
        "https://recaptcha.uraverageopdoge.workers.dev/?url=".toList ++
          encodeURIComponent "https://example.com/a".toList)] :=
  challenge_redirect_location plainUrl (exampleRequest (some "https://example.com/a".toList))
    (always (Outcome.response (exampleUpstream 403 "image/png".toList [])))
    "https://example.com/a".toList "https://example.com".toList
    (exampleUpstream 403 "image/png".toList [])
    rfl (by decide) rfl rfl (Or.inl rfl)

/-! ### Header sanitisation (C6, C7) -/

/-! Where the names of a header list come from. -/

theorem mem_delete {hs : HeaderList} {n : Text} {p : Text × Text} :
    p ∈ Headers.delete hs n ↔ p ∈ hs ∧ lower n ≠ lower p.1 := by
  unfold Headers.delete
  rw [List.mem_filter, Bool.not_eq_true', sameName_false_iff]

theorem name_of_mem_setFirst {n v : Text} {hs : HeaderList} {p : Text × Text}
    (h : p ∈ setFirst n v hs) : ∃ q ∈ hs, q.1 = p.1 := by
  induction hs with
  | nil => simp [setFirst] at h
  | cons a r ih =>
    unfold setFirst at h
    split at h
    · rcases List.mem_cons.1 h with h1 | h1
      · exact ⟨a, List.mem_cons_self _ _, by rw [h1]⟩
      · exact ⟨p, List.mem_cons_of_mem _ (mem_delete.1 h1).1, rfl⟩
    · rcases List.mem_cons.1 h with h1 | h1
      · exact ⟨a, List.mem_cons_self _ _, by rw [h1]⟩
      · obtain ⟨q, hq, e⟩ := ih h1
        exact ⟨q, List.mem_cons_of_mem _ hq, e⟩

theorem name_of_mem_set {n v : Text} {hs : HeaderList} {p : Text × Text}
    (h : p ∈ Headers.set hs n v) : (∃ q ∈ hs, q.1 = p.1) ∨ p.1 = n := by
  unfold Headers.set at h
  split at h
  · exact Or.inl (name_of_mem_setFirst h)
  · rcases List.mem_append.1 h with h1 | h1
    · exact Or.inl ⟨p, h1, rfl⟩
    · right
      rw [List.mem_singleton.1 h1]

theorem strippedNames_lower : ∀ s ∈ strippedNames, lower s = s := by decide

theorem clean_strip (hs : HeaderList) : Clean (stripSecurityHeaders hs) := by
  intro p hp hmem
  unfold stripSecurityHeaders strippedNames at hp
  simp only [List.foldl_cons, List.foldl_nil, mem_delete] at hp
  have key : ∀ s ∈ strippedNames, lower s ≠ lower p.1 := by
    intro s hs'
    unfold strippedNames at hs'
    simp only [List.mem_cons, List.mem_singleton, List.not_mem_nil, or_false] at hs'
    rcases hs' with h | h | h | h | h | h | h <;> subst h <;> tauto
  exact key _ hmem (by rw [strippedNames_lower _ hmem])

theorem clean_set {hs : HeaderList} {n v : Text} (h : Clean hs) (hn : lower n ∉ strippedNames) :
    Clean (Headers.set hs n v) := by
  intro p hp
  rcases name_of_mem_set hp with ⟨q, hq, e⟩ | e
  · rw [← e]; exact h q hq
  · rw [e]; exact hn

theorem name_of_mem_entries {hs : HeaderList} {p : Text × Text}
    (h : p ∈ Headers.entries hs) : ∃ q ∈ hs, p.1 = lower q.1 := by
  unfold Headers.entries at h
  simp only [List.mem_flatMap] at h
  obtain ⟨n, hn, hp⟩ := h
  have hn2 : n ∈ hs.map (fun p => lower p.1) := by
    have := (List.perm_insertionSort (fun a b : Text => a ≤ b) _).mem_iff.1 hn
    exact List.mem_dedup.1 this
  obtain ⟨q, hq, e⟩ := List.mem_map.1 hn2
  refine ⟨q, hq, ?_⟩
  split at hp
  · obtain ⟨v, _, e2⟩ := List.mem_map.1 hp
    rw [← e2, e]
  · rw [List.mem_singleton.1 hp, e]

theorem clean_entries {hs : HeaderList} (h : Clean hs) : Clean (Headers.entries hs) := by
  intro p hp
  obtain ⟨q, hq, e⟩ := name_of_mem_entries hp
  rw [e, lower_idem]
  exact h q hq

theorem clean_sanitise (hs : HeaderList) : Clean (sanitise hs) := by
  unfold sanitise
  dsimp only
  refine clean_set (clean_set (clean_set (clean_set (clean_strip _) ?_) ?_) ?_) ?_ <;> decide

theorem mem_objSet {k v : Text} {o : HeaderList} {p : Text × Text}
    (h : p ∈ objSet k v o) : p = (k, v) ∨ p ∈ o := by
  induction o with
  | nil => exact Or.inl (List.mem_singleton.1 h)
  | cons a r ih =>
    unfold objSet at h
    split at h
    · rcases List.mem_cons.1 h with h1 | h1
      · exact Or.inl h1
      · exact Or.inr (List.mem_cons_of_mem _ h1)
    · rcases List.mem_cons.1 h with h1 | h1
      · exact Or.inr (h1 ▸ List.mem_cons_self _ _)
      · rcases ih h1 with h2 | h2
        · exact Or.inl h2
        · exact Or.inr (List.mem_cons_of_mem _ h2)

theorem mem_foldl_objSet {es o : HeaderList} {p : Text × Text}
    (h : p ∈ es.foldl (fun o p => objSet p.1 p.2 o) o) : p ∈ o ∨ p ∈ es := by
  induction es generalizing o with
  | nil => exact Or.inl h
  | cons a r ih =>
    rw [List.foldl_cons] at h
    rcases ih h with h1 | h1
    · rcases mem_objSet h1 with h2 | h2
      · exact Or.inr (h2 ▸ List.mem_cons_self _ _)
      · exact Or.inl h2
    · exact Or.inr (List.mem_cons_of_mem _ h1)

theorem mem_fromEntries {es : HeaderList} {p : Text × Text} (h : p ∈ fromEntries es) :
    p ∈ es := by
  rcases mem_foldl_objSet h with h1 | h1
  · exact absurd h1 (List.not_mem_nil _)
  · exact h1

theorem mem_setField {r : Response} {k v : Text} {p : Text × Text}
    (h : p ∈ (r.setField k v).headers) : p ∈ r.headers ∨ p = (k, v) := by
  unfold Response.setField at h
  rcases List.mem_append.1 h with h1 | h1
  · exact Or.inl (List.mem_filter.1 h1).1
  · exact Or.inr (List.mem_singleton.1 h1)

theorem mem_setAll {obj : HeaderList} {r : Response} {p : Text × Text}
    (h : p ∈ (r.setAll obj).headers) : p ∈ r.headers ∨ p ∈ obj := by
  unfold Response.setAll at h
  induction obj generalizing r with
  | nil => exact Or.inl h
  | cons a rest ih =>
    rw [List.foldl_cons] at h
    rcases ih h with h1 | h1
    · rcases mem_setField h1 with h2 | h2
      · exact Or.inl h2
      · exact Or.inr (h2 ▸ List.mem_cons_self _ _)
    · exact Or.inr (List.mem_cons_of_mem _ h1)

theorem clean_sanitised (up : Upstream) : Clean (sanitised up).headers := by
  intro p hp
  unfold sanitised at hp
  rcases mem_setAll hp with h | h
  · exact absurd h (List.not_mem_nil _)
  · exact clean_entries (clean_sanitise up.headers) p (mem_fromEntries h)

theorem clean_proxyFailed {r : Response} (h : Clean r.headers) (req : Request) (m : Text) :
    Clean (proxyFailed req r m).headers := by
  intro p hp
  rw [proxyFailed_eq] at hp
  rcases List.mem_append.1 (List.mem_filter.1 hp).1 with h1 | h1
  · exact h p (List.mem_filter.1 h1).1
  · rw [List.mem_singleton.1 h1]; decide

theorem clean_sendOrFail {r : Response} (h : Clean r.headers) (req : Request) (t : Text) :
    Clean (sendOrFail req r t).headers := by
  unfold sendOrFail
  rcases send_cases req r t with ⟨e, he, _⟩ | ⟨s, hs, _, _, hm, _⟩
  · rw [he]
    exact clean_proxyFailed h req e
  · rw [hs]
    intro p hp
    exact h p (hm p hp)

theorem clean_redirect (u : Text) : Clean (Response.fresh.redirect 302 u).headers := by
  rw [redirect_fresh]
  intro p hp
  rw [List.mem_singleton.1 hp]
  show lower "Location".toList ∉ strippedNames
  decide

theorem clean_afterFetch (api : UrlApi) (req : Request) (selfBase target : Text)
    (o : Outcome) : Clean (afterFetch api req selfBase target o).headers := by
  cases o with
  | failed m =>
    exact clean_proxyFailed (fun p hp => absurd hp (List.not_mem_nil _)) req m
  | response up =>
    by_cases hs : up.status = 403 ∨ up.status = 429
    · rw [afterFetch_status _ _ _ _ _ hs]
      exact clean_redirect _
    · by_cases hm : includes up.contentType "text".toList = true ∧ hasMarker up.text = true
      · rw [afterFetch_marker _ _ _ _ _ hm.1 hm.2]
        exact clean_redirect _
      · rw [afterFetch_clear _ _ _ _ _ hs hm]
        by_cases h1 : includes up.contentType "text".toList = true
        · rw [if_pos h1]
          by_cases h2 : includes up.contentType "text/html".toList = true
          · rw [if_pos h2]
            cases rewriteHtml api selfBase target up.text with
            | error e =>
              dsimp only
              exact clean_proxyFailed (clean_sanitised up) req e
            | ok t =>
              dsimp only
              exact clean_sendOrFail (clean_sanitised up) req t
          · rw [if_neg h2]
            exact clean_sendOrFail (clean_sanitised up) req _
        · rw [if_neg h1]
          exact clean_proxyFailed (clean_sanitised up) req _

theorem clean_proxyRoute (api : UrlApi) (req : Request) (net : Text → HeaderList → Outcome) :
    Clean ((proxyRoute api req).run net).headers := by
  unfold proxyRoute
  dsimp only
  split
  · rw [usage_sent]
    intro p hp
    exact absurd hp (List.not_mem_nil _)
  · split
    · exact clean_proxyFailed (fun p hp => absurd hp (List.not_mem_nil _)) req _
    · exact clean_afterFetch _ _ _ _ _

theorem sameName_congr_left {a b : Text} (h : lower a = lower b) (c : Text) :
    sameName a c = sameName b c := by
  unfold sameName
  rw [h]

theorem headerValues_nil_iff {hs : HeaderList} {n : Text} :
    headerValues hs n = [] ↔ ∀ p ∈ hs, lower n ≠ lower p.1 := by
  unfold headerValues
  rw [List.map_eq_nil_iff, List.filter_eq_nil_iff]
  constructor
  · intro h p hp e
    exact h p hp ((sameName_iff _ _).2 e)
  · intro h p hp e
    exact h p hp ((sameName_iff _ _).1 e)

theorem headerValues_delete_same (hs : HeaderList) (n : Text) :
    headerValues (Headers.delete hs n) n = [] := by
  rw [headerValues_nil_iff]
  intro p hp
  exact (mem_delete.1 hp).2

theorem headerValues_delete_other {n m : Text} (h : lower n ≠ lower m) (hs : HeaderList) :
    headerValues (Headers.delete hs m) n = headerValues hs n := by
  unfold headerValues Headers.delete
  rw [List.filter_filter]
  congr 1
  apply List.filter_congr
  intro p _
  cases h1 : sameName n p.1
  · rfl
  · have e1 := (sameName_iff _ _).1 h1
    have : sameName m p.1 = false := by
      rw [sameName_false_iff]
      intro e2
      exact h (e1.trans e2.symm)
    rw [this]
    rfl

theorem headerValues_cons (p : Text × Text) (hs : HeaderList) (n : Text) :
    headerValues (p :: hs) n =
      if sameName n p.1 = true then p.2 :: headerValues hs n else headerValues hs n := by
  unfold headerValues
  rw [List.filter_cons]
  split <;> rfl

theorem headerValues_append (a b : HeaderList) (n : Text) :
    headerValues (a ++ b) n = headerValues a n ++ headerValues b n := by
  unfold headerValues
  rw [List.filter_append, List.map_append]

theorem headerValues_setFirst_same {n v : Text} {hs : HeaderList}
    (h : hs.any (fun p => sameName n p.1) = true) :
    headerValues (setFirst n v hs) n = [v] := by
  induction hs with
  | nil => simp at h
  | cons a r ih =>
    unfold setFirst
    by_cases h1 : sameName n a.1 = true
    · rw [if_pos h1, headerValues_cons, if_pos h1, headerValues_delete_same]
    · rw [if_neg h1, headerValues_cons, if_neg h1]
      apply ih
      rw [List.any_cons] at h
      rw [Bool.not_eq_true] at h1
      rw [h1] at h
      exact h

theorem headerValues_set_same (hs : HeaderList) (n v : Text) :
    headerValues (Headers.set hs n v) n = [v] := by
  unfold Headers.set
  by_cases h : hs.any (fun p => sameName n p.1) = true
  · rw [if_pos h]
    exact headerValues_setFirst_same h
  · rw [if_neg h, headerValues_append]
    have h0 : headerValues hs n = [] := by
      rw [headerValues_nil_iff]
      intro p hp e
      apply h
      rw [List.any_eq_true]
      exact ⟨p, hp, (sameName_iff _ _).2 e⟩
    rw [h0, headerValues_cons, if_pos (sameName_refl n)]
    rfl

theorem headerValues_setFirst_other {n m w : Text} (h : lower n ≠ lower m) (hs : HeaderList) :
    headerValues (setFirst m w hs) n = headerValues hs n := by
  induction hs with
  | nil => rfl
  | cons a r ih =>
    unfold setFirst
    by_cases h1 : sameName m a.1 = true
    · have h2 : ¬ sameName n a.1 = true := by
        intro e
        exact h (((sameName_iff _ _).1 e).trans ((sameName_iff _ _).1 h1).symm)
      rw [if_pos h1, headerValues_cons, headerValues_cons, if_neg h2, if_neg h2,
        headerValues_delete_other h]
    · rw [if_neg h1, headerValues_cons, headerValues_cons, ih]

theorem headerValues_set_other {n m : Text} (h : lower n ≠ lower m) (hs : HeaderList) (w : Text) :
    headerValues (Headers.set hs m w) n = headerValues hs n := by
  unfold Headers.set
  split
  · exact headerValues_setFirst_other h hs
  · rw [headerValues_append, headerValues_cons, if_neg]
    · exact List.append_nil _
    · rw [sameName_iff]
      exact h

theorem headerValues_sanitise_origin (hs : HeaderList) :
    headerValues (sanitise hs) "Access-Control-Allow-Origin".toList = ["*".toList] := by
  unfold sanitise
  dsimp only
  rw [headerValues_set_other (by decide), headerValues_set_other (by decide),
    headerValues_set_other (by decide), headerValues_set_same]

/-! The entries of the iteration. -/

theorem mem_entries_value {hs : HeaderList} {p : Text × Text} (h : p ∈ Headers.entries hs)
    (hc : p.1 ≠ "set-cookie".toList) :
    p.2 = joinValues (headerValues hs p.1) ∧ ∃ q ∈ hs, p.1 = lower q.1 := by
  obtain ⟨q, hq, e⟩ := name_of_mem_entries h
  refine ⟨?_, q, hq, e⟩
  unfold Headers.entries at h
  simp only [List.mem_flatMap] at h
  obtain ⟨n, _, hp⟩ := h
  by_cases hn : n = "set-cookie".toList
  · rw [if_pos hn] at hp
    obtain ⟨v, _, e2⟩ := List.mem_map.1 hp
    exact absurd (by rw [← e2, hn]) hc
  · rw [if_neg hn, List.mem_singleton] at hp
    rw [hp]

theorem entries_has_name {hs : HeaderList} {q : Text × Text} (hq : q ∈ hs) :
    ∃ p ∈ Headers.entries hs, p.1 = lower q.1 := by
  unfold Headers.entries
  simp only [List.mem_flatMap]
  have hn : lower q.1 ∈ ((hs.map (fun p => lower p.1)).dedup).insertionSort (fun a b => a ≤ b) := by
    rw [(List.perm_insertionSort (fun a b : Text => a ≤ b) _).mem_iff, List.mem_dedup]
    exact List.mem_map.2 ⟨q, hq, rfl⟩
  by_cases hc : lower q.1 = "set-cookie".toList
  · have hv : headerValues hs (lower q.1) ≠ [] := by
      intro h0
      rw [headerValues_nil_iff] at h0
      exact h0 q hq (lower_idem _)
    obtain ⟨v, hv2⟩ := List.exists_mem_of_ne_nil _ hv
    exact ⟨(lower q.1, v), ⟨lower q.1, hn, by rw [if_pos hc]; exact List.mem_map.2 ⟨v, hv2, rfl⟩⟩, rfl⟩
  · exact ⟨(lower q.1, joinValues (headerValues hs (lower q.1))),
      ⟨lower q.1, hn, by rw [if_neg hc]; exact List.mem_singleton.2 rfl⟩, rfl⟩

/-! Plain objects and response fields. -/

theorem objSet_has_key (k v : Text) (o : HeaderList) : ∃ p ∈ objSet k v o, p.1 = k := by
  induction o with
  | nil => exact ⟨(k, v), List.mem_singleton.2 rfl, rfl⟩
  | cons a r ih =>
    unfold objSet
    split
    · exact ⟨(k, v), List.mem_cons_self _ _, rfl⟩
    · obtain ⟨p, hp, e⟩ := ih
      exact ⟨p, List.mem_cons_of_mem _ hp, e⟩

theorem objSet_keeps_keys {k v : Text} {o : HeaderList} {q : Text × Text} (hq : q ∈ o) :
    ∃ p ∈ objSet k v o, p.1 = q.1 := by
  induction o with
  | nil => exact absurd hq (List.not_mem_nil _)
  | cons a r ih =>
    unfold objSet
    rcases List.mem_cons.1 hq with h | h
    · split
      · rename_i hk
        exact ⟨(k, v), List.mem_cons_self _ _, by rw [h]; exact hk.symm⟩
      · exact ⟨a, List.mem_cons_self _ _, by rw [h]⟩
    · split
      · exact ⟨q, List.mem_cons_of_mem _ h, rfl⟩
      · obtain ⟨p, hp, e⟩ := ih h
        exact ⟨p, List.mem_cons_of_mem _ hp, e⟩

theorem foldl_objSet_keys {es o : HeaderList} {k : Text}
    (h : (∃ q ∈ o, q.1 = k) ∨ ∃ q ∈ es, q.1 = k) :
    ∃ p ∈ es.foldl (fun o p => objSet p.1 p.2 o) o, p.1 = k := by
  induction es generalizing o with
  | nil =>
    rcases h with h | ⟨q, hq, _⟩
    · exact h
    · exact absurd hq (List.not_mem_nil _)
  | cons a r ih =>
    rw [List.foldl_cons]
    apply ih
    rcases h with ⟨q, hq, e⟩ | ⟨q, hq, e⟩
    · left
      obtain ⟨p, hp, e2⟩ := objSet_keeps_keys (k := a.1) (v := a.2) hq
      exact ⟨p, hp, e2.trans e⟩
    · rcases List.mem_cons.1 hq with h1 | h1
      · left
        obtain ⟨p, hp, e2⟩ := objSet_has_key a.1 a.2 o
        exact ⟨p, hp, by rw [e2, ← h1, e]⟩
      · right
        exact ⟨q, h1, e⟩

theorem field_setAll {obj : HeaderList} {n v : Text} (r : Response)
    (hall : ∀ p ∈ obj, sameName n p.1 = true → p.2 = v)
    (hex : r.field n = some v ∨ ∃ p ∈ obj, sameName n p.1 = true) :
    (r.setAll obj).field n = some v := by
  unfold Response.setAll
  induction obj generalizing r with
  | nil =>
    rcases hex with h | ⟨p, hp, _⟩
    · exact h
    · exact absurd hp (List.not_mem_nil _)
  | cons a rest ih =>
    rw [List.foldl_cons]
    apply ih
    · intro p hp
      exact hall p (List.mem_cons_of_mem _ hp)
    · rw [field_setField]
      by_cases h : sameName n a.1 = true
      · left
        rw [if_pos h, hall a (List.mem_cons_self _ _) h]
      · rw [if_neg h]
        rcases hex with h1 | ⟨p, hp, e⟩
        · exact Or.inl h1
        · rcases List.mem_cons.1 hp with h2 | h2
          · rw [h2] at e
            exact absurd e h
          · exact Or.inr ⟨p, h2, e⟩

theorem field_sanitised_origin (up : Upstream) :
    (sanitised up).field "Access-Control-Allow-Origin".toList = some "*".toList := by
  unfold sanitised
  dsimp only
  have hv := headerValues_sanitise_origin up.headers
  apply field_setAll
  · intro p hp hs
    have hp2 := mem_fromEntries hp
    have e := (sameName_iff _ _).1 hs
    obtain ⟨q, _, eq⟩ := name_of_mem_entries hp2
    have elow : lower p.1 = p.1 := by rw [eq, lower_idem]
    have hne : p.1 ≠ "set-cookie".toList := by
      rw [← elow, ← e]
      decide
    rw [(mem_entries_value hp2 hne).1, headerValues, ← funext (sameName_congr_left e),
      ← headerValues, hv]
    rfl
  · right
    have hne : headerValues (sanitise up.headers) "Access-Control-Allow-Origin".toList ≠ [] := by
      rw [hv]
      exact List.cons_ne_nil _ _
    rw [Ne, headerValues_nil_iff] at hne
    push_neg at hne
    obtain ⟨q, hq, e⟩ := hne
    obtain ⟨p, hp, e2⟩ := entries_has_name hq
    obtain ⟨p2, hp2, e3⟩ := foldl_objSet_keys (o := []) (Or.inr ⟨p, hp, rfl⟩)
    refine ⟨p2, hp2, ?_⟩
    rw [sameName_iff, e3, e2, lower_idem]
    exact e

/-- C6. For every request and every upstream outcome, no header of the response bears a
name that equals, ignoring letter case, one of `content-security-policy`,
`content-security-policy-report-only`, `x-frame-options`, `frame-options`,
`cross-origin-embedder-policy`, `cross-origin-opener-policy`,
`cross-origin-resource-policy`, whatever the upstream response carried; the same holds of
the root route. -/
theorem stripped_headers_absent (api : UrlApi) (req : Request)
    (net : Text → HeaderList → Outcome) :
    (∀ p ∈ ((proxyRoute api req).run net).headers, lower p.1 ∉ strippedNames) ∧
    (∀ p ∈ (rootRoute req).headers, lower p.1 ∉ strippedNames) :=
  ⟨clean_proxyRoute api req net, fun _ hp => absurd hp (List.not_mem_nil _)⟩

theorem stripped_headers_absent_witness :
    (∀ p ∈ ((proxyRoute plainUrl (exampleRequest (some "https://example.com".toList))).run
        (always (Outcome.response ⟨200,
          [("Content-Security-Policy".toList, "default-src".toList),
           ("X-FRAME-OPTIONS".toList, "DENY".toList),
           ("x-frame-options".toList, "SAMEORIGIN".toList),
           ("Content-Type".toList, "text/plain".toList)], "hello".toList, some []⟩))).headers,
        lower p.1 ∉ strippedNames) ∧
    (∀ p ∈ (rootRoute (exampleRequest none)).headers, lower p.1 ∉ strippedNames) :=
  stripped_headers_absent plainUrl (exampleRequest (some "https://example.com".toList))
    (always (Outcome.response ⟨200,
      [("Content-Security-Policy".toList, "default-src".toList),
       ("X-FRAME-OPTIONS".toList, "DENY".toList),
       ("x-frame-options".toList, "SAMEORIGIN".toList),
       ("Content-Type".toList, "text/plain".toList)], "hello".toList, some []⟩))

/-- The sanitised headers of an upstream response that carried stripped names in several
casings and copies. -/
theorem sanitised_headers_example :
    ((proxyRoute plainUrl (exampleRequest (some "https://example.com".toList))).run
        (always (Outcome.response ⟨200,
          [("Content-Security-Policy".toList, "default-src".toList),
           ("X-FRAME-OPTIONS".toList, "DENY".toList),
           ("x-frame-options".toList, "SAMEORIGIN".toList),
           ("Content-Type".toList, "text/plain".toList)], "hello".toList, some []⟩))).headers =
      [("access-control-allow-headers".toList, "*".toList),
       ("access-control-allow-methods".toList, "GET,POST,OPTIONS".toList),
       ("access-control-allow-origin".toList, "*".toList),
       ("content-type".toList, "text/plain".toList),
       ("x-proxied-by".toList, "Roogle Northflank Proxy".toList)] := by
  decide

/-- The `catch` block leaves every field other than `Content-Type` and `Content-Length` as
it is. -/
theorem field_proxyFailed_keep (req : Request) (r : Response) (m : Text) {n : Text}
    (h1 : sameName n "Content-Length".toList = false)
    (h2 : sameName n "Content-Type".toList = false) :
    (proxyFailed req r m).field n = r.field n := by
  rw [proxyFailed_eq]
  unfold Response.field
  dsimp only
  rw [find_filter_keep _ _ n (fun p hp => sameName_other h1 p.1 hp), List.find?_append,
    find_filter_keep _ _ n (fun p hp => sameName_other h2 p.1 hp)]
  have h0 : List.find? (fun p => sameName n p.1)
      [("Content-Type".toList, "text/plain".toList)] = none := by
    rw [List.find?_eq_none]
    intro p hp
    rw [List.mem_singleton.1 hp, h2]
    exact Bool.false_ne_true
  rw [h0, Option.or_none]

/-- A `res.send` inside the `try` block leaves every field other than `Content-Type`,
`Content-Length` and `Transfer-Encoding` as it is, whether it throws or not. -/
theorem field_sendOrFail_keep (req : Request) (r : Response) (t : Text) {n : Text}
    (h1 : sameName n "Content-Length".toList = false)
    (h2 : sameName n "Content-Type".toList = false)
    (h3 : sameName n "Transfer-Encoding".toList = false) :
    (sendOrFail req r t).field n = r.field n := by
  unfold sendOrFail
  rcases send_cases req r t with ⟨e, he, _⟩ | ⟨s, hs, _, _, _, hf⟩
  · rw [he]
    exact field_proxyFailed_keep req r e h1 h2
  · rw [hs]
    exact hf n h1 h2 h3

/-- Every answer to a response that is no challenge has the sanitised fields, apart from
`Content-Type`, `Content-Length` and `Transfer-Encoding`. -/
theorem field_afterFetch_keep (api : UrlApi) (req : Request) (selfBase target : Text)
    (up : Upstream)
    (hs : ¬ (up.status = 403 ∨ up.status = 429))
    (hm : ¬ (includes up.contentType "text".toList = true ∧ hasMarker up.text = true))
    {n : Text} (h1 : sameName n "Content-Length".toList = false)
    (h2 : sameName n "Content-Type".toList = false)
    (h3 : sameName n "Transfer-Encoding".toList = false) :
    (afterFetch api req selfBase target (Outcome.response up)).field n =
      (sanitised up).field n := by
  rw [afterFetch_clear _ _ _ _ _ hs hm]
  by_cases c1 : includes up.contentType "text".toList = true
  · rw [if_pos c1]
    by_cases c2 : includes up.contentType "text/html".toList = true
    · rw [if_pos c2]
      cases rewriteHtml api selfBase target up.text with
      | error e =>
        dsimp only
        exact field_proxyFailed_keep req _ e h1 h2
      | ok t =>
        dsimp only
        exact field_sendOrFail_keep req _ t h1 h2 h3
    · rw [if_neg c2]
      exact field_sendOrFail_keep req _ _ h1 h2 h3
  · rw [if_neg c1]
    exact field_proxyFailed_keep req _ _ h1 h2

theorem field_afterFetch_clear (api : UrlApi) (req : Request) (selfBase target : Text)
    (up : Upstream)
    (hs : ¬ (up.status = 403 ∨ up.status = 429))
    (hm : ¬ (includes up.contentType "text".toList = true ∧ hasMarker up.text = true)) :
    (afterFetch api req selfBase target (Outcome.response up)).field
      "Access-Control-Allow-Origin".toList = some "*".toList := by
  rw [field_afterFetch_keep api req selfBase target up hs hm (by decide) (by decide)
    (by decide)]
  exact field_sanitised_origin up

/-- C7 (amended). Every response the handler produces from an upstream response that is
not classified as a challenge carries the header `Access-Control-Allow-Origin` with the
value `*`, also when a later step fails and the status becomes 502. -/
theorem cors_header_after_sanitisation (api : UrlApi) (req : Request)
    (net : Text → HeaderList → Outcome) (target origin : Text) (up : Upstream)
    (hurl : req.url = some target) (hne : target ≠ [])
    (hok : api.origin target = Except.ok origin)
    (hnet : net target (outboundHeaders req origin) = Outcome.response up)
    (hs : ¬ (up.status = 403 ∨ up.status = 429))
    (hm : ¬ (includes up.contentType "text".toList = true ∧ hasMarker up.text = true)) :
    ((proxyRoute api req).run net).field "Access-Control-Allow-Origin".toList =
      some "*".toList := by
  rw [proxyRoute_fetch api req target origin hurl hne hok, Step.run, hnet]
  exact field_afterFetch_clear _ _ _ _ _ hs hm

theorem cors_header_after_sanitisation_witness :
    ((proxyRoute plainUrl (exampleRequest (some "https://example.com".toList))).run
        (always (Outcome.response (exampleUpstream 404 "image/png".toList [])))).field
      "Access-Control-Allow-Origin".toList = some "*".toList :=
  cors_header_after_sanitisation plainUrl (exampleRequest (some "https://example.com".toList))
    (always (Outcome.response (exampleUpstream 404 "image/png".toList [])))
    "https://example.com".toList "https://example.com".toList
    (exampleUpstream 404 "image/png".toList []) rfl (by decide) rfl rfl (by decide) (by decide)

/-- C7 (counterexample). The 400 usage response, the 302 challenge redirect and the 502
response to a failed fetch carry no `Access-Control-Allow-Origin` header. -/
theorem cors_header_absent_on_errors :
    ((proxyRoute plainUrl (exampleRequest none)).run
        (always (Outcome.failed []))).field "Access-Control-Allow-Origin".toList = none ∧
    ((proxyRoute plainUrl (exampleRequest (some "https://example.com".toList))).run
        (always (Outcome.response (exampleUpstream 403 "text/html".toList [])))).field
      "Access-Control-Allow-Origin".toList = none ∧
    ((proxyRoute plainUrl (exampleRequest (some "https://example.com".toList))).run
        (always (Outcome.failed "fetch failed".toList))).field
      "Access-Control-Allow-Origin".toList = none := by
  decide

/-! ### The rewriting passes (C3, C4, C5) -/

theorem scan_succ (m : Text → Option Hit) (c : Char) (cs : Text) (k : Nat) :
    scan m (c :: cs) (k + 1) = scan m cs k := rfl

theorem scan_zero (m : Text → Option Hit) (c : Char) (cs : Text) :
    scan m (c :: cs) 0 =
      match m (c :: cs) with
      | some h => Seg.hit h :: scan m cs (h.whole.length - 1)
      | none => Seg.lit c :: scan m cs 0 := rfl

theorem render_lit (f : Hit → Text) (c : Char) (r : List Seg) :
    render f (Seg.lit c :: r) = c :: render f r := rfl

theorem render_hit (f : Hit → Text) (h : Hit) (r : List Seg) :
    render f (Seg.hit h :: r) = f h ++ render f r := rfl

theorem dropLit_some {lit s r : Text} (h : dropLit lit s = some r) : s = lit ++ r := by
  induction lit generalizing s with
  | nil =>
    cases s <;> simp only [dropLit, Option.some.injEq] at h <;> rw [← h] <;> rfl
  | cons p ps ih =>
    cases s with
    | nil => simp [dropLit] at h
    | cons c cs =>
      unfold dropLit at h
      split at h
      · rename_i hpc
        rw [ih h, hpc]
        rfl
      · exact absurd h (by simp)

theorem dropLit_append (lit r : Text) : dropLit lit (lit ++ r) = some r := by
  induction lit with
  | nil => cases r <;> rfl
  | cons p ps ih =>
    show dropLit (p :: ps) (p :: (ps ++ r)) = some r
    unfold dropLit
    rw [if_pos rfl, ih]

/-- A literal that does not hold the character `d` is matched in front of `d` alone. -/
theorem dropLit_delim {lit : Text} {d : Char} (hd : d ∉ lit) (t x : Text) :
    dropLit lit (t ++ d :: x) = (dropLit lit t).map (fun r => r ++ d :: x) := by
  induction lit generalizing t with
  | nil => cases t <;> rfl
  | cons p ps ih =>
    have hp : p ≠ d := fun e => hd (e ▸ List.mem_cons_self _ _)
    have hps : d ∉ ps := fun e => hd (List.mem_cons_of_mem _ e)
    cases t with
    | nil =>
      show dropLit (p :: ps) (d :: x) = _
      unfold dropLit
      rw [if_neg hp]
      rfl
    | cons c cs =>
      show dropLit (p :: ps) (c :: (cs ++ d :: x)) = _
      unfold dropLit
      by_cases hpc : p = c
      · rw [if_pos hpc, if_pos hpc, ih hps]
      · rw [if_neg hpc, if_neg hpc]
        rfl

theorem matchScheme_delim {d : Char} (hd : isDelimiter d) (t x : Text) :
    matchScheme (t ++ d :: x) = (matchScheme t).map (fun q => (q.1, q.2 ++ d :: x)) := by
  have h1 : d ∉ "https://".toList := by
    obtain ⟨a, b, c⟩ := hd
    intro hmem
    simp only [String.toList, List.mem_cons, List.mem_singleton, List.not_mem_nil,
      or_false] at hmem
    rcases hmem with h | h | h | h | h | h | h | h <;> subst h <;> first | exact absurd a (by decide) | exact b rfl | exact c rfl
  have h2 : d ∉ "http://".toList := by
    intro hmem
    apply h1
    simp only [String.toList, List.mem_cons, List.mem_singleton, List.not_mem_nil,
      or_false] at hmem ⊢
    tauto
  unfold matchScheme
  rw [dropLit_delim h1, dropLit_delim h2]
  cases dropLit "https://".toList t with
  | some r => rfl
  | none =>
    cases dropLit "http://".toList t with
    | some r => rfl
    | none => rfl

theorem takeWhile_delim {d : Char} (hd : isHostChar d = false) (r x : Text) :
    (r ++ d :: x).takeWhile isHostChar = r.takeWhile isHostChar := by
  induction r with
  | nil =>
    show (d :: x).takeWhile isHostChar = []
    rw [List.takeWhile_cons, hd]
    rfl
  | cons c cs ih =>
    show (c :: (cs ++ d :: x)).takeWhile isHostChar = _
    rw [List.takeWhile_cons, List.takeWhile_cons, ih]

/-- Locality of the pattern: a match tried in front of a delimiter is decided by the text
before the delimiter. -/
theorem matchAbs_delim {d : Char} (hd : isDelimiter d) (t x : Text) :
    matchAbs (t ++ d :: x) = matchAbs t := by
  unfold matchAbs
  rw [matchScheme_delim hd]
  cases matchScheme t with
  | none => rfl
  | some q =>
    obtain ⟨sch, r⟩ := q
    simp only [Option.map_some', takeWhile_delim hd.1]

theorem matchScheme_some {s sch r : Text} (h : matchScheme s = some (sch, r)) :
    s = sch ++ r := by
  unfold matchScheme at h
  cases h1 : dropLit "https://".toList s with
  | some r1 =>
    rw [h1] at h
    simp only [Option.some.injEq, Prod.mk.injEq] at h
    rw [← h.1, ← h.2]
    exact dropLit_some h1
  | none =>
    rw [h1] at h
    cases h2 : dropLit "http://".toList s with
    | some r2 =>
      rw [h2] at h
      simp only [Option.some.injEq, Prod.mk.injEq] at h
      rw [← h.1, ← h.2]
      exact dropLit_some h2
    | none =>
      rw [h2] at h
      exact absurd h (by simp)

theorem matchAbs_length {s : Text} {h : Hit} (hm : matchAbs s = some h) :
    h.whole.length ≤ s.length := by
  unfold matchAbs at hm
  cases h1 : matchScheme s with
  | none => rw [h1] at hm; exact absurd hm (by simp)
  | some q =>
    obtain ⟨sch, r⟩ := q
    rw [h1] at hm
    dsimp only at hm
    split at hm
    · exact absurd hm (by simp)
    · simp only [Option.some.injEq] at hm
      rw [← hm, matchScheme_some h1]
      simp only [List.length_append]
      have := (List.takeWhile_prefix (l := r) isHostChar).length_le
      omega

theorem scan_delim {d : Char} (hd : isDelimiter d) (x : Text) (t : Text) (k : Nat)
    (hk : k ≤ t.length) :
    scan matchAbs (t ++ d :: x) k = scan matchAbs (t ++ [d]) k ++ scan matchAbs x 0 := by
  induction t generalizing k with
  | nil =>
    have hk0 : k = 0 := Nat.le_zero.1 hk
    subst hk0
    have e1 : matchAbs (d :: x) = none := by
      have := matchAbs_delim hd [] x
      rw [List.nil_append] at this
      rw [this]
      rfl
    have e2 : matchAbs [d] = none := by
      have := matchAbs_delim hd [] []
      rw [List.nil_append] at this
      rw [this]
      rfl
    rw [List.nil_append, List.nil_append, scan_zero, scan_zero, e1, e2]
    rfl
  | cons c cs ih =>
    rw [List.cons_append, List.cons_append]
    cases k with
    | succ k' =>
      rw [scan_succ, scan_succ]
      exact ih k' (Nat.le_of_succ_le_succ hk)
    | zero =>
      have e1 : matchAbs (c :: (cs ++ d :: x)) = matchAbs (c :: cs) :=
        matchAbs_delim hd (c :: cs) x
      have e2 : matchAbs (c :: (cs ++ [d])) = matchAbs (c :: cs) :=
        matchAbs_delim hd (c :: cs) []
      rw [scan_zero, scan_zero, e1, e2]
      cases hm : matchAbs (c :: cs) with
      | none =>
        dsimp only
        rw [ih 0 (Nat.zero_le _), List.cons_append]
      | some h =>
        dsimp only
        have hl := matchAbs_length hm
        rw [ih (h.whole.length - 1) (by simp only [List.length_cons] at hl; omega),
          List.cons_append]

theorem scan_skip (m : Text → Option Hit) (a b : Text) :
    scan m (a ++ b) a.length = scan m b 0 := by
  induction a with
  | nil => rfl
  | cons c cs ih =>
    rw [List.cons_append, List.length_cons, scan_succ]
    exact ih

theorem render_append (f : Hit → Text) (a b : List Seg) :
    render f (a ++ b) = render f a ++ render f b := by
  induction a with
  | nil => rfl
  | cons s r ih =>
    cases s with
    | lit c => rw [List.cons_append, render_lit, render_lit, ih, List.cons_append]
    | hit h => rw [List.cons_append, render_hit, render_hit, ih, List.append_assoc]

theorem takeWhile_host {host rest : Text} (hh : ∀ c ∈ host, isHostChar c = true)
    (hr : ∀ c, rest.head? = some c → isHostChar c = false) :
    (host ++ rest).takeWhile isHostChar = host := by
  induction host with
  | nil =>
    cases rest with
    | nil => rfl
    | cons c cs =>
      show (c :: cs).takeWhile isHostChar = []
      rw [List.takeWhile_cons, hr c rfl]
      rfl
  | cons c cs ih =>
    show (c :: (cs ++ rest)).takeWhile isHostChar = _
    rw [List.takeWhile_cons, hh c (List.mem_cons_self _ _),
      ih (fun c' hc' => hh c' (List.mem_cons_of_mem _ hc'))]
    rfl

theorem matchScheme_at {scheme : Text}
    (hs : scheme = "http://".toList ∨ scheme = "https://".toList) (r : Text) :
    matchScheme (scheme ++ r) = some (scheme, r) := by
  unfold matchScheme
  rcases hs with h | h
  · subst h
    have : dropLit "https://".toList ("http://".toList ++ r) = none := by
      show dropLit ['h','t','t','p','s',':','/','/'] ('h' :: 't' :: 't' :: 'p' :: ':' :: '/' :: '/' :: r) = none
      simp [dropLit]
    rw [this, dropLit_append _ r]
  · subst h
    rw [dropLit_append _ r]

theorem matchAbs_at {scheme host rest : Text}
    (hs : scheme = "http://".toList ∨ scheme = "https://".toList)
    (hne : host ≠ []) (hh : ∀ c ∈ host, isHostChar c = true)
    (hr : ∀ c, rest.head? = some c → isHostChar c = false) :
    matchAbs (scheme ++ (host ++ rest)) = some ⟨scheme ++ host, host⟩ := by
  unfold matchAbs
  rw [matchScheme_at hs]
  dsimp only
  rw [takeWhile_host hh hr]
  cases host with
  | nil => exact absurd rfl hne
  | cons c cs => rfl

theorem scan_at {scheme host rest : Text}
    (hs : scheme = "http://".toList ∨ scheme = "https://".toList)
    (hne : host ≠ []) (hh : ∀ c ∈ host, isHostChar c = true)
    (hr : ∀ c, rest.head? = some c → isHostChar c = false) :
    scan matchAbs (scheme ++ (host ++ rest)) 0 =
      Seg.hit ⟨scheme ++ host, host⟩ :: scan matchAbs rest 0 := by
  have hm := matchAbs_at hs hne hh hr
  obtain ⟨c, cs, e⟩ : ∃ c cs, scheme = c :: cs := by
    rcases hs with h | h <;> subst h <;> exact ⟨_, _, rfl⟩
  subst e
  rw [List.cons_append] at hm
  rw [List.cons_append, scan_zero, hm]
  dsimp only
  have e2 : cs ++ (host ++ rest) = (cs ++ host) ++ rest := (List.append_assoc _ _ _).symm
  have e3 : (c :: cs ++ host).length - 1 = (cs ++ host).length := by
    simp
  rw [e2, e3, scan_skip]

theorem rewriteAbsolute_at (selfBase pre scheme host rest : Text)
    (hs : scheme = "http://".toList ∨ scheme = "https://".toList)
    (hne : host ≠ []) (hh : ∀ c ∈ host, isHostChar c = true)
    (hr : ∀ c, rest.head? = some c → isHostChar c = false)
    (hp : ∀ d, pre.getLast? = some d → isDelimiter d) :
    rewriteAbsolute selfBase (pre ++ (scheme ++ (host ++ rest))) =
      rewriteAbsolute selfBase pre ++
        (selfBase ++ "/proxy?url=".toList ++ encodeURIComponent (scheme ++ host) ++
          rewriteAbsolute selfBase rest) := by
  unfold rewriteAbsolute replaceAll
  have hsplit : scan matchAbs (pre ++ (scheme ++ (host ++ rest))) 0 =
      scan matchAbs pre 0 ++ scan matchAbs (scheme ++ (host ++ rest)) 0 := by
    rcases List.eq_nil_or_concat pre with h | ⟨t, d, h⟩
    · subst h
      rfl
    · subst h
      have hd : isDelimiter d := hp d (by simp)
      rw [List.concat_eq_append, List.append_assoc]
      exact scan_delim hd _ t 0 (Nat.zero_le _)
  rw [hsplit, render_append, scan_at hs hne hh hr]
  rfl


theorem matchScheme_scheme {s sch r : Text} (h : matchScheme s = some (sch, r)) :
    sch = "http://".toList ∨ sch = "https://".toList := by
  unfold matchScheme at h
  cases h1 : dropLit "https://".toList s with
  | some r1 =>
    rw [h1] at h
    simp only [Option.some.injEq, Prod.mk.injEq] at h
    exact Or.inr h.1.symm
  | none =>
    rw [h1] at h
    cases h2 : dropLit "http://".toList s with
    | some r2 =>
      rw [h2] at h
      simp only [Option.some.injEq, Prod.mk.injEq] at h
      exact Or.inl h.1.symm
    | none =>
      rw [h2] at h
      exact absurd h (by simp)

theorem includes_cons (c : Char) (cs n : Text) :
    includes (c :: cs) n = (n.isPrefixOf (c :: cs) || includes cs n) := rfl

theorem matchAbs_colon {s : Text} {h : Hit} (hm : matchAbs s = some h) :
    includes s "://".toList = true := by
  unfold matchAbs at hm
  cases h1 : matchScheme s with
  | none => rw [h1] at hm; exact absurd hm (by simp)
  | some q =>
    obtain ⟨sch, r⟩ := q
    rw [matchScheme_some h1]
    rcases matchScheme_scheme h1 with e | e <;> subst e
    · show includes ('h' :: 't' :: 't' :: 'p' :: ':' :: '/' :: '/' :: r) [':', '/', '/'] = true
      simp [includes_cons, List.isPrefixOf]
    · show includes ('h' :: 't' :: 't' :: 'p' :: 's' :: ':' :: '/' :: '/' :: r) [':', '/', '/'] = true
      simp [includes_cons, List.isPrefixOf]

theorem render_scan_plain (f : Hit → Text) (s : Text)
    (h : includes s "://".toList = false) (k : Nat) :
    render f (scan matchAbs s k) = s.drop k := by
  induction s generalizing k with
  | nil => cases k <;> rfl
  | cons c cs ih =>
    have hc : includes cs "://".toList = false := by
      rw [includes_cons, Bool.or_eq_false_iff] at h
      exact h.2
    cases k with
    | succ k' =>
      rw [scan_succ, List.drop_succ_cons]
      exact ih hc k'
    | zero =>
      have hn : matchAbs (c :: cs) = none := by
        cases hm : matchAbs (c :: cs) with
        | none => rfl
        | some x =>
          have := matchAbs_colon hm
          rw [h] at this
          exact absurd this (by simp)
      rw [scan_zero, hn]
      dsimp only
      rw [render_lit, ih hc 0]
      rfl

theorem rewriteAbsolute_plain (selfBase s : Text) (h : includes s "://".toList = false) :
    rewriteAbsolute selfBase s = s :=
  render_scan_plain _ s h 0

/-- C5 (amended). Where an absolute URL `scheme host rest` (scheme `http://` or `https://`,
`host` a non-empty run of letters, digits, `.` and `-` that `rest` does not continue) stands
at the start of the text or behind a delimiter, the global pass replaces the scheme and the
host, and only them, by `selfBase + "/proxy?url=" + encodeURIComponent(scheme + host)`;
the rest of the URL (its path and query) is not part of the match: it follows the
replacement and is itself left as it is when it holds no `://`. -/
theorem absolute_pass_rewrites_scheme_and_host (selfBase pre scheme host rest : Text)
    (hs : scheme = "http://".toList ∨ scheme = "https://".toList)
    (hne : host ≠ []) (hh : ∀ c ∈ host, isHostChar c = true)
    (hr : ∀ c, rest.head? = some c → isHostChar c = false)
    (hp : ∀ d, pre.getLast? = some d → isDelimiter d) :
    rewriteAbsolute selfBase (pre ++ (scheme ++ (host ++ rest))) =
      rewriteAbsolute selfBase pre ++
        (selfBase ++ "/proxy?url=".toList ++ encodeURIComponent (scheme ++ host) ++
          rewriteAbsolute selfBase rest) ∧
    (includes rest "://".toList = false → rewriteAbsolute selfBase rest = rest) :=
  ⟨rewriteAbsolute_at selfBase pre scheme host rest hs hne hh hr hp,
    rewriteAbsolute_plain selfBase rest⟩

theorem absolute_pass_rewrites_scheme_and_host_witness :
    rewriteAbsolute "http://proxy.test".toList
        ("<a href=\"".toList ++ ("https://".toList ++ ("example.com".toList ++
          "/a/b?x=1\">".toList))) =
      rewriteAbsolute "http://proxy.test".toList "<a href=\"".toList ++
        ("http://proxy.test".toList ++ "/proxy?url=".toList ++
          encodeURIComponent ("https://".toList ++ "example.com".toList) ++
          rewriteAbsolute "http://proxy.test".toList "/a/b?x=1\">".toList) ∧
    (includes "/a/b?x=1\">".toList "://".toList = false →
      rewriteAbsolute "http://proxy.test".toList "/a/b?x=1\">".toList = "/a/b?x=1\">".toList) :=
  absolute_pass_rewrites_scheme_and_host "http://proxy.test".toList "<a href=\"".toList
    "https://".toList "example.com".toList "/a/b?x=1\">".toList
    (Or.inr rfl) (by decide) (by decide) (by decide)
    (fun d hd => by
      have e : d = '"' := (Option.some.inj hd).symm
      subst e
      exact ⟨by decide, by decide, by decide⟩)

/-- C5 (counterexample). On `https://example.com/a/b?x=1` the pass encodes the scheme
and the host only; the result is not `selfBase + "/proxy?url=" +
encodeURIComponent` of the whole URL. -/
theorem absolute_pass_leaves_path :
    rewriteAbsolute "http://proxy.test".toList "https://example.com/a/b?x=1".toList =
      "http://proxy.test/proxy?url=https%3A%2F%2Fexample.com/a/b?x=1".toList ∧
    rewriteAbsolute "http://proxy.test".toList "https://example.com/a/b?x=1".toList ≠
      "http://proxy.test".toList ++ "/proxy?url=".toList ++
        encodeURIComponent "https://example.com/a/b?x=1".toList := by
  decide

/-- C3 (the code at the failing input). For the target `https://example.com` and the
body of the specification's example, the tag injected behind `<head>` does not survive the
global pass: the returned body holds `<base href="http://proxy.test/proxy?url=...">` and
nowhere the tag `<base href="https://example.com/">`. -/
theorem base_tag_rewritten :
    ((proxyRoute plainUrl (exampleRequest (some "https://example.com".toList))).run
        (always (Outcome.response (exampleUpstream 200 "text/html".toList
          "<html><head></head><body><a href=\"/x\">go</a></body></html>".toList)))).body =
      Body.text ("<html><head><base href=\"http://proxy.test/proxy?url=".toList ++
        "https%3A%2F%2Fexample.com/\"></head><body><a href=\"".toList ++
        "http://proxy.test/proxy?url=https%3A%2F%2Fexample.com%2Fx\">go</a>".toList ++
        "</body></html>".toList) ∧
    includes ("<html><head><base href=\"http://proxy.test/proxy?url=".toList ++
        "https%3A%2F%2Fexample.com/\"></head><body><a href=\"".toList ++
        "http://proxy.test/proxy?url=https%3A%2F%2Fexample.com%2Fx\">go</a>".toList ++
        "</body></html>".toList)
      "<base href=\"https://example.com/\">".toList = false ∧
    injectBase "https://example.com".toList
        "<html><head></head><body><a href=\"/x\">go</a></body></html>".toList =
      ("<html><head><base href=\"https://example.com/\"></head>".toList ++
        "<body><a href=\"/x\">go</a></body></html>".toList) := by
  decide

/-- C4 (the code at the failing input). For the target
`https://example.com/a/b/page.html` the attribute `href="/x"` is rewritten to the proxied
form of `https://example.com/a/b/x`, not of `https://example.com/x`: the pattern captures
the path without its leading slash and the capture is resolved as a relative reference. -/
theorem rooted_href_resolved_against_directory :
    ((proxyRoute plainUrl
        (exampleRequest (some "https://example.com/a/b/page.html".toList))).run
        (always (Outcome.response (exampleUpstream 200 "text/html".toList
          "<a href=\"/x\">go</a>".toList)))).body =
      Body.text ("<a href=\"http://proxy.test/proxy?url=".toList ++
        "https%3A%2F%2Fexample.com%2Fa%2Fb%2Fx\">go</a>".toList) ∧
    matchRooted "href".toList "href=\"/x\">go</a>".toList =
      some ⟨"href=\"/x\"".toList, "x".toList⟩ ∧
    encodeURIComponent "https://example.com/x".toList =
      "https%3A%2F%2Fexample.com%2Fx".toList := by
  decide

/-! ### The error answers (C8, C9, C10) -/

/-- C8. When the `url` query parameter is absent the handler answers with status 400 and
the body `Use /proxy?url=https://example.com` and issues no outbound fetch; the root
route gives that status and body for every request. -/
theorem missing_url_usage (api : UrlApi) (req other : Request) (h : req.url = none) :
    (∃ r, proxyRoute api req = Step.respond r ∧ r.status = 400 ∧
      r.body = Body.text "Use /proxy?url=https://example.com".toList) ∧
    (proxyRoute api req).fetches = false ∧
    (rootRoute other).status = 400 ∧
    (rootRoute other).body = Body.text "Use /proxy?url=https://example.com".toList := by
  rw [proxyRoute_missing api req h]
  exact ⟨⟨_, rfl, rfl, rfl⟩, rfl, rfl, rfl⟩

theorem missing_url_usage_witness :
    (exampleRequest none).url = none ∧
    (∃ r, proxyRoute plainUrl (exampleRequest none) = Step.respond r ∧ r.status = 400 ∧
      r.body = Body.text "Use /proxy?url=https://example.com".toList) ∧
    (proxyRoute plainUrl (exampleRequest none)).fetches = false ∧
    (rootRoute (exampleRequest (some "https://example.com".toList))).status = 400 ∧
    (rootRoute (exampleRequest (some "https://example.com".toList))).body =
      Body.text "Use /proxy?url=https://example.com".toList :=
  ⟨rfl, missing_url_usage plainUrl (exampleRequest none)
    (exampleRequest (some "https://example.com".toList)) rfl⟩

/-- C9. For a target that parses as an absolute URL, when the outbound fetch fails with
an error of message `m` the response has status 502, the content type `text/plain` and no
other field (so no `Location`), and its body is `Proxy failed: ` followed by `m`. -/
theorem fetch_failure_gateway (api : UrlApi) (req : Request)
    (net : Text → HeaderList → Outcome) (target origin m : Text)
    (hurl : req.url = some target) (hne : target ≠ [])
    (hok : api.origin target = Except.ok origin)
    (hnet : net target (outboundHeaders req origin) = Outcome.failed m) :
    (proxyRoute api req).run net =
      ⟨502, [("Content-Type".toList, "text/plain".toList)],
        Body.text ("Proxy failed: ".toList ++ m)⟩ := by
  rw [proxyRoute_fetch api req target origin hurl hne hok, Step.run, hnet]
  exact proxyFailed_fresh req m

theorem fetch_failure_gateway_witness :
    (proxyRoute plainUrl (exampleRequest (some "https://example.com".toList))).run
        (always (Outcome.failed "fetch failed".toList)) =
      ⟨502, [("Content-Type".toList, "text/plain".toList)],
        Body.text ("Proxy failed: ".toList ++ "fetch failed".toList)⟩ :=
  fetch_failure_gateway plainUrl (exampleRequest (some "https://example.com".toList))
    (always (Outcome.failed "fetch failed".toList))
    "https://example.com".toList "https://example.com".toList "fetch failed".toList
    rfl (by decide) rfl rfl

/-- C10. For a non-empty `url` parameter that does not parse as an absolute URL (the
`URL` constructor throws an error of message `e`), the handler answers at once, without
an outbound fetch, with status 502 and the body `Proxy failed: ` followed by `e`. -/
theorem malformed_target_gateway (api : UrlApi) (req : Request) (target e : Text)
    (hurl : req.url = some target) (hne : target ≠ [])
    (hbad : api.origin target = Except.error e) :
    (proxyRoute api req).fetches = false ∧
    ∀ net, ((proxyRoute api req).run net).status = 502 ∧
      ((proxyRoute api req).run net).body = Body.text ("Proxy failed: ".toList ++ e) := by
  rw [proxyRoute_unparsed api req target e hurl hne hbad, proxyFailed_fresh]
  exact ⟨rfl, fun _ => ⟨rfl, rfl⟩⟩

theorem malformed_target_gateway_witness :
    (proxyRoute plainUrl (exampleRequest (some "example.com".toList))).fetches = false ∧
    ∀ net, ((proxyRoute plainUrl (exampleRequest (some "example.com".toList))).run net).status
        = 502 ∧
      ((proxyRoute plainUrl (exampleRequest (some "example.com".toList))).run net).body =
        Body.text ("Proxy failed: ".toList ++ "Invalid URL".toList) :=
  malformed_target_gateway plainUrl (exampleRequest (some "example.com".toList))
    "example.com".toList "Invalid URL".toList rfl (by decide) rfl

/-! ### The random header pools (C18) -/

theorem pick_of_index (pool : List Text) (r : ℚ) (i : Nat)
    (hi : ⌊r * (pool.length : ℚ)⌋₊ = i) : pick pool r = (pool.get? i).getD "undefined".toList := by
  unfold pick
  rw [hi]

theorem floor_draw_lt (r : ℚ) (h0 : 0 ≤ r) (h1 : r < 1) : ⌊r * 4⌋₊ < 4 := by
  rw [Nat.floor_lt (by positivity)]
  push_cast
  linarith

theorem floor_draw_eq_iff (r : ℚ) (h0 : 0 ≤ r) (k : Nat) :
    ⌊r * 4⌋₊ = k ↔ (k : ℚ) / 4 ≤ r ∧ r < ((k : ℚ) + 1) / 4 := by
  rw [Nat.floor_eq_iff (by positivity)]
  constructor
  · rintro ⟨a, b⟩
    constructor <;> linarith
  · rintro ⟨a, b⟩
    constructor <;> linarith

theorem agents_index : ∀ i < 4, ∀ k < 4,
    (agents.get? k = some ((agents.get? i).getD "undefined".toList) ↔ i = k) := by
  decide

theorem langs_index : ∀ i < 4, ∀ k < 4,
    (langs.get? k = some ((langs.get? i).getD "undefined".toList) ↔ i = k) := by
  decide

theorem pool_member : ∀ i < 4, (agents.get? i).getD "undefined".toList ∈ agents ∧
    (langs.get? i).getD "undefined".toList ∈ langs := by
  decide

/-- C18. For every value `r` of the random source with `0 ≤ r < 1` the index
`floor(r * 4)` lies in `{0, 1, 2, 3}`; `randomUserAgent` and `randomAcceptLang` return an
element of their pool (never `undefined`), and the element of index `k` is returned
exactly for the `r` of the interval `[k/4, (k+1)/4)`.  Both are functions of `r` alone. -/
theorem random_pick_in_pool (r : ℚ) (h0 : 0 ≤ r) (h1 : r < 1) :
    ⌊r * 4⌋₊ < 4 ∧ randomUserAgent r ∈ agents ∧ randomAcceptLang r ∈ langs ∧
    ∀ k : Nat, k < 4 →
      (((k : ℚ) / 4 ≤ r ∧ r < ((k : ℚ) + 1) / 4) ↔ agents.get? k = some (randomUserAgent r)) ∧
      (((k : ℚ) / 4 ≤ r ∧ r < ((k : ℚ) + 1) / 4) ↔ langs.get? k = some (randomAcceptLang r)) := by
  have hlt := floor_draw_lt r h0 h1
  have ha : randomUserAgent r = (agents.get? ⌊r * 4⌋₊).getD "undefined".toList :=
    pick_of_index agents r _ (by simp [agents])
  have hl : randomAcceptLang r = (langs.get? ⌊r * 4⌋₊).getD "undefined".toList :=
    pick_of_index langs r _ (by simp [langs])
  refine ⟨hlt, ?_, ?_, ?_⟩
  · rw [ha]; exact (pool_member _ hlt).1
  · rw [hl]; exact (pool_member _ hlt).2
  · intro k hk
    rw [← floor_draw_eq_iff r h0 k, ha, hl]
    exact ⟨(agents_index _ hlt k hk).symm, (langs_index _ hlt k hk).symm⟩

theorem random_pick_in_pool_witness :
    ⌊(3 / 8 : ℚ) * 4⌋₊ < 4 ∧ randomUserAgent (3 / 8) ∈ agents ∧
    randomAcceptLang (3 / 8) ∈ langs ∧
    ∀ k : Nat, k < 4 →
      (((k : ℚ) / 4 ≤ 3 / 8 ∧ (3 / 8 : ℚ) < ((k : ℚ) + 1) / 4) ↔
        agents.get? k = some (randomUserAgent (3 / 8))) ∧
      (((k : ℚ) / 4 ≤ 3 / 8 ∧ (3 / 8 : ℚ) < ((k : ℚ) + 1) / 4) ↔
        langs.get? k = some (randomAcceptLang (3 / 8))) :=
  random_pick_in_pool (3 / 8) (by norm_num) (by norm_num)

/-! ### The bodies that are not rewritten (C11) -/

theorem setField_status (r : Response) (k v : Text) : (r.setField k v).status = r.status := rfl

theorem setAll_status (obj : HeaderList) (r : Response) : (r.setAll obj).status = r.status := by
  unfold Response.setAll
  induction obj generalizing r with
  | nil => rfl
  | cons a rest ih => rw [List.foldl_cons, ih, setField_status]

theorem sanitised_status (up : Upstream) : (sanitised up).status = up.status := by
  unfold sanitised
  dsimp only
  rw [setAll_status]
  rfl

/-- What the handler does with a text response that is neither a challenge nor HTML. -/
theorem afterFetch_text (api : UrlApi) (req : Request) (selfBase target : Text)
    (up : Upstream)
    (hs : ¬ (up.status = 403 ∨ up.status = 429))
    (hc : includes up.contentType "text".toList = true)
    (hh : includes up.contentType "text/html".toList = false)
    (hm : hasMarker up.text = false) :
    afterFetch api req selfBase target (Outcome.response up) =
      sendOrFail req (sanitised up) up.text := by
  rw [afterFetch_clear _ _ _ _ _ hs (by rw [hm]; simp), if_pos hc, if_neg (by rw [hh]; simp)]

/-- What the handler does with a response whose content type does not contain `text`. -/
theorem afterFetch_binary (api : UrlApi) (req : Request) (selfBase target : Text)
    (up : Upstream)
    (hs : ¬ (up.status = 403 ∨ up.status = 429))
    (hc : includes up.contentType "text".toList = false) :
    afterFetch api req selfBase target (Outcome.response up) =
      proxyFailed req (sanitised up) (pipeMessage up) := by
  rw [afterFetch_clear _ _ _ _ _ hs (by rw [hc]; simp), if_neg (by rw [hc]; simp)]

/-- C11 (the code at the failing input). For an upstream response of content type
`image/png` and status 200, `upstream.body.pipe(res)` throws (a web `ReadableStream`
has no `pipe`), so the response has status 502, a `Proxy failed` text as its body and the
content type `text/plain`: the upstream bytes are not forwarded. -/
theorem binary_body_not_forwarded :
    ((proxyRoute plainUrl (exampleRequest (some "https://example.com/logo.png".toList))).run
        (always (Outcome.response ⟨200, [("content-type".toList, "image/png".toList)],
          [], some [137, 80, 78, 71, 13, 10, 26, 10]⟩))).status = 502 ∧
    ((proxyRoute plainUrl (exampleRequest (some "https://example.com/logo.png".toList))).run
        (always (Outcome.response ⟨200, [("content-type".toList, "image/png".toList)],
          [], some [137, 80, 78, 71, 13, 10, 26, 10]⟩))).body =
      Body.text "Proxy failed: upstream.body.pipe is not a function".toList ∧
    ((proxyRoute plainUrl (exampleRequest (some "https://example.com/logo.png".toList))).run
        (always (Outcome.response ⟨200, [("content-type".toList, "image/png".toList)],
          [], some [137, 80, 78, 71, 13, 10, 26, 10]⟩))).field "content-type".toList =
      some "text/plain".toList := by
  decide

/-! ### Tags and attributes the patterns also match (C14, C15) -/

/-- C14 (the code at the failing input). A body without any `head` element but with a
`<header class="top">` tag: the pattern `/<head([^>]*)>/i` matches that tag, so line 73
inserts the `<base>` tag behind it, and the returned body holds an inserted `<base`. -/
theorem base_injected_behind_header :
    injectBase "https://example.com".toList
        "<html><body><header class=\"top\">Hi</header></body></html>".toList =
      ("<html><body><header class=\"top\"><base href=\"https://example.com/\">".toList ++
        "Hi</header></body></html>".toList) ∧
    ((proxyRoute plainUrl (exampleRequest (some "https://example.com".toList))).run
        (always (Outcome.response (exampleUpstream 200 "text/html".toList
          "<html><body><header class=\"top\">Hi</header></body></html>".toList)))).body =
      Body.text ("<html><body><header class=\"top\">".toList ++
        "<base href=\"http://proxy.test/proxy?url=https%3A%2F%2Fexample.com/\">".toList ++
        "Hi</header></body></html>".toList) := by
  decide

/-- C15 (the code at the failing input). The protocol-relative values
`href="//cdn.example.com/x"` and `action="//h/submit"` match the patterns of lines 79 and
83 (the capture starts behind the first slash), so both are resolved against the target
`https://example.com` and turned into `/proxy?url=` links. -/
theorem protocol_relative_rewritten :
    ((proxyRoute plainUrl (exampleRequest (some "https://example.com".toList))).run
        (always (Outcome.response (exampleUpstream 200 "text/html".toList
          "<a href=\"//cdn.example.com/x\">c</a><form action=\"//h/submit\"></form>".toList)))).body =
      Body.text ("<a href=\"http://proxy.test/proxy?url=".toList ++
        "https%3A%2F%2Fexample.com%2Fcdn.example.com%2Fx\">c</a>".toList ++
        "<form action=\"http://proxy.test/proxy?url=".toList ++
        "https%3A%2F%2Fexample.com%2Fh%2Fsubmit\"></form>".toList) ∧
    matchRooted "href".toList "href=\"//cdn.example.com/x\">c</a>".toList =
      some ⟨"href=\"//cdn.example.com/x\"".toList, "/cdn.example.com/x".toList⟩ ∧
    matchRooted "action".toList "action=\"//h/submit\"></form>".toList =
      some ⟨"action=\"//h/submit\"".toList, "/h/submit".toList⟩ := by
  decide

/-! ### Sanitisation applied twice (C19) -/

theorem sanitise_eq (hs : HeaderList) : sanitise hs = stripAndSet (Headers.copy hs) := rfl

theorem delete_noop {hs : HeaderList} {s : Text} (h : ∀ p ∈ hs, lower s ≠ lower p.1) :
    Headers.delete hs s = hs := by
  unfold Headers.delete
  rw [List.filter_eq_self]
  intro p hp
  rw [Bool.not_eq_true', sameName_false_iff]
  exact h p hp

theorem strip_noop {hs : HeaderList} (h : Clean hs) : stripSecurityHeaders hs = hs := by
  have key : ∀ s ∈ strippedNames, Headers.delete hs s = hs := by
    intro s hs'
    apply delete_noop
    intro p hp e
    apply h p hp
    rw [← e, strippedNames_lower s hs']
    exact hs'
  unfold stripSecurityHeaders
  have : ∀ l : List Text, (∀ s ∈ l, Headers.delete hs s = hs) → l.foldl Headers.delete hs = hs := by
    intro l
    induction l with
    | nil => intro _; rfl
    | cons a r ih =>
      intro hl
      rw [List.foldl_cons, hl a (List.mem_cons_self _ _)]
      exact ih (fun s hs' => hl s (List.mem_cons_of_mem _ hs'))
  exact this _ key

theorem setFirst_noop {n v : Text} {hs : HeaderList} (h : headerValues hs n = [v]) :
    setFirst n v hs = hs := by
  induction hs with
  | nil => rfl
  | cons p r ih =>
    unfold setFirst
    rw [headerValues_cons] at h
    by_cases h1 : sameName n p.1 = true
    · rw [if_pos h1] at h ⊢
      have hv : p.2 = v := (List.cons.inj h).1
      have hr : headerValues r n = [] := (List.cons.inj h).2
      rw [headerValues_nil_iff] at hr
      rw [delete_noop hr, ← hv]
    · rw [if_neg h1] at h ⊢
      rw [ih h]

theorem set_noop {n v : Text} {hs : HeaderList} (h : headerValues hs n = [v]) :
    Headers.set hs n v = hs := by
  unfold Headers.set
  have hany : hs.any (fun p => sameName n p.1) = true := by
    rw [List.any_eq_true]
    by_contra hcon
    push_neg at hcon
    have : headerValues hs n = [] := by
      rw [headerValues_nil_iff]
      intro p hp e
      exact hcon p hp ((sameName_iff _ _).2 e)
    rw [this] at h
    exact List.noConfusion h
  rw [if_pos hany]
  exact setFirst_noop h

theorem clean_stripAndSet (hs : HeaderList) : Clean (stripAndSet hs) := by
  unfold stripAndSet
  dsimp only
  refine clean_set (clean_set (clean_set (clean_set (clean_strip _) ?_) ?_) ?_) ?_ <;> decide

theorem headerValues_stripAndSet (hs : HeaderList) :
    headerValues (stripAndSet hs) "Access-Control-Allow-Origin".toList = ["*".toList] ∧
    headerValues (stripAndSet hs) "Access-Control-Allow-Methods".toList =
      ["GET,POST,OPTIONS".toList] ∧
    headerValues (stripAndSet hs) "Access-Control-Allow-Headers".toList = ["*".toList] ∧
    headerValues (stripAndSet hs) "X-Proxied-By".toList = ["Roogle Northflank Proxy".toList] := by
  unfold stripAndSet
  dsimp only
  refine ⟨?_, ?_, ?_, ?_⟩
  · rw [headerValues_set_other (by decide), headerValues_set_other (by decide),
      headerValues_set_other (by decide), headerValues_set_same]
  · rw [headerValues_set_other (by decide), headerValues_set_other (by decide),
      headerValues_set_same]
  · rw [headerValues_set_other (by decide), headerValues_set_same]
  · rw [headerValues_set_same]

theorem get_of_values {hs : HeaderList} {n v : Text} (h : headerValues hs n = [v]) :
    Headers.get hs n = some v := by
  unfold Headers.get
  rw [h]
  rfl

/-- C19. Header sanitisation, `stripSecurityHeaders` followed by the four `set` calls
(lines 60–64, which the handler applies to a copy of the upstream headers), is idempotent:
applied to its own result it returns that result.  After it the four added headers are
present with exactly the values `*`, `GET,POST,OPTIONS`, `*` and
`Roogle Northflank Proxy`, whatever the upstream supplied under those names. -/
theorem sanitisation_idempotent (h : HeaderList) :
    stripAndSet (stripAndSet h) = stripAndSet h ∧
    sanitise h = stripAndSet (Headers.copy h) ∧
    Headers.get (stripAndSet h) "Access-Control-Allow-Origin".toList = some "*".toList ∧
    Headers.get (stripAndSet h) "Access-Control-Allow-Methods".toList =
      some "GET,POST,OPTIONS".toList ∧
    Headers.get (stripAndSet h) "Access-Control-Allow-Headers".toList = some "*".toList ∧
    Headers.get (stripAndSet h) "X-Proxied-By".toList =
      some "Roogle Northflank Proxy".toList := by
  obtain ⟨h1, h2, h3, h4⟩ := headerValues_stripAndSet h
  refine ⟨?_, rfl, get_of_values h1, get_of_values h2, get_of_values h3, get_of_values h4⟩
  generalize hY : stripAndSet h = Y at h1 h2 h3 h4
  have hc : Clean Y := hY ▸ clean_stripAndSet h
  unfold stripAndSet
  dsimp only
  rw [strip_noop hc, set_noop h1, set_noop h2, set_noop h3, set_noop h4]

/-- Upstream values under the added names are replaced, also when they come in several
copies and casings. -/
theorem sanitisation_example :
    stripAndSet [("access-control-allow-origin".toList, "https://a.example".toList),
        ("X-Frame-Options".toList, "DENY".toList),
        ("Access-Control-Allow-Origin".toList, "null".toList),
        ("x-proxied-by".toList, "other".toList)] =
      [("access-control-allow-origin".toList, "*".toList),
       ("x-proxied-by".toList, "Roogle Northflank Proxy".toList),
       ("Access-Control-Allow-Methods".toList, "GET,POST,OPTIONS".toList),
       ("Access-Control-Allow-Headers".toList, "*".toList)] := by
  decide

/-! ### What sanitisation keeps (C17) -/

theorem filter_flatMap_none {α β : Type} (g : α → List β) (P : β → Bool) (ks : List α)
    (h : ∀ k ∈ ks, ∀ e ∈ g k, P e = false) : (ks.flatMap g).filter P = [] := by
  rw [List.filter_eq_nil_iff]
  intro e he
  obtain ⟨k, hk, hek⟩ := List.mem_flatMap.1 he
  rw [h k hk e hek]
  exact Bool.false_ne_true

theorem filter_flatMap_one {α β : Type} (g : α → List β) (P : β → Bool) (a : α)
    (ks : List α) (hnd : ks.Nodup) (ha : a ∈ ks)
    (hyes : ∀ e ∈ g a, P e = true)
    (hno : ∀ k ∈ ks, k ≠ a → ∀ e ∈ g k, P e = false) :
    (ks.flatMap g).filter P = g a := by
  induction ks with
  | nil => exact absurd ha (List.not_mem_nil _)
  | cons k r ih =>
    rw [List.flatMap_cons, List.filter_append]
    rw [List.nodup_cons] at hnd
    by_cases hk : k = a
    · subst hk
      rw [List.filter_eq_self.2 hyes, filter_flatMap_none g P r, List.append_nil]
      intro k' hk' e he
      exact hno k' (List.mem_cons_of_mem _ hk') (fun e' => hnd.1 (e' ▸ hk')) e he
    · have har : a ∈ r := by
        rcases List.mem_cons.1 ha with h | h
        · exact absurd h.symm hk
        · exact h
      rw [List.filter_eq_nil_iff.2 (fun e he => by
          rw [hno k (List.mem_cons_self _ _) hk e he]; exact Bool.false_ne_true),
        List.nil_append]
      exact ih hnd.2 har (fun k' hk' => hno k' (List.mem_cons_of_mem _ hk'))

theorem headerValues_lower (hs : HeaderList) (n : Text) :
    headerValues hs (lower n) = headerValues hs n := by
  unfold headerValues
  rw [funext (fun p : Text × Text => sameName_congr_left (lower_idem n) p.1)]

/-- The values the iteration yields under a name other than `set-cookie`: the one combined
value. -/
theorem headerValues_entries {hs : HeaderList} {n : Text}
    (hne : headerValues hs n ≠ []) (hc : lower n ≠ "set-cookie".toList) :
    headerValues (Headers.entries hs) n = [joinValues (headerValues hs n)] := by
  have hmem : lower n ∈ ((hs.map (fun p => lower p.1)).dedup).insertionSort
      (fun a b => a ≤ b) := by
    rw [Ne, headerValues_nil_iff] at hne
    push_neg at hne
    obtain ⟨q, hq, e⟩ := hne
    rw [(List.perm_insertionSort (fun a b : Text => a ≤ b) _).mem_iff, List.mem_dedup, e]
    exact List.mem_map.2 ⟨q, hq, rfl⟩
  have hnd : (((hs.map (fun p => lower p.1)).dedup).insertionSort
      (fun a b => a ≤ b)).Nodup :=
    (List.perm_insertionSort (fun a b : Text => a ≤ b) _).nodup_iff.2 (List.nodup_dedup _)
  unfold headerValues Headers.entries
  dsimp only
  rw [filter_flatMap_one _ _ (lower n) _ hnd hmem, if_neg hc]
  · show [joinValues (headerValues hs (lower n))] = _
    rw [headerValues_lower]
    rfl
  · intro e he
    rw [if_neg hc, List.mem_singleton] at he
    rw [he, sameName_iff, lower_idem]
  · intro k hkm hk e he
    have hklow : lower k = k := by
      rw [(List.perm_insertionSort (fun a b : Text => a ≤ b) _).mem_iff, List.mem_dedup] at hkm
      obtain ⟨q, _, eq⟩ := List.mem_map.1 hkm
      rw [← eq, lower_idem]
    have hk1 : e.1 = k := by
      by_cases hck : k = "set-cookie".toList
      · rw [if_pos hck] at he
        obtain ⟨v, _, ev⟩ := List.mem_map.1 he
        rw [← ev]
      · rw [if_neg hck, List.mem_singleton] at he
        rw [he]
    rw [sameName_false_iff, hk1]
    intro e2
    exact hk (by rw [e2, hklow])

theorem headerValues_strip {n : Text} (hn : lower n ∉ strippedNames) (hs : HeaderList) :
    headerValues (stripSecurityHeaders hs) n = headerValues hs n := by
  have key : ∀ (l : List Text) (x : HeaderList), (∀ s ∈ l, lower n ≠ lower s) →
      headerValues (l.foldl Headers.delete x) n = headerValues x n := by
    intro l
    induction l with
    | nil => intro _ _; rfl
    | cons a r ih =>
      intro x hl
      rw [List.foldl_cons, ih _ (fun s hs' => hl s (List.mem_cons_of_mem _ hs')),
        headerValues_delete_other (hl a (List.mem_cons_self _ _))]
  apply key
  intro s hs' e
  apply hn
  rw [e, strippedNames_lower s hs']
  exact hs'

/-- The four names the sanitisation sets. -/
theorem headerValues_sanitise_other {n : Text} (hs : HeaderList)
    (hstrip : lower n ∉ strippedNames)
    (hadd : lower n ∉ ["access-control-allow-origin".toList,
      "access-control-allow-methods".toList, "access-control-allow-headers".toList,
      "x-proxied-by".toList]) :
    headerValues (sanitise hs) n = headerValues (Headers.entries hs) n := by
  have h1 : lower n ≠ lower "Access-Control-Allow-Origin".toList := by
    intro e; apply hadd; rw [e]; decide
  have h2 : lower n ≠ lower "Access-Control-Allow-Methods".toList := by
    intro e; apply hadd; rw [e]; decide
  have h3 : lower n ≠ lower "Access-Control-Allow-Headers".toList := by
    intro e; apply hadd; rw [e]; decide
  have h4 : lower n ≠ lower "X-Proxied-By".toList := by
    intro e; apply hadd; rw [e]; decide
  unfold sanitise
  dsimp only
  rw [headerValues_set_other h4, headerValues_set_other h3, headerValues_set_other h2,
    headerValues_set_other h1, headerValues_strip hstrip]
  rfl

theorem field_sanitised_of_values (up : Upstream) {n v : Text}
    (hv : headerValues (sanitise up.headers) n = [v])
    (hc : lower n ≠ "set-cookie".toList) :
    (sanitised up).field n = some v := by
  unfold sanitised
  dsimp only
  apply field_setAll
  · intro p hp hs
    have hp2 := mem_fromEntries hp
    have e := (sameName_iff _ _).1 hs
    obtain ⟨q, _, eq⟩ := name_of_mem_entries hp2
    have elow : lower p.1 = p.1 := by rw [eq, lower_idem]
    have hne : p.1 ≠ "set-cookie".toList := by
      rw [← elow, ← e]
      exact hc
    rw [(mem_entries_value hp2 hne).1, headerValues, ← funext (sameName_congr_left e),
      ← headerValues, hv]
    rfl
  · right
    have hne : headerValues (sanitise up.headers) n ≠ [] := by
      rw [hv]
      exact List.cons_ne_nil _ _
    rw [Ne, headerValues_nil_iff] at hne
    push_neg at hne
    obtain ⟨q, hq, e⟩ := hne
    obtain ⟨p, hp, e2⟩ := entries_has_name hq
    obtain ⟨p2, hp2, e3⟩ := foldl_objSet_keys (o := []) (Or.inr ⟨p, hp, rfl⟩)
    refine ⟨p2, hp2, ?_⟩
    rw [sameName_iff, e3, e2, lower_idem]
    exact e

/-- The headers of one name, neither stripped nor added nor `set-cookie`, are one field
of the sanitised response: their values joined by a comma and a space. -/
theorem field_sanitised_joined (up : Upstream) {n : Text}
    (hv : headerValues up.headers n ≠ [])
    (hstrip : lower n ∉ strippedNames)
    (hadd : lower n ∉ ["access-control-allow-origin".toList,
      "access-control-allow-methods".toList, "access-control-allow-headers".toList,
      "x-proxied-by".toList])
    (hc : lower n ≠ "set-cookie".toList) :
    (sanitised up).field n = some (joinValues (headerValues up.headers n)) := by
  apply field_sanitised_of_values up _ hc
  rw [headerValues_sanitise_other _ hstrip hadd, headerValues_entries hv hc]

/-! ### Plain text passed through (C13) -/

/-- The `Content-Type` field of the sanitised response is the combined content type of
the upstream response. -/
theorem field_sanitised_contentType (up : Upstream)
    (hv : headerValues up.headers "content-type".toList ≠ []) :
    (sanitised up).field "Content-Type".toList = some up.contentType := by
  have hv2 : headerValues up.headers "Content-Type".toList ≠ [] := by
    rw [← headerValues_lower]
    exact hv
  rw [field_sanitised_joined up hv2 (by decide) (by decide) (by decide)]
  unfold Upstream.contentType Headers.get
  rw [← headerValues_lower up.headers "Content-Type".toList]
  cases h : headerValues up.headers (lower "Content-Type".toList) with
  | nil => exact absurd h (by rw [headerValues_lower]; exact hv2)
  | cons v r =>
    have e : lower "Content-Type".toList = "content-type".toList := by decide
    rw [e] at h
    rw [h]
    rfl

theorem contentType_present (up : Upstream)
    (hc : includes up.contentType "text".toList = true) :
    headerValues up.headers "content-type".toList ≠ [] := by
  intro h
  unfold Upstream.contentType Headers.get at hc
  rw [h] at hc
  exact absurd hc (by decide)

/-- C13 (amended). For an upstream response whose status is neither 403 nor 429, whose
content type contains `text` but not `text/html` and is a media type that `res.send` can
parse, and whose text holds none of the four markers and is empty when the status is 204,
205 or 304 (as it is for every response `fetch` delivers), the handler answers a request
that is not fresh with the upstream text unchanged and the upstream's status code. -/
theorem plain_text_passthrough (api : UrlApi) (req : Request)
    (net : Text → HeaderList → Outcome) (target origin : Text) (up : Upstream)
    (hurl : req.url = some target) (hne : target ≠ [])
    (hok : api.origin target = Except.ok origin)
    (hnet : net target (outboundHeaders req origin) = Outcome.response up)
    (hs : up.status ≠ 403 ∧ up.status ≠ 429)
    (hc : includes up.contentType "text".toList = true)
    (hh : includes up.contentType "text/html".toList = false)
    (hm : includes up.text "recaptcha/api.js".toList = false ∧
      includes up.text "Our systems have detected unusual traffic".toList = false ∧
      includes up.text "detected unusual traffic from your computer network".toList = false ∧
      includes up.text "To continue, please type the characters you see".toList = false)
    (hv : mediaTypeError up.contentType = none)
    (hf : (200 ≤ up.status ∧ up.status < 300) ∨ up.status = 304 →
      req.fresh ((sanitised up).headers.filter
        (fun p => !sameName "Content-Length".toList p.1)) up.text = false)
    (hnb : up.status = 204 ∨ up.status = 205 ∨ up.status = 304 → up.text = []) :
    ((proxyRoute api req).run net).body = Body.text up.text ∧
    ((proxyRoute api req).run net).status = up.status := by
  have hm2 : hasMarker up.text = false := by
    unfold hasMarker
    rw [hm.1, hm.2.1, hm.2.2.1, hm.2.2.2]
    rfl
  rw [proxyRoute_fetch api req target origin hurl hne hok, Step.run, hnet,
    afterFetch_text _ _ _ _ _ (fun h => h.elim hs.1 hs.2) hc hh hm2]
  unfold sendOrFail Response.send
  rw [field_sanitised_contentType up (contentType_present up hc), Option.some_bind, hv]
  dsimp only
  rw [sanitised_status]
  have hnf : ¬ (((200 ≤ up.status ∧ up.status < 300) ∨ up.status = 304) ∧
      req.fresh ((sanitised up).headers.filter
        (fun p => !sameName "Content-Length".toList p.1)) up.text = true) := by
    rintro ⟨h1, h2⟩
    rw [hf h1] at h2
    exact Bool.false_ne_true h2
  rw [if_neg hnf]
  by_cases c1 : up.status = 204 ∨ up.status = 304
  · rw [if_pos c1]
    have e : up.text = [] := hnb (c1.elim Or.inl (fun h => Or.inr (Or.inr h)))
    rw [e]
    exact ⟨rfl, rfl⟩
  · rw [if_neg c1]
    by_cases c2 : up.status = 205
    · rw [if_pos c2]
      have e : up.text = [] := hnb (Or.inr (Or.inl c2))
      rw [e]
      exact ⟨rfl, rfl⟩
    · rw [if_neg c2]
      exact ⟨rfl, rfl⟩

theorem plain_text_passthrough_witness :
    ((proxyRoute plainUrl (exampleRequest (some "https://example.com".toList))).run
        (always (Outcome.response (exampleUpstream 404 "text/css".toList
          "a { background: url(https://example.com/x.png) } <head>".toList)))).body =
      Body.text "a { background: url(https://example.com/x.png) } <head>".toList ∧
    ((proxyRoute plainUrl (exampleRequest (some "https://example.com".toList))).run
        (always (Outcome.response (exampleUpstream 404 "text/css".toList
          "a { background: url(https://example.com/x.png) } <head>".toList)))).status = 404 :=
  plain_text_passthrough plainUrl (exampleRequest (some "https://example.com".toList))
    (always (Outcome.response (exampleUpstream 404 "text/css".toList
      "a { background: url(https://example.com/x.png) } <head>".toList)))
    "https://example.com".toList "https://example.com".toList
    (exampleUpstream 404 "text/css".toList
      "a { background: url(https://example.com/x.png) } <head>".toList)
    rfl (by decide) rfl rfl (by decide) (by decide) (by decide) (by decide) (by decide)
    (fun _ => rfl) (by decide)

/-- C13 (counterexample). An upstream response 200 with two `Content-Type: text/plain`
headers and the text `hello` meets every condition of the claim (the combined content
type `text/plain, text/plain` contains `text` and not `text/html`), but `res.send` throws
on that content type and the handler answers 502 with the message of the exception.  A
fresh request (one with `If-None-Match: *`, say) for a 200 `text/plain` response is
answered by 304 without the text. -/
theorem plain_text_not_passed :
    includes (Upstream.contentType ⟨200, [("Content-Type".toList, "text/plain".toList),
      ("Content-Type".toList, "text/plain".toList)], "hello".toList, some []⟩)
      "text".toList = true ∧
    includes (Upstream.contentType ⟨200, [("Content-Type".toList, "text/plain".toList),
      ("Content-Type".toList, "text/plain".toList)], "hello".toList, some []⟩)
      "text/html".toList = false ∧
    hasMarker "hello".toList = false ∧
    ((proxyRoute plainUrl (exampleRequest (some "https://example.com".toList))).run
        (always (Outcome.response ⟨200, [("Content-Type".toList, "text/plain".toList),
          ("Content-Type".toList, "text/plain".toList)], "hello".toList, some []⟩))).status =
      502 ∧
    ((proxyRoute plainUrl (exampleRequest (some "https://example.com".toList))).run
        (always (Outcome.response ⟨200, [("Content-Type".toList, "text/plain".toList),
          ("Content-Type".toList, "text/plain".toList)], "hello".toList, some []⟩))).body =
      Body.text "Proxy failed: invalid media type".toList ∧
    ((proxyRoute plainUrl ⟨some "https://example.com".toList, "http".toList,
        "proxy.test".toList, 0, 0, fun _ _ => true⟩).run
        (always (Outcome.response (exampleUpstream 200 "text/plain".toList
          "hello".toList)))).status = 304 ∧
    ((proxyRoute plainUrl ⟨some "https://example.com".toList, "http".toList,
        "proxy.test".toList, 0, 0, fun _ _ => true⟩).run
        (always (Outcome.response (exampleUpstream 200 "text/plain".toList
          "hello".toList)))).body = Body.text [] := by
  decide

/-! ### The fields of the response (C17) -/

theorem sameName_false_of_lower {n k : Text} (h : lower n ≠ lower k) :
    sameName n k = false := (sameName_false_iff n k).2 h

theorem field_afterFetch_joined (api : UrlApi) (req : Request) (selfBase target : Text)
    (up : Upstream) {n : Text}
    (hs : ¬ (up.status = 403 ∨ up.status = 429))
    (hm : ¬ (includes up.contentType "text".toList = true ∧ hasMarker up.text = true))
    (hv : headerValues up.headers n ≠ [])
    (hstrip : lower n ∉ strippedNames)
    (hadd : lower n ∉ ["access-control-allow-origin".toList,
      "access-control-allow-methods".toList, "access-control-allow-headers".toList,
      "x-proxied-by".toList])
    (hc : lower n ≠ "set-cookie".toList) (hct : lower n ≠ "content-type".toList)
    (hcl : lower n ≠ "content-length".toList)
    (hte : lower n ≠ "transfer-encoding".toList) :
    (afterFetch api req selfBase target (Outcome.response up)).field n =
      some (joinValues (headerValues up.headers n)) := by
  rw [field_afterFetch_keep api req selfBase target up hs hm
    (sameName_false_of_lower (fun e => hcl (e.trans (by decide))))
    (sameName_false_of_lower (fun e => hct (e.trans (by decide))))
    (sameName_false_of_lower (fun e => hte (e.trans (by decide))))]
  exact field_sanitised_joined up hv hstrip hadd hc

/-- C17 (amended). For every upstream response that is not classified as a challenge and
every header name that the upstream carries and that is neither in the strip list, nor one
of the four added names, nor `set-cookie`, nor `content-type`, `content-length` or
`transfer-encoding`, the response has one field of that name, whose value is the upstream
values of that name joined by a comma and a space in their order: the upstream value
itself when the name occurs once. -/
theorem upstream_headers_combined (api : UrlApi) (req : Request)
    (net : Text → HeaderList → Outcome) (target origin : Text) (up : Upstream) (n : Text)
    (hurl : req.url = some target) (hne : target ≠ [])
    (hok : api.origin target = Except.ok origin)
    (hnet : net target (outboundHeaders req origin) = Outcome.response up)
    (hs : ¬ (up.status = 403 ∨ up.status = 429))
    (hm : ¬ (includes up.contentType "text".toList = true ∧ hasMarker up.text = true))
    (hv : headerValues up.headers n ≠ [])
    (hstrip : lower n ∉ strippedNames)
    (hadd : lower n ∉ ["access-control-allow-origin".toList,
      "access-control-allow-methods".toList, "access-control-allow-headers".toList,
      "x-proxied-by".toList])
    (hc : lower n ≠ "set-cookie".toList) (hct : lower n ≠ "content-type".toList)
    (hcl : lower n ≠ "content-length".toList)
    (hte : lower n ≠ "transfer-encoding".toList) :
    ((proxyRoute api req).run net).field n =
      some (joinValues (headerValues up.headers n)) := by
  rw [proxyRoute_fetch api req target origin hurl hne hok, Step.run, hnet]
  exact field_afterFetch_joined _ _ _ _ _ hs hm hv hstrip hadd hc hct hcl hte

theorem upstream_headers_combined_witness :
    ((proxyRoute plainUrl (exampleRequest (some "https://example.com".toList))).run
        (always (Outcome.response duplicateUpstream))).field "Vary".toList =
      some (joinValues (headerValues duplicateUpstream.headers "Vary".toList)) :=
  upstream_headers_combined plainUrl (exampleRequest (some "https://example.com".toList))
    (always (Outcome.response duplicateUpstream)) "https://example.com".toList
    "https://example.com".toList duplicateUpstream "Vary".toList
    rfl (by decide) rfl rfl (by decide) (by decide) (by decide) (by decide) (by decide)
    (by decide) (by decide) (by decide) (by decide)

/-- C17 (counterexample). Of two `Vary` headers and two `Set-Cookie` headers of the
upstream the response keeps one `vary` field with the combined value and one `set-cookie`
field, the last one: neither pair of headers appears header by header.  The
`Content-Length` of the upstream does not reach the response (`res.send` puts its own
count in its place), the `Transfer-Encoding` and `Content-Type` of a 204 response are
removed by `res.send`, and the `Content-Type` of a response that ends in the `catch` block
is replaced by `text/plain`. -/
theorem duplicate_headers_not_kept :
    ((proxyRoute plainUrl (exampleRequest (some "https://example.com".toList))).run
        (always (Outcome.response duplicateUpstream))).headers =
      [("access-control-allow-headers".toList, "*".toList),
       ("access-control-allow-methods".toList, "GET,POST,OPTIONS".toList),
       ("access-control-allow-origin".toList, "*".toList),
       ("content-type".toList, "text/plain".toList),
       ("set-cookie".toList, "b=2".toList),
       ("vary".toList, "Accept, Cookie".toList),
       ("x-custom".toList, "v".toList),
       ("x-proxied-by".toList, "Roogle Northflank Proxy".toList)] ∧
    headerValues ((proxyRoute plainUrl
        (exampleRequest (some "https://example.com".toList))).run
        (always (Outcome.response duplicateUpstream))).headers "Set-Cookie".toList =
      ["b=2".toList] ∧
    ((proxyRoute plainUrl (exampleRequest (some "https://example.com".toList))).run
        (always (Outcome.response ⟨200, [("Content-Type".toList, "text/plain".toList),
          ("Content-Length".toList, "5".toList)], "hello".toList, some []⟩))).field
      "Content-Length".toList = none ∧
    ((proxyRoute plainUrl (exampleRequest (some "https://example.com".toList))).run
        (always (Outcome.response ⟨204, [("Content-Type".toList, "text/plain".toList),
          ("Transfer-Encoding".toList, "chunked".toList)], [], none⟩))).headers =
      [("access-control-allow-headers".toList, "*".toList),
       ("access-control-allow-methods".toList, "GET,POST,OPTIONS".toList),
       ("access-control-allow-origin".toList, "*".toList),
       ("x-proxied-by".toList, "Roogle Northflank Proxy".toList)] ∧
    ((proxyRoute plainUrl (exampleRequest (some "https://example.com/logo.png".toList))).run
        (always (Outcome.response ⟨200, [("Content-Type".toList, "image/png".toList)],
          [], some [137, 80, 78, 71]⟩))).field "Content-Type".toList =
      some "text/plain".toList := by
  decide

/-! ### Rewriting twice (C12) -/

theorem toNat_ofNat_or (m : Nat) : (Char.ofNat m).toNat = m ∨ (Char.ofNat m).toNat = 0 := by
  unfold Char.ofNat
  split
  · left; rfl
  · right; rfl

/-- Neither a double quote nor `<`. -/
theorem hexDigit_safe (n : Nat) : hexDigit n ≠ '"' ∧ hexDigit n ≠ '<' := by
  unfold hexDigit
  have key : ∀ m : Nat, m ≠ 34 → m ≠ 60 → m ≠ 0 →
      Char.ofNat m ≠ '"' ∧ Char.ofNat m ≠ '<' := by
    intro m h1 h2 h3
    constructor
    · intro e
      have := congrArg Char.toNat e
      rcases toNat_ofNat_or m with h | h <;> rw [h] at this
      · exact h1 this
      · exact absurd this (by decide)
    · intro e
      have := congrArg Char.toNat e
      rcases toNat_ofNat_or m with h | h <;> rw [h] at this
      · exact h2 this
      · exact absurd this (by decide)
  split
  · exact key _ (by omega) (by omega) (by omega)
  · exact key _ (by omega) (by omega) (by omega)

theorem encodeChar_safe (c x : Char) (hx : x ∈ encodeChar c) : x ≠ '"' ∧ x ≠ '<' := by
  unfold encodeChar at hx
  split at hx
  · rename_i hu
    rw [List.mem_singleton] at hx
    subst hx
    constructor
    · intro e; rw [e] at hu; exact absurd hu (by decide)
    · intro e; rw [e] at hu; exact absurd hu (by decide)
  · obtain ⟨b, _, hb⟩ := List.mem_flatMap.1 hx
    unfold pctByte at hb
    simp only [List.mem_cons, List.mem_singleton, List.not_mem_nil, or_false] at hb
    rcases hb with h | h | h
    · subst h; exact ⟨by decide, by decide⟩
    · subst h; exact hexDigit_safe _
    · subst h; exact hexDigit_safe _

theorem encode_safe (s : Text) (x : Char) (hx : x ∈ encodeURIComponent s) :
    x ≠ '"' ∧ x ≠ '<' := by
  obtain ⟨c, _, hc⟩ := List.mem_flatMap.1 hx
  exact encodeChar_safe c x hc

theorem utf8Bytes_ne_nil (c : Char) : utf8Bytes c ≠ [] := by
  unfold utf8Bytes
  dsimp only
  split
  · exact List.cons_ne_nil _ _
  · split
    · exact List.cons_ne_nil _ _
    · split <;> exact List.cons_ne_nil _ _

theorem encodeChar_length (c : Char) : 1 ≤ (encodeChar c).length := by
  unfold encodeChar
  split
  · exact Nat.le_refl 1
  · cases h : utf8Bytes c with
    | nil => exact absurd h (utf8Bytes_ne_nil c)
    | cons b r =>
      rw [List.flatMap_cons, List.length_append]
      have : (pctByte b).length = 3 := rfl
      omega

theorem encode_length (s : Text) : s.length ≤ (encodeURIComponent s).length := by
  unfold encodeURIComponent
  induction s with
  | nil => exact Nat.le_refl 0
  | cons c r ih =>
    rw [List.flatMap_cons, List.length_append, List.length_cons]
    have := encodeChar_length c
    omega

/-- A pattern that needs the character `q` finds nothing in a text without `q`. -/
theorem scan_without {m : Text → Option Hit} {q : Char}
    (hm : ∀ t, q ∉ t → m t = none) (s : Text) (hs : q ∉ s) (k : Nat) :
    scan m s k = (s.drop k).map Seg.lit := by
  induction s generalizing k with
  | nil => cases k <;> rfl
  | cons c r ih =>
    have hr : q ∉ r := fun h => hs (List.mem_cons_of_mem _ h)
    cases k with
    | succ k' => rw [scan_succ, List.drop_succ_cons, ih hr]
    | zero =>
      rw [scan_zero, hm _ hs]
      dsimp only
      rw [ih hr 0]
      rfl

theorem render_lits (f : Hit → Text) (s : Text) : render f (s.map Seg.lit) = s := by
  induction s with
  | nil => rfl
  | cons c r ih => rw [List.map_cons, render_lit, ih]

theorem renderM_lits (f : Hit → Except Text Text) (s : Text) :
    renderM f (s.map Seg.lit) = Except.ok s := by
  induction s with
  | nil => rfl
  | cons c r ih =>
    rw [List.map_cons]
    unfold renderM
    rw [ih]

theorem dropLit_needs {lit s r : Text} {q : Char} (hq : q ∈ lit)
    (h : dropLit lit s = some r) : q ∈ s := by
  rw [dropLit_some h]
  exact List.mem_append_left _ hq

theorem matchRooted_without (attr : Text) (t : Text) (h : '"' ∉ t) :
    matchRooted attr t = none := by
  unfold matchRooted
  cases hd : dropLit (attr ++ "=\"/".toList) t with
  | none => rfl
  | some r =>
    exact absurd (dropLit_needs (q := '"')
      (List.mem_append_right _ (by decide)) hd) h

theorem matchSrc_without (t : Text) (h : '"' ∉ t) : matchSrc t = none := by
  unfold matchSrc
  cases hd : dropLit "src=\"".toList t with
  | none => rfl
  | some r => exact absurd (dropLit_needs (q := '"') (by decide) hd) h

theorem lowerChar_lt (c : Char) (h : lowerChar c = '<') : c = '<' := by
  unfold lowerChar at h
  split at h
  · rename_i hc
    have hv : (Char.ofNat (c.toNat + 32)).toNat = c.toNat + 32 :=
      toNat_ofNat_small _ (by omega) (by omega)
    have := congrArg Char.toNat h
    rw [hv] at this
    have h60 : ('<' : Char).toNat = 60 := rfl
    omega
  · exact h

theorem matchHead_without (t : Text) (h : '<' ∉ t) : matchHead t = none := by
  unfold matchHead
  cases t with
  | nil => rfl
  | cons c r =>
    have hc : c ≠ '<' := fun e => h (e ▸ List.mem_cons_self _ _)
    have : dropLitCI "<head".toList (c :: r) = none := by
      show dropLitCI ('<' :: "head".toList) (c :: r) = none
      unfold dropLitCI
      rw [if_neg (fun e => hc (lowerChar_lt c e.symm))]
    rw [this]

theorem replaceFirst_without {m : Text → Option Hit} {q : Char}
    (hm : ∀ t, q ∉ t → m t = none) (f : Hit → Text) (s : Text) (hs : q ∉ s) :
    replaceFirst m f s = s := by
  induction s with
  | nil => rfl
  | cons c r ih =>
    unfold replaceFirst
    rw [hm _ hs]
    dsimp only
    rw [ih (fun h => hs (List.mem_cons_of_mem _ h))]

theorem injectBase_without (origin s : Text) (hs : '<' ∉ s) : injectBase origin s = s :=
  replaceFirst_without matchHead_without _ s hs

theorem rewriteRooted_without (api : UrlApi) (attr selfBase target s : Text)
    (hs : '"' ∉ s) : rewriteRooted api attr selfBase target s = Except.ok s := by
  unfold rewriteRooted replaceAllM
  rw [scan_without (matchRooted_without attr) s hs 0]
  exact renderM_lits _ s

theorem rewriteSrc_without (selfBase s : Text) (hs : '"' ∉ s) : rewriteSrc selfBase s = s := by
  unfold rewriteSrc replaceAll
  rw [scan_without matchSrc_without s hs 0]
  exact render_lits _ s

/-- On a text without `<` and whose image under the global pass holds no double quote, the
whole rewriting is the global pass. -/
theorem rewriteHtml_plain (api : UrlApi) (selfBase target origin s : Text)
    (ho : api.origin target = Except.ok origin) (hl : '<' ∉ s)
    (hq : '"' ∉ rewriteAbsolute selfBase s) :
    rewriteHtml api selfBase target s = Except.ok (rewriteAbsolute selfBase s) := by
  unfold rewriteHtml
  rw [ho]
  dsimp only
  rw [injectBase_without _ _ hl, rewriteRooted_without _ _ _ _ _ hq]
  dsimp only
  rw [rewriteRooted_without _ _ _ _ _ hq]
  dsimp only
  rw [rewriteSrc_without _ _ hq]

theorem mem_render_scan {m : Text → Option Hit} {f : Hit → Text} {x : Char} (s : Text)
    (k : Nat) (h : x ∈ render f (scan m s k)) : x ∈ s ∨ ∃ w, x ∈ f w := by
  induction s generalizing k with
  | nil => cases k <;> exact absurd h (List.not_mem_nil _)
  | cons c r ih =>
    cases k with
    | succ k' =>
      rw [scan_succ] at h
      rcases ih k' h with h1 | h1
      · exact Or.inl (List.mem_cons_of_mem _ h1)
      · exact Or.inr h1
    | zero =>
      rw [scan_zero] at h
      cases hm : m (c :: r) with
      | none =>
        rw [hm] at h
        dsimp only at h
        rw [render_lit] at h
        rcases List.mem_cons.1 h with h1 | h1
        · exact Or.inl (h1 ▸ List.mem_cons_self _ _)
        · rcases ih 0 h1 with h2 | h2
          · exact Or.inl (List.mem_cons_of_mem _ h2)
          · exact Or.inr h2
      | some w =>
        rw [hm] at h
        dsimp only at h
        rw [render_hit] at h
        rcases List.mem_append.1 h with h1 | h1
        · exact Or.inr ⟨w, h1⟩
        · rcases ih _ h1 with h2 | h2
          · exact Or.inl (List.mem_cons_of_mem _ h2)
          · exact Or.inr h2

theorem rewriteAbsolute_safe (selfBase s : Text)
    (hS : ∀ x ∈ selfBase, x ≠ '"' ∧ x ≠ '<') (hs : ∀ x ∈ s, x ≠ '"' ∧ x ≠ '<') :
    ∀ x ∈ rewriteAbsolute selfBase s, x ≠ '"' ∧ x ≠ '<' := by
  intro x hx
  rcases mem_render_scan s 0 hx with h | ⟨w, h⟩
  · exact hs x h
  · unfold proxied at h
    rcases List.mem_append.1 h with h1 | h1
    · rcases List.mem_append.1 h1 with h2 | h2
      · exact hS x h2
      · have : ∀ y ∈ "/proxy?url=".toList, y ≠ '"' ∧ y ≠ '<' := by decide
        exact this x h2
    · exact encode_safe _ x h1

theorem render_scan_length (selfBase s : Text) (k : Nat) :
    s.length ≤ (render (fun h => proxied selfBase ++ encodeURIComponent h.whole)
      (scan matchAbs s k)).length + k := by
  induction s generalizing k with
  | nil => exact Nat.zero_le _
  | cons c r ih =>
    cases k with
    | succ k' =>
      rw [scan_succ, List.length_cons]
      have := ih k'
      omega
    | zero =>
      rw [scan_zero]
      cases hm : matchAbs (c :: r) with
      | none =>
        dsimp only
        rw [render_lit, List.length_cons, List.length_cons]
        have := ih 0
        omega
      | some w =>
        dsimp only
        rw [render_hit, List.length_append, List.length_append, List.length_cons]
        have h1 := ih (w.whole.length - 1)
        have h2 := encode_length w.whole
        have h3 : 11 ≤ (proxied selfBase).length := by
          unfold proxied
          rw [List.length_append]
          exact Nat.le_add_left _ _
        omega

theorem rewriteAbsolute_length (selfBase s : Text) :
    s.length ≤ (rewriteAbsolute selfBase s).length :=
  render_scan_length selfBase s 0

theorem render_scan_last {d : Char} (hd : isDelimiter d) (f : Hit → Text) (t : Text)
    (k : Nat) (hk : k ≤ t.length) :
    ∃ y, render f (scan matchAbs (t ++ [d]) k) = y ++ [d] := by
  induction t generalizing k with
  | nil =>
    have hk0 : k = 0 := Nat.le_zero.1 hk
    subst hk0
    have e2 : matchAbs [d] = none := by
      have := matchAbs_delim hd [] []
      rw [List.nil_append] at this
      rw [this]
      rfl
    rw [List.nil_append, scan_zero, e2]
    exact ⟨[], rfl⟩
  | cons c cs ih =>
    rw [List.cons_append]
    cases k with
    | succ k' =>
      rw [scan_succ]
      exact ih k' (Nat.le_of_succ_le_succ hk)
    | zero =>
      have e2 : matchAbs (c :: (cs ++ [d])) = matchAbs (c :: cs) :=
        matchAbs_delim hd (c :: cs) []
      rw [scan_zero, e2]
      cases hm : matchAbs (c :: cs) with
      | none =>
        dsimp only
        obtain ⟨y, hy⟩ := ih 0 (Nat.zero_le _)
        rw [render_lit, hy]
        exact ⟨c :: y, rfl⟩
      | some w =>
        dsimp only
        have hl := matchAbs_length hm
        obtain ⟨y, hy⟩ := ih (w.whole.length - 1)
          (by simp only [List.length_cons] at hl; omega)
        rw [render_hit, hy]
        exact ⟨f w ++ y, (List.append_assoc _ _ _).symm⟩

theorem rewriteAbsolute_last (selfBase pre : Text)
    (hp : ∀ d, pre.getLast? = some d → isDelimiter d) :
    ∀ d, (rewriteAbsolute selfBase pre).getLast? = some d → isDelimiter d := by
  rcases List.eq_nil_or_concat pre with h | ⟨t, d, h⟩
  · subst h
    intro d hd
    exact absurd hd (by simp [rewriteAbsolute, replaceAll, scan, render])
  · subst h
    have hd : isDelimiter d := hp d (by simp)
    rw [List.concat_eq_append]
    obtain ⟨y, hy⟩ := render_scan_last hd
      (fun h => proxied selfBase ++ encodeURIComponent h.whole) t 0 (Nat.zero_le _)
    intro d' hd'
    unfold rewriteAbsolute replaceAll at hd'
    rw [hy, List.getLast?_append] at hd'
    have e : d = d' := Option.some.inj hd'
    rw [← e]
    exact hd

theorem rewriteAbsolute_marker (selfBase z : Text) :
    rewriteAbsolute selfBase ("/proxy?url=".toList ++ z) =
      "/proxy?url=".toList ++ rewriteAbsolute selfBase z := by
  have hd : isDelimiter '=' := ⟨by decide, by decide, by decide⟩
  have e : "/proxy?url=".toList ++ z = "/proxy?url".toList ++ '=' :: z := by
    simp
  have e0 : rewriteAbsolute selfBase ("/proxy?url".toList ++ ['=']) =
      "/proxy?url".toList ++ ['='] := rewriteAbsolute_plain _ _ (by decide)
  unfold rewriteAbsolute replaceAll at e0 ⊢
  rw [e, scan_delim hd z _ 0 (Nat.zero_le _), render_append, e0]
  simp

theorem includes_append_left (a s n : Text) (h : includes s n = true) :
    includes (a ++ s) n = true := by
  induction a with
  | nil => exact h
  | cons c r ih =>
    rw [List.cons_append, includes_cons, ih]
    exact Bool.or_true _

theorem includes_start (n b : Text) : includes (n ++ b) n = true := by
  cases hn : n ++ b with
  | nil =>
    have : n = [] := (List.append_eq_nil.1 hn).1
    subst this
    rfl
  | cons c r =>
    rw [includes_cons, ← hn]
    have : n.isPrefixOf (n ++ b) = true := by
      rw [List.isPrefixOf_iff_prefix]
      exact List.prefix_append n b
    rw [this]
    rfl

theorem hostChar_safe {A : Text} (hA : ∀ c ∈ A, isHostChar c = true) :
    ∀ x ∈ A, x ≠ '"' ∧ x ≠ '<' := by
  intro x hx
  have h := hA x hx
  constructor
  · intro e; rw [e] at h; exact absurd h (by decide)
  · intro e; rw [e] at h; exact absurd h (by decide)

theorem selfBase_safe {sch A : Text}
    (hs : sch = "http://".toList ∨ sch = "https://".toList)
    (hA : ∀ c ∈ A, isHostChar c = true) : ∀ x ∈ sch ++ A, x ≠ '"' ∧ x ≠ '<' := by
  intro x hx
  rcases List.mem_append.1 hx with h | h
  · have h1 : ∀ y ∈ "http://".toList, y ≠ '"' ∧ y ≠ '<' := by decide
    have h2 : ∀ y ∈ "https://".toList, y ≠ '"' ∧ y ≠ '<' := by decide
    rcases hs with e | e <;> subst e
    · exact h1 x h
    · exact h2 x h
  · exact hostChar_safe hA x h

/-- The global pass applied to its own result: the proxy prefix of the first run is
itself proxied. -/
theorem rewriteAbsolute_twice (sch A pre scheme host rest : Text)
    (hsch : sch = "http://".toList ∨ sch = "https://".toList)
    (hA0 : A ≠ []) (hA : ∀ c ∈ A, isHostChar c = true)
    (hs : scheme = "http://".toList ∨ scheme = "https://".toList)
    (hne : host ≠ []) (hh : ∀ c ∈ host, isHostChar c = true)
    (hr : ∀ c, rest.head? = some c → isHostChar c = false)
    (hp : ∀ d, pre.getLast? = some d → isDelimiter d) :
    rewriteAbsolute (sch ++ A)
        (rewriteAbsolute (sch ++ A) (pre ++ (scheme ++ (host ++ rest)))) =
      rewriteAbsolute (sch ++ A) (rewriteAbsolute (sch ++ A) pre) ++
        (sch ++ A ++ ("/proxy?url=".toList ++ encodeURIComponent (sch ++ A) ++
          "/proxy?url=".toList ++
          rewriteAbsolute (sch ++ A) (encodeURIComponent (scheme ++ host) ++
            rewriteAbsolute (sch ++ A) rest))) := by
  rw [rewriteAbsolute_at (sch ++ A) pre scheme host rest hs hne hh hr hp]
  have e1 : rewriteAbsolute (sch ++ A) pre ++
      (sch ++ A ++ "/proxy?url=".toList ++ encodeURIComponent (scheme ++ host) ++
        rewriteAbsolute (sch ++ A) rest) =
      rewriteAbsolute (sch ++ A) pre ++ (sch ++ (A ++ ("/proxy?url=".toList ++
        (encodeURIComponent (scheme ++ host) ++ rewriteAbsolute (sch ++ A) rest)))) := by
    simp only [List.append_assoc]
  rw [e1, rewriteAbsolute_at (sch ++ A) _ sch A _ hsch hA0 hA
    (fun c hc => by
      have : c = '/' := (Option.some.inj hc).symm
      subst this
      decide)
    (rewriteAbsolute_last _ pre hp), rewriteAbsolute_marker]
  simp only [List.append_assoc]

/-- C12 (amended). The rewriting is not idempotent.  For every self base `scheme://A` with
scheme `http` or `https` and `A` a non-empty run of letters, digits, `.` and `-` (no
port), every target that parses, and every text without double quote and without `<` (so
that only the global pass applies) in which an absolute URL `scheme host rest` stands at
the start or behind a delimiter: both runs succeed, the second result differs from the
first, and it holds `/proxy?url=` + `encodeURIComponent(selfBase)` + `/proxy?url=`. -/
theorem rewriting_twice_nests (api : UrlApi) (target origin : Text)
    (sch A pre scheme host rest : Text)
    (ho : api.origin target = Except.ok origin)
    (hsch : sch = "http://".toList ∨ sch = "https://".toList)
    (hA0 : A ≠ []) (hA : ∀ c ∈ A, isHostChar c = true)
    (hs : scheme = "http://".toList ∨ scheme = "https://".toList)
    (hne : host ≠ []) (hh : ∀ c ∈ host, isHostChar c = true)
    (hr : ∀ c, rest.head? = some c → isHostChar c = false)
    (hp : ∀ d, pre.getLast? = some d → isDelimiter d)
    (hb : ∀ x ∈ pre ++ (scheme ++ (host ++ rest)), x ≠ '"' ∧ x ≠ '<') :
    ∃ first second,
      rewriteHtml api (sch ++ A) target (pre ++ (scheme ++ (host ++ rest))) =
        Except.ok first ∧
      rewriteHtml api (sch ++ A) target first = Except.ok second ∧
      second ≠ first ∧
      includes second ("/proxy?url=".toList ++ encodeURIComponent (sch ++ A) ++
        "/proxy?url=".toList) = true := by
  have hS := selfBase_safe hsch hA
  have safe1 := rewriteAbsolute_safe (sch ++ A) _ hS hb
  have safe2 := rewriteAbsolute_safe (sch ++ A) _ hS safe1
  refine ⟨rewriteAbsolute (sch ++ A) (pre ++ (scheme ++ (host ++ rest))),
    rewriteAbsolute (sch ++ A)
      (rewriteAbsolute (sch ++ A) (pre ++ (scheme ++ (host ++ rest)))), ?_, ?_, ?_, ?_⟩
  · exact rewriteHtml_plain api _ target origin _ ho (fun h => (hb _ h).2 rfl)
      (fun h => (safe1 _ h).1 rfl)
  · exact rewriteHtml_plain api _ target origin _ ho (fun h => (safe1 _ h).2 rfl)
      (fun h => (safe2 _ h).1 rfl)
  · intro e
    have hlen := congrArg List.length e
    rw [rewriteAbsolute_twice sch A pre scheme host rest hsch hA0 hA hs hne hh hr hp,
      rewriteAbsolute_at (sch ++ A) pre scheme host rest hs hne hh hr hp] at hlen
    simp only [List.length_append] at hlen
    have h1 := rewriteAbsolute_length (sch ++ A) (rewriteAbsolute (sch ++ A) pre)
    have h2 := rewriteAbsolute_length (sch ++ A)
      (encodeURIComponent (scheme ++ host) ++ rewriteAbsolute (sch ++ A) rest)
    have h3 : ("/proxy?url=".toList).length = 11 := rfl
    simp only [List.length_append] at h1 h2
    omega
  · rw [rewriteAbsolute_twice sch A pre scheme host rest hsch hA0 hA hs hne hh hr hp]
    have e : rewriteAbsolute (sch ++ A) (rewriteAbsolute (sch ++ A) pre) ++
        (sch ++ A ++ ("/proxy?url=".toList ++ encodeURIComponent (sch ++ A) ++
          "/proxy?url=".toList ++
          rewriteAbsolute (sch ++ A) (encodeURIComponent (scheme ++ host) ++
            rewriteAbsolute (sch ++ A) rest))) =
        (rewriteAbsolute (sch ++ A) (rewriteAbsolute (sch ++ A) pre) ++ (sch ++ A)) ++
          (("/proxy?url=".toList ++ encodeURIComponent (sch ++ A) ++ "/proxy?url=".toList) ++
            rewriteAbsolute (sch ++ A) (encodeURIComponent (scheme ++ host) ++
              rewriteAbsolute (sch ++ A) rest)) := by
      simp only [List.append_assoc]
    rw [e]
    exact includes_append_left _ _ _ (includes_start _ _)

theorem rewriting_twice_nests_witness :
    ∃ first second,
      rewriteHtml plainUrl ("http://".toList ++ "proxy.test".toList)
          "https://example.com".toList
          ("see ".toList ++ ("https://".toList ++ ("example.org".toList ++ "/a now".toList))) =
        Except.ok first ∧
      rewriteHtml plainUrl ("http://".toList ++ "proxy.test".toList)
          "https://example.com".toList first = Except.ok second ∧
      second ≠ first ∧
      includes second ("/proxy?url=".toList ++
        encodeURIComponent ("http://".toList ++ "proxy.test".toList) ++
        "/proxy?url=".toList) = true :=
  rewriting_twice_nests plainUrl "https://example.com".toList "https://example.com".toList
    "http://".toList "proxy.test".toList "see ".toList "https://".toList
    "example.org".toList "/a now".toList rfl (Or.inl rfl) (by decide) (by decide)
    (Or.inr rfl) (by decide) (by decide) (by decide)
    (fun d hd => by
      have e : d = ' ' := (Option.some.inj hd).symm
      subst e
      exact ⟨by decide, by decide, by decide⟩)
    (by decide)

/-- C12 (counterexample). With the self base `http://localhost:8080` the second run
proxies `http://localhost` only, so its result does not hold `/proxy?url=` +
`encodeURIComponent(selfBase)` + `/proxy?url=`; and a text whose only absolute URL is
`http://[::1]/x` is left as it is by both runs. -/
theorem rewriting_twice_without_nesting :
    (rewriteHtml plainUrl "http://localhost:8080".toList "https://example.com".toList
        "<p>see https://example.org/a</p>".toList).toOption =
      some ("<p>see http://localhost:8080/proxy?url=".toList ++
        "https%3A%2F%2Fexample.org/a</p>".toList) ∧
    (rewriteHtml plainUrl "http://localhost:8080".toList "https://example.com".toList
        ("<p>see http://localhost:8080/proxy?url=".toList ++
          "https%3A%2F%2Fexample.org/a</p>".toList)).toOption =
      some ("<p>see http://localhost:8080/proxy?url=http%3A%2F%2Flocalhost".toList ++
        ":8080/proxy?url=https%3A%2F%2Fexample.org/a</p>".toList) ∧
    includes ("<p>see http://localhost:8080/proxy?url=http%3A%2F%2Flocalhost".toList ++
        ":8080/proxy?url=https%3A%2F%2Fexample.org/a</p>".toList)
      ("/proxy?url=".toList ++ encodeURIComponent "http://localhost:8080".toList ++
        "/proxy?url=".toList) = false ∧
    (rewriteHtml plainUrl "http://proxy.test".toList "https://example.com".toList
        "<p>see http://[::1]/x</p>".toList).toOption =
      some "<p>see http://[::1]/x</p>".toList := by
  decide

/-! ### The `src` attribute through all passes (C16) -/

/-- A pattern that fails at every position of a text leaves only literal pieces. -/
theorem scan_all_none {m : Text → Option Hit} (s : Text)
    (h : ∀ a b, s = a ++ b → m b = none) (k : Nat) :
    scan m s k = (s.drop k).map Seg.lit := by
  induction s generalizing k with
  | nil => cases k <;> rfl
  | cons c r ih =>
    have hr : ∀ a b, r = a ++ b → m b = none := by
      intro a b e
      exact h (c :: a) b (by rw [e]; rfl)
    cases k with
    | succ k' => rw [scan_succ, List.drop_succ_cons, ih hr]
    | zero =>
      rw [scan_zero, h [] (c :: r) rfl]
      dsimp only
      rw [ih hr 0]
      rfl

/-- A pattern that fails at every position of `pre`, whatever follows, scans `pre` into
literal pieces. -/
theorem scan_front_none {m : Text → Option Hit} (pre x : Text)
    (h : ∀ a c, pre = a ++ c → c ≠ [] → m (c ++ x) = none) :
    scan m (pre ++ x) 0 = pre.map Seg.lit ++ scan m x 0 := by
  induction pre with
  | nil => rfl
  | cons c r ih =>
    have hr : ∀ a c', r = a ++ c' → c' ≠ [] → m (c' ++ x) = none := by
      intro a c' e hc
      exact h (c :: a) c' (by rw [e]; rfl) hc
    rw [List.cons_append, scan_zero, ← List.cons_append,
      h [] (c :: r) rfl (List.cons_ne_nil _ _)]
    dsimp only
    rw [ih hr]
    rfl

/-- A literal that holds `q`, but not behind its first character the character `z`, is
not found across the end of a non-empty text without `q` that `z` follows. -/
theorem dropLit_across {q z : Char} (lit : Text) (s x : Text)
    (hs : s ≠ []) (hq : q ∉ s) (hl : q ∈ lit) (hz : z ∉ lit.tail) :
    dropLit lit (s ++ z :: x) = none := by
  induction lit generalizing s with
  | nil => exact absurd hl (List.not_mem_nil _)
  | cons p ps ih =>
    cases s with
    | nil => exact absurd rfl hs
    | cons c cs =>
      rw [List.cons_append]
      unfold dropLit
      by_cases hpc : p = c
      · rw [if_pos hpc]
        have hqp : q ≠ p := fun e => hq (by rw [e, hpc]; exact List.mem_cons_self _ _)
        have hqps : q ∈ ps := by
          rcases List.mem_cons.1 hl with h | h
          · exact absurd h hqp
          · exact h
        have hzps : z ∉ ps := hz
        cases cs with
        | nil =>
          rw [List.nil_append]
          cases ps with
          | nil => exact absurd hqps (List.not_mem_nil _)
          | cons p2 ps2 =>
            unfold dropLit
            rw [if_neg (fun e => hzps (by rw [e]; exact List.mem_cons_self _ _))]
        | cons c2 cs2 =>
          exact ih (c2 :: cs2) (List.cons_ne_nil _ _)
            (fun h => hq (List.mem_cons_of_mem _ h)) hqps
            (fun h => hzps (List.mem_of_mem_tail h))
      · rw [if_neg hpc]

theorem includes_without {n s : Text} {q : Char} (hq : q ∈ n) (hs : q ∉ s) :
    includes s n = false := by
  induction s with
  | nil =>
    cases n with
    | nil => exact absurd hq (List.not_mem_nil _)
    | cons a r => rfl
  | cons c r ih =>
    rw [includes_cons, ih (fun h => hs (List.mem_cons_of_mem _ h)), Bool.or_false]
    cases hp : n.isPrefixOf (c :: r) with
    | false => rfl
    | true =>
      rw [List.isPrefixOf_iff_prefix] at hp
      exact absurd (hp.subset hq) hs

theorem splitAt1_append {d : Char} (a b : Text) (ha : d ∉ a) :
    splitAt1 d (a ++ d :: b) = some (a, b) := by
  induction a with
  | nil =>
    rw [List.nil_append]
    unfold splitAt1
    rw [if_pos rfl]
  | cons c r ih =>
    rw [List.cons_append]
    unfold splitAt1
    have hc : ¬ c = d := fun e => ha (by rw [← e]; exact List.mem_cons_self _ _)
    rw [if_neg hc, ih (fun h => ha (List.mem_cons_of_mem _ h))]

theorem splitAt1_some {d : Char} {s a b : Text} (h : splitAt1 d s = some (a, b)) :
    s = a ++ d :: b := by
  induction s generalizing a b with
  | nil => exact absurd h (by simp [splitAt1])
  | cons c r ih =>
    unfold splitAt1 at h
    split at h
    · rename_i hc
      simp only [Option.some.injEq, Prod.mk.injEq] at h
      rw [← h.1, ← h.2, hc]
      rfl
    · cases hr : splitAt1 d r with
      | none => rw [hr] at h; exact absurd h (by simp)
      | some q =>
        obtain ⟨a', b'⟩ := q
        rw [hr] at h
        simp only [Option.some.injEq, Prod.mk.injEq] at h
        rw [← h.1, ← h.2, ih hr]
        rfl

theorem matchRooted_quotes {attr t : Text} {h : Hit} (hm : matchRooted attr t = some h) :
    2 ≤ t.count '"' := by
  unfold matchRooted at hm
  cases hd : dropLit (attr ++ "=\"/".toList) t with
  | none => rw [hd] at hm; exact absurd hm (by simp)
  | some r =>
    rw [hd] at hm
    dsimp only at hm
    cases hsp : splitAt1 '"' r with
    | none => rw [hsp] at hm; exact absurd hm (by simp)
    | some q =>
      obtain ⟨path, rest⟩ := q
      rw [dropLit_some hd, splitAt1_some hsp]
      simp only [List.count_append, List.count_cons_self]
      have : List.count '"' "=\"/".toList = 1 := by decide
      omega

theorem matchRooted_first {attr t : Text} {a0 x : Char} (ha : attr.head? = some a0)
    (hx : x ≠ a0) : matchRooted attr (x :: t) = none := by
  unfold matchRooted
  cases attr with
  | nil => exact absurd ha (by simp)
  | cons a r =>
    have e : a = a0 := Option.some.inj ha
    rw [List.cons_append]
    unfold dropLit
    rw [if_neg (fun h => hx (by rw [← e, h]))]

theorem matchRooted_across {attr : Text} (hz : 's' ∉ (attr ++ "=\"/".toList).tail)
    (s x : Text) (hs : s ≠ []) (hq : '"' ∉ s) : matchRooted attr (s ++ 's' :: x) = none := by
  unfold matchRooted
  rw [dropLit_across (q := '"') _ s x hs hq (List.mem_append_right _ (by decide)) hz]

/-- Neither `href="/…"` nor `action="/…"` is found anywhere in a text whose only double
quotes are those of one `src` attribute. -/
theorem matchRooted_quiet {attr : Text} {a0 : Char} (ha : attr.head? = some a0)
    (ha0 : a0 ∉ "src=\"".toList) (hz : 's' ∉ (attr ++ "=\"/".toList).tail)
    (pre v post : Text) (hpre : '"' ∉ pre) (hv : '"' ∉ v) (hpost : '"' ∉ post) :
    ∀ a b, pre ++ ("src=\"".toList ++ (v ++ '"' :: post)) = a ++ b →
      matchRooted attr b = none := by
  have hcount : ∀ a b, v ++ '"' :: post = a ++ b → matchRooted attr b = none := by
    intro a b e
    cases hm : matchRooted attr b with
    | none => rfl
    | some h =>
      have h2 := matchRooted_quotes hm
      have h1 : List.count '"' (v ++ '"' :: post) = 1 := by
        rw [List.count_append, List.count_cons_self, List.count_eq_zero_of_not_mem hv,
          List.count_eq_zero_of_not_mem hpost]
      rw [e, List.count_append] at h1
      omega
  intro a b e
  rcases List.append_eq_append_iff.1 e with ⟨a', _, e1⟩ | ⟨c', e1, e2⟩
  · rcases List.append_eq_append_iff.1 e1 with ⟨a'', _, e3⟩ | ⟨c'', e3, e4⟩
    · exact hcount a'' b e3
    · cases c'' with
      | nil =>
        rw [List.nil_append] at e4
        exact hcount [] b (by rw [e4]; rfl)
      | cons x r =>
        rw [e4, List.cons_append]
        apply matchRooted_first ha
        intro hx
        apply ha0
        rw [← hx, e3]
        exact List.mem_append_right _ (List.mem_cons_self _ _)
  · cases c' with
    | nil =>
      rw [List.nil_append] at e2
      rw [e2]
      exact matchRooted_first ha (fun hx => ha0 (by rw [← hx]; decide))
    | cons x r =>
      rw [e2]
      exact matchRooted_across hz (x :: r) _ (List.cons_ne_nil _ _)
        (fun h => hpre (by rw [e1]; exact List.mem_append_right _ h))

theorem rewriteRooted_quiet (api : UrlApi) (attr : Text) (a0 : Char)
    (ha : attr.head? = some a0) (ha0 : a0 ∉ "src=\"".toList)
    (hz : 's' ∉ (attr ++ "=\"/".toList).tail) (selfBase target : Text)
    (pre v post : Text) (hpre : '"' ∉ pre) (hv : '"' ∉ v) (hpost : '"' ∉ post) :
    rewriteRooted api attr selfBase target
        (pre ++ ("src=\"".toList ++ (v ++ '"' :: post))) =
      Except.ok (pre ++ ("src=\"".toList ++ (v ++ '"' :: post))) := by
  unfold rewriteRooted replaceAllM
  rw [scan_all_none _ (matchRooted_quiet ha ha0 hz pre v post hpre hv hpost) 0]
  exact renderM_lits _ _

theorem matchSrc_at {sch : Text} (hsch : sch = "http://".toList ∨ sch = "https://".toList)
    (u post : Text) (hu0 : u ≠ []) (hu : '"' ∉ u) :
    matchSrc ("src=\"".toList ++ (sch ++ (u ++ '"' :: post))) =
      some ⟨"src=\"".toList ++ sch ++ u ++ "\"".toList, u⟩ := by
  unfold matchSrc
  rw [dropLit_append]
  dsimp only
  rw [matchScheme_at hsch]
  dsimp only
  rw [splitAt1_append u post hu]
  dsimp only
  cases u with
  | nil => exact absurd rfl hu0
  | cons c r => rfl

theorem matchSrc_across (s x : Text) (hs : s ≠ []) (hq : '"' ∉ s) :
    matchSrc (s ++ 's' :: x) = none := by
  unfold matchSrc
  rw [dropLit_across (q := '"') _ s x hs hq (by decide) (by decide)]

/-- The `src` pass on a text whose only double quotes are those of one `src` attribute
with an absolute address. -/
theorem rewriteSrc_single (selfBase pre sch u post : Text)
    (hsch : sch = "http://".toList ∨ sch = "https://".toList)
    (hu0 : u ≠ []) (hu : '"' ∉ u) (hpre : '"' ∉ pre) (hpost : '"' ∉ post) :
    rewriteSrc selfBase (pre ++ ("src=\"".toList ++ (sch ++ (u ++ '"' :: post)))) =
      pre ++ (("src=\"".toList ++ proxied selfBase ++ "https://".toList ++ u ++
        "\"".toList) ++ post) := by
  unfold rewriteSrc replaceAll
  have hfront : scan matchSrc (pre ++ ("src=\"".toList ++ (sch ++ (u ++ '"' :: post)))) 0 =
      pre.map Seg.lit ++
        scan matchSrc ("src=\"".toList ++ (sch ++ (u ++ '"' :: post))) 0 := by
    apply scan_front_none
    intro a c e hc
    exact matchSrc_across c _ hc (fun h => hpre (by rw [e]; exact List.mem_append_right _ h))
  have hm := matchSrc_at hsch u post hu0 hu
  have hx : "src=\"".toList ++ (sch ++ (u ++ '"' :: post)) =
      's' :: (("rc=\"".toList ++ sch ++ u ++ "\"".toList) ++ post) := by
    simp
  have hlen : ("src=\"".toList ++ sch ++ u ++ "\"".toList).length - 1 =
      ("rc=\"".toList ++ sch ++ u ++ "\"".toList).length := by
    simp
  rw [hfront, render_append, render_lits]
  rw [hx] at hm ⊢
  rw [scan_zero, hm]
  dsimp only
  rw [hlen, scan_skip, scan_without matchSrc_without post hpost 0, render_hit]
  dsimp only
  rw [List.drop_zero, render_lits]

theorem dropLitCI_lower {lit s r : Text} (h : dropLitCI lit s = some r) :
    lit.isPrefixOf (lower s) = true := by
  induction lit generalizing s with
  | nil => cases s <;> rfl
  | cons p ps ih =>
    cases s with
    | nil => exact absurd h (by simp [dropLitCI])
    | cons c cs =>
      unfold dropLitCI at h
      split at h
      · rename_i hpc
        show (p :: ps).isPrefixOf (lowerChar c :: lower cs) = true
        rw [List.isPrefixOf, ih h, hpc]
        simp
      · exact absurd h (by simp)

theorem injectBase_headless (origin s : Text)
    (h : includes (lower s) "<head".toList = false) : injectBase origin s = s := by
  unfold injectBase
  dsimp only
  induction s with
  | nil => rfl
  | cons c r ih =>
    have e : lower (c :: r) = lowerChar c :: lower r := rfl
    rw [e, includes_cons, ← e, Bool.or_eq_false_iff] at h
    have hm : matchHead (c :: r) = none := by
      unfold matchHead
      cases hd : dropLitCI "<head".toList (c :: r) with
      | none => rfl
      | some x =>
        have := dropLitCI_lower hd
        rw [h.1] at this
        exact absurd this (by simp)
    unfold replaceFirst
    rw [hm]
    dsimp only
    rw [ih h.2]

/-- The passes on a text whose only double quotes are those of one `src` attribute with an
absolute address, and which holds no `://` elsewhere and no `<head`. -/
theorem rewriteHtml_src (api : UrlApi) (target origin : Text)
    (sch A pre scheme H P post : Text)
    (ho : api.origin target = Except.ok origin)
    (hsch : sch = "http://".toList ∨ sch = "https://".toList)
    (hA0 : A ≠ []) (hA : ∀ c ∈ A, isHostChar c = true)
    (hs : scheme = "http://".toList ∨ scheme = "https://".toList)
    (hH0 : H ≠ []) (hH : ∀ c ∈ H, isHostChar c = true)
    (qpre : '"' ∉ pre) (qP : '"' ∉ P) (qpost : '"' ∉ post)
    (hu1 : includes (pre ++ "src=\"".toList) "://".toList = false)
    (hu2 : includes ('/' :: (P ++ '"' :: post)) "://".toList = false)
    (hhead : includes (lower (pre ++ ("src=\"".toList ++
      (scheme ++ (H ++ ('/' :: (P ++ '"' :: post))))))) "<head".toList = false) :
    rewriteHtml api (sch ++ A) target
        (pre ++ ("src=\"".toList ++ (scheme ++ (H ++ ('/' :: (P ++ '"' :: post)))))) =
      Except.ok (pre ++ (("src=\"".toList ++ proxied (sch ++ A) ++ "https://".toList ++
        (A ++ ("/proxy?url=".toList ++ encodeURIComponent (scheme ++ H) ++ '/' :: P)) ++
        "\"".toList) ++ post)) := by
  have hS := selfBase_safe hsch hA
  have pass2 : rewriteAbsolute (sch ++ A)
      (pre ++ ("src=\"".toList ++ (scheme ++ (H ++ ('/' :: (P ++ '"' :: post)))))) =
      pre ++ ("src=\"".toList ++ (sch ++ ((A ++ ("/proxy?url=".toList ++
        encodeURIComponent (scheme ++ H) ++ '/' :: P)) ++ '"' :: post))) := by
    rw [← List.append_assoc pre, rewriteAbsolute_at (sch ++ A) (pre ++ "src=\"".toList)
      scheme H ('/' :: (P ++ '"' :: post)) hs hH0 hH
      (fun c hc => by
        have : c = '/' := (Option.some.inj hc).symm
        subst this
        decide)
      (fun d hd => by
        rw [List.getLast?_append] at hd
        have e : d = '"' := (Option.some.inj hd).symm
        subst e
        exact ⟨by decide, by decide, by decide⟩),
      rewriteAbsolute_plain _ _ hu1, rewriteAbsolute_plain _ _ hu2]
    simp only [List.append_assoc, List.cons_append]
  have qu : '"' ∉ A ++ ("/proxy?url=".toList ++ encodeURIComponent (scheme ++ H) ++ '/' :: P) := by
    intro h
    rcases List.mem_append.1 h with h1 | h1
    · exact (hostChar_safe hA _ h1).1 rfl
    · rcases List.mem_append.1 h1 with h2 | h2
      · rcases List.mem_append.1 h2 with h3 | h3
        · exact absurd h3 (by decide)
        · exact (encode_safe _ _ h3).1 rfl
      · rcases List.mem_cons.1 h2 with h3 | h3
        · exact absurd h3 (by decide)
        · exact qP h3
  have qv : '"' ∉ sch ++ (A ++ ("/proxy?url=".toList ++ encodeURIComponent (scheme ++ H) ++
      '/' :: P)) := by
    intro h
    rcases List.mem_append.1 h with h1 | h1
    · exact (hS _ (List.mem_append_left _ h1)).1 rfl
    · exact qu h1
  have hu0 : A ++ ("/proxy?url=".toList ++ encodeURIComponent (scheme ++ H) ++ '/' :: P) ≠ [] :=
    fun e => hA0 (List.append_eq_nil.1 e).1
  have eassoc : pre ++ ("src=\"".toList ++ (sch ++ ((A ++ ("/proxy?url=".toList ++
        encodeURIComponent (scheme ++ H) ++ '/' :: P)) ++ '"' :: post))) =
      pre ++ ("src=\"".toList ++ ((sch ++ (A ++ ("/proxy?url=".toList ++
        encodeURIComponent (scheme ++ H) ++ '/' :: P))) ++ '"' :: post)) := by
    simp only [List.append_assoc]
  unfold rewriteHtml
  rw [ho]
  dsimp only
  rw [injectBase_headless _ _ hhead, pass2, eassoc,
    rewriteRooted_quiet api "href".toList 'h' rfl (by decide) (by decide) _ _ pre _ post qpre qv qpost]
  dsimp only
  rw [rewriteRooted_quiet api "action".toList 'a' rfl (by decide) (by decide) _ _ pre _ post qpre qv
    qpost]
  dsimp only
  rw [← eassoc, rewriteSrc_single (sch ++ A) pre sch _ post hsch hu0 qu qpre qpost]

/-- C16. Pass ordering on `src` attributes.  For every self base `S = scheme://A` (scheme
`http` or `https`, `A` a non-empty run of letters, digits, `.` and `-`), every host `H` of
that kind and every path `P` without double quote, an attribute `src="http://H/P"` or
`src="https://H/P"`, standing in a text that holds no other double quote, no `://` before
the attribute or from its path on, and no `<head`, ends after all passes as
`src="S/proxy?url=https://A/proxy?url=` + `encodeURIComponent(scheme + H)` + `/P"`: the
`src` pass matches what the global pass has written, and the text around the attribute is
unchanged. -/
theorem src_attribute_double_proxied (api : UrlApi) (target origin : Text)
    (sch A pre scheme H P post : Text)
    (ho : api.origin target = Except.ok origin)
    (hsch : sch = "http://".toList ∨ sch = "https://".toList)
    (hA0 : A ≠ []) (hA : ∀ c ∈ A, isHostChar c = true)
    (hs : scheme = "http://".toList ∨ scheme = "https://".toList)
    (hH0 : H ≠ []) (hH : ∀ c ∈ H, isHostChar c = true)
    (qpre : '"' ∉ pre) (qP : '"' ∉ P) (qpost : '"' ∉ post)
    (hu1 : includes (pre ++ "src=\"".toList) "://".toList = false)
    (hu2 : includes ("/".toList ++ P ++ "\"".toList ++ post) "://".toList = false)
    (hhead : includes (lower (pre ++ ("src=\"".toList ++ scheme ++ H ++ "/".toList ++ P ++
      "\"".toList) ++ post)) "<head".toList = false) :
    rewriteHtml api (sch ++ A) target
        (pre ++ ("src=\"".toList ++ scheme ++ H ++ "/".toList ++ P ++ "\"".toList) ++ post) =
      Except.ok (pre ++ ("src=\"".toList ++ (sch ++ A) ++ "/proxy?url=https://".toList ++ A ++
        "/proxy?url=".toList ++ encodeURIComponent (scheme ++ H) ++ "/".toList ++ P ++
        "\"".toList) ++ post) := by
  have e1 : pre ++ ("src=\"".toList ++ scheme ++ H ++ "/".toList ++ P ++ "\"".toList) ++ post =
      pre ++ ("src=\"".toList ++ (scheme ++ (H ++ ('/' :: (P ++ '"' :: post))))) := by
    simp
  have e2 : pre ++ ("src=\"".toList ++ (sch ++ A) ++ "/proxy?url=https://".toList ++ A ++
        "/proxy?url=".toList ++ encodeURIComponent (scheme ++ H) ++ "/".toList ++ P ++
        "\"".toList) ++ post =
      pre ++ (("src=\"".toList ++ proxied (sch ++ A) ++ "https://".toList ++
        (A ++ ("/proxy?url=".toList ++ encodeURIComponent (scheme ++ H) ++ '/' :: P)) ++
        "\"".toList) ++ post) := by
    simp [proxied]
  have e3 : "/".toList ++ P ++ "\"".toList ++ post = '/' :: (P ++ '"' :: post) := by
    simp
  rw [e1] at hhead
  rw [e3] at hu2
  rw [e1, e2]
  exact rewriteHtml_src api target origin sch A pre scheme H P post ho hsch hA0 hA hs hH0 hH
    qpre qP qpost hu1 hu2 hhead

theorem src_attribute_double_proxied_witness :
    rewriteHtml plainUrl ("http://".toList ++ "proxy.test".toList) "https://example.com".toList
        ("<p>x</p><img ".toList ++ ("src=\"".toList ++ "http://".toList ++
          "cdn.example.com".toList ++ "/".toList ++ "img/i.png?t=12:30".toList ++ "\"".toList) ++
          "><p>y</p>".toList) =
      Except.ok ("<p>x</p><img ".toList ++ ("src=\"".toList ++
        ("http://".toList ++ "proxy.test".toList) ++ "/proxy?url=https://".toList ++
        "proxy.test".toList ++ "/proxy?url=".toList ++
        encodeURIComponent ("http://".toList ++ "cdn.example.com".toList) ++ "/".toList ++
        "img/i.png?t=12:30".toList ++ "\"".toList) ++ "><p>y</p>".toList) :=
  src_attribute_double_proxied plainUrl "https://example.com".toList
    "https://example.com".toList "http://".toList "proxy.test".toList "<p>x</p><img ".toList
    "http://".toList "cdn.example.com".toList "img/i.png?t=12:30".toList "><p>y</p>".toList
    rfl (Or.inl rfl) (by decide) (by decide) (Or.inl rfl) (by decide) (by decide)
    (by decide) (by decide) (by decide) (by decide) (by decide) (by decide)

/-- The example of the attribute through the handler. -/
theorem src_attribute_example :
    ((proxyRoute plainUrl (exampleRequest (some "https://example.com".toList))).run
        (always (Outcome.response (exampleUpstream 200 "text/html".toList
          "<img src=\"http://cdn.example.com/i.png\">".toList)))).body =
      Body.text ("<img src=\"http://proxy.test/proxy?url=https://proxy.test/proxy?url=".toList ++
        "http%3A%2F%2Fcdn.example.com/i.png\">".toList) := by
  decide

end NorthFlank
